import Mathlib

/-!
Broadcast audio sink: ring buffer, channel widening and synchronisation handshake.

A shallow embedding of `samples/bluetooth/broadcast_audio_sink/src/main.c`.

* The file-scope variables of `main.c` are the fields of `State`.
* Calls into collaborators (radio stack, I2S driver, codec driver) are recorded
  in log fields of `State`; the values those calls return are supplied by `Env`.
* Pointers are `Option Nat`, with `NULL` as `none`.
* `main` is a control loop that blocks in `k_sem_take`; `MainPc` names its
  blocking points and `main_step` runs it from one blocking point to the next.
-/

namespace BroadcastSink

/-! ## Constants and macros of `main.c` -/

/-- Modelled from the spec: the Kconfig value CONFIG_AUDIO_SAMPLE_RATE_HZ is not
among the sources. 16000 is the rate of the codec preset `BT_CODEC_LC3_CONFIG_16_2`
and the one rate at which a stereo block has the 32 samples that
`audio_datapath_i2s_blk_complete` uses as slot stride, so that `fifo[2560]` holds the
N = 80 slots of the spec. -/
def CONFIG_AUDIO_SAMPLE_RATE_HZ : Nat := 16000

/-- Modelled from the spec: the Kconfig value CONFIG_AUDIO_FRAME_DURATION_US is not
among the sources. 10000 us is the frame duration of the codec preset
`BT_CODEC_LC3_CONFIG_16_2`; at 16 kHz it gives the 160 samples of `audio_buf[160]`. -/
def CONFIG_AUDIO_FRAME_DURATION_US : Nat := 10000

/-- Modelled from the spec: the Kconfig value CONFIG_AUDIO_BIT_DEPTH_OCTETS is not
among the sources; `fifo` and `audio_buf` are `int16_t`, two octets a sample
(CONFIG_AUDIO_BIT_DEPTH_16 enabled). -/
def CONFIG_AUDIO_BIT_DEPTH_OCTETS : Nat := 2

/-- Modelled from the spec: the Kconfig value CONFIG_AUDIO_BIT_DEPTH_BITS is not among
the sources; sixteen bits for the `int16_t` samples. -/
def CONFIG_AUDIO_BIT_DEPTH_BITS : Nat := 16

/-- The macro `NEXT_IDX(i)`: `((i) < (80 - 1)) ? ((i) + 1) : 0`. -/
def NEXT_IDX (i : Nat) : Nat := if i < 80 - 1 then i + 1 else 0

/-- The macro `PREV_IDX(i)`: `((i) > 0) ? ((i)-1) : (80 - 1)`. -/
def PREV_IDX (i : Nat) : Nat := if i > 0 then i - 1 else 80 - 1

def BLK_PERIOD_US : Nat := 1000

def NUM_BLKS (d : Nat) : Nat := d / BLK_PERIOD_US

def BLK_SIZE_SAMPLES (r : Nat) : Nat := (r * BLK_PERIOD_US) / 1000000

def NUM_BLKS_IN_FRAME : Nat := NUM_BLKS CONFIG_AUDIO_FRAME_DURATION_US

def BLK_MONO_NUM_SAMPS : Nat := BLK_SIZE_SAMPLES CONFIG_AUDIO_SAMPLE_RATE_HZ

def BLK_STEREO_NUM_SAMPS : Nat := BLK_MONO_NUM_SAMPS * 2

def BLK_MONO_SIZE_OCTETS : Nat := BLK_MONO_NUM_SAMPS * CONFIG_AUDIO_BIT_DEPTH_OCTETS

def BLK_STEREO_SIZE_OCTETS : Nat := BLK_MONO_SIZE_OCTETS * 2

/-- Number of elements of `fifo` (`static int16_t fifo[2560]`). -/
def FIFO_NUM_SAMPS : Nat := 2560

/-- Modelled from the spec: the macro `BIT(n)` of the Zephyr headers is not among the
sources; bit `n` of a 32-bit word (`1UL << n`). -/
def BIT (n : Nat) : Nat := (1 <<< n) % 2 ^ 32

/-- Modelled from the spec: the macro `BIT_MASK(n)` of the Zephyr headers is not among
the sources; the mask of width `n`, that is `BIT(n) - 1UL` in unsigned 32-bit
arithmetic. -/
def BIT_MASK (n : Nat) : Nat := (BIT n + 2 ^ 32 - 1) % 2 ^ 32

/-- The constant `bis_index_mask = BIT_MASK(ARRAY_SIZE(streams) + 1U)`; the length of
`streams` is CONFIG_BT_AUDIO_BROADCAST_SNK_STREAM_COUNT, a Kconfig value that is not
among the sources and is taken as the parameter `stream_count`. -/
def bis_index_mask (stream_count : Nat) : Nat := BIT_MASK (stream_count + 1)

/-! ## Data model -/

/-- A C pointer; `NULL` is `none`. -/
abbrev Ptr := Option Nat

/-- One entry of `bis_data`: the BIS index (`uint8_t index`). -/
structure bt_audio_base_bis_data where
  index : Nat
deriving DecidableEq, Repr

/-- A subgroup of a BASE: `bis_data[0 .. bis_count)`, the count being the list length. -/
structure bt_audio_base_subgroup where
  bis_data : List bt_audio_base_bis_data
deriving DecidableEq, Repr

/-- A BASE: `subgroups[0 .. subgroup_count)`, the count being the list length. -/
structure bt_audio_base where
  subgroups : List bt_audio_base_subgroup
deriving DecidableEq, Repr

/-- The blocking points of `main`: before the first iteration, inside each of the five
`k_sem_take` calls of the loop, and after a `return`. -/
inductive MainPc where
  | top
  | wait_broadcaster_found
  | wait_pa_synced
  | wait_base_received
  | wait_syncable
  | wait_pa_sync_lost
  | returned
deriving DecidableEq, Repr

/-- The two function-static transmit buffers `tx_buf_one` and `tx_buf_two` of
`stream_recv_cb` (32 zero samples each). -/
inductive TxBuf where
  | tx_buf_one
  | tx_buf_two
deriving DecidableEq, Repr

/-- A call into the I2S driver made by `stream_recv_cb`. -/
inductive I2sCall where
  | audio_i2s_start (tx_buf : TxBuf)
  | audio_i2s_set_next_buf (tx_buf : TxBuf)
deriving DecidableEq, Repr

/-- The messages `stream_recv_cb` prints with `printk`. -/
inductive RecvMsg where
  | decoder_not_setup
  | decoder_failed
  | zero_pad_failed
deriving DecidableEq, Repr

/-- The file-scope variables of `main.c`, the position of `main`, and the calls made
into collaborators so far. -/
structure State where
  /-- Count of `sem_broadcaster_found` (limit 1). -/
  sem_broadcaster_found : Nat
  /-- Count of `sem_pa_synced` (limit 1). -/
  sem_pa_synced : Nat
  /-- Count of `sem_base_received` (limit 1). -/
  sem_base_received : Nat
  /-- Count of `sem_syncable` (limit 1). -/
  sem_syncable : Nat
  /-- Count of `sem_pa_sync_lost` (limit 1). -/
  sem_pa_sync_lost : Nat
  broadcast_sink : Ptr
  bis_index_bitfield : Nat
  start_i2s_out : Int
  fifo : List Int
  prod_blk_idx : Nat
  cons_blk_idx : Nat
  streaming : Bool
  /-- Where `main` is blocked. -/
  pc : MainPc
  /-- Arguments of the calls of `bt_audio_broadcast_sink_delete`, oldest first. -/
  deleted : List Ptr
  /-- Number of calls of `bt_audio_broadcast_sink_scan_start`. -/
  scan_starts : Nat
  /-- Arguments (sink, BIS bitfield) of the calls of `bt_audio_broadcast_sink_sync`. -/
  sync_calls : List (Ptr × Nat)
  /-- Offsets into `fifo` (in samples) of the buffers handed to
  `audio_i2s_set_next_buf` by `audio_datapath_i2s_blk_complete`, oldest first. -/
  next_bufs : List Nat
  /-- Number of calls of `hw_codec_soft_reset`. -/
  soft_resets : Nat
  /-- The decoder handle `lc3_decoder`; `NULL` until `init_lc3` has set it up. -/
  lc3_decoder : Ptr
  frames_per_sdu : Int
  /-- The array `audio_buf[160]`. -/
  audio_buf : List Int
  /-- The function-static array `pcm_data_stereo` of `stream_recv_cb`, 640 elements. -/
  pcm_data_stereo : List Int
  /-- Arguments (input buffer or `NULL`, byte count) of the calls of `lc3_decode`, oldest
  first. -/
  lc3_calls : List (Option (List Nat) × Int)
  /-- The calls into the I2S driver made by `stream_recv_cb`, oldest first. -/
  i2s_calls : List I2sCall
  /-- The messages printed by `stream_recv_cb`, oldest first. -/
  printed : List RecvMsg
deriving DecidableEq, Repr

/-- The state at the start of `main`: the static initialisers of `main.c`. -/
def init_state : State where
  sem_broadcaster_found := 0
  sem_pa_synced := 0
  sem_base_received := 0
  sem_syncable := 0
  sem_pa_sync_lost := 0
  broadcast_sink := none
  bis_index_bitfield := 0
  start_i2s_out := 10
  fifo := List.replicate FIFO_NUM_SAMPS 0
  prod_blk_idx := 0
  cons_blk_idx := 0
  streaming := false
  pc := MainPc.top
  deleted := []
  scan_starts := 0
  sync_calls := []
  next_bufs := []
  soft_resets := 0
  lc3_decoder := none
  frames_per_sdu := 0
  audio_buf := List.replicate 160 0
  pcm_data_stereo := List.replicate 640 0
  lc3_calls := []
  i2s_calls := []
  printed := []

/-- What the collaborator calls made during one run of `main` return:
`bt_audio_broadcast_sink_delete`, `bt_audio_broadcast_sink_scan_start` and
`bt_audio_broadcast_sink_sync`. -/
structure Env where
  delete_err : Int
  scan_err : Int
  sync_err : Int
deriving DecidableEq, Repr

/-! ## Kernel semaphores -/

/-- Modelled from the spec: `k_sem_give` of the Zephyr kernel is not among the sources.
All semaphores of `main.c` have limit 1 (`K_SEM_DEFINE(name, 0U, 1U)`): giving raises
the count unless it is at the limit. -/
def k_sem_give (count : Nat) : Nat := if count ≠ 1 then count + 1 else count

/-- Modelled from the spec: `k_sem_reset` of the Zephyr kernel is not among the
sources; it sets the count to zero. -/
def k_sem_reset (_count : Nat) : Nat := 0

/-- Modelled from the spec: `k_sem_count_get` of the Zephyr kernel is not among the
sources; it returns the count. -/
def k_sem_count_get (count : Nat) : Nat := count

/-- Modelled from the spec: `k_sem_take` of the Zephyr kernel is not among the sources.
With a non-zero count the take succeeds at once (return value 0, count decremented).
With a zero count the caller stays blocked (`none`) until the stage deadline of the
spec has passed (`expired`), when the call returns `-EAGAIN` (-11). A wait with
`K_FOREVER` is a call with `expired = false`. -/
def k_sem_take (count : Nat) (expired : Bool) : Option (Int × Nat) :=
  if count ≠ 0 then some (0, count - 1)
  else if expired then some (-11, count)
  else none

/-! ## Audio path -/

/-- The call `memcpy(&dst[d], &src[s], n * sizeof(int16_t))` on `int16_t` arrays: element
`s + t` of `src` goes to element `d + t` of `dst` for `t < n`. -/
def memcpy (dst : List Int) (d : Nat) (src : List Int) (s : Nat) : Nat → List Int
  | 0 => dst
  | n + 1 => (memcpy dst d src s n).set (d + n) (src.getD (s + n) 0)

/-- The inner loop `for (j = 0; j < bytes_per_sample; j++) *pointer_output++ = *pointer_input++;`
of `pscm_zero_pad`, with `n` iterations left. -/
def pscm_copy_sample (input : List Nat) : Nat → Nat → Nat → List Nat → List Nat
  | 0, _, _, output => output
  | n + 1, pointer_input, pointer_output, output =>
    pscm_copy_sample input n (pointer_input + 1) (pointer_output + 1)
      (output.set pointer_output (input.getD pointer_input 0))

/-- The inner loop `for (j = 0; j < bytes_per_sample; j++) *pointer_output++ = 0;` of
`pscm_zero_pad`, with `n` iterations left. -/
def pscm_zero_sample : Nat → Nat → List Nat → List Nat
  | 0, _, output => output
  | n + 1, pointer_output, output =>
    pscm_zero_sample n (pointer_output + 1) (output.set pointer_output 0)

/-- The outer loop of `pscm_zero_pad`, with `n` iterations left: one sample is copied,
then one sample of zero bytes is written, and both pointers have advanced. -/
def pscm_loop (input : List Nat) (bytes_per_sample : Nat) :
    Nat → Nat → Nat → List Nat → List Nat
  | 0, _, _, output => output
  | n + 1, pointer_input, pointer_output, output =>
    pscm_loop input bytes_per_sample n (pointer_input + bytes_per_sample)
      (pointer_output + bytes_per_sample + bytes_per_sample)
      (pscm_zero_sample bytes_per_sample (pointer_output + bytes_per_sample)
        (pscm_copy_sample input bytes_per_sample pointer_input pointer_output output))

/-- The function `pscm_zero_pad`. `input` and `output` are the two byte buffers behind the
pointers (they do not overlap). The result is the return value, the output buffer and
`*output_size`; it is `none` when `bytes_per_sample` is zero, where the C code divides by
zero. `bytes_per_sample` is a `uint8_t`, `*output_size` a 32-bit `size_t`. -/
def pscm_zero_pad (input : List Nat) (input_size : Nat) (pcm_bit_depth : Nat)
    (output : List Nat) : Option (Int × List Nat × Nat) :=
  let bytes_per_sample := (pcm_bit_depth / 8) % 2 ^ 8
  if bytes_per_sample = 0 then none
  else
    some (0,
      pscm_loop input bytes_per_sample (input_size / bytes_per_sample) 0 0 output,
      (input_size * 2) % 2 ^ 32)

/-- Sample `k` of a byte buffer whose samples have `bytes_per_sample` bytes. -/
def sample_at (buf : List Nat) (bytes_per_sample : Nat) (k : Nat) : List Nat :=
  (buf.drop (k * bytes_per_sample)).take bytes_per_sample

/-- One iteration of the loop `for (i = 0; i < NUM_BLKS_IN_FRAME; i++)` of
`stream_recv_cb` (the producer step, CONFIG_AUDIO_BIT_DEPTH_16 enabled): block `i` of
`pcm_data_stereo` is copied to slot `prod_blk_idx` of `fifo`, then
`prod_blk_idx = NEXT_IDX(prod_blk_idx)`. The `memcpy` of BLK_STEREO_SIZE_OCTETS bytes
moves half as many `int16_t` elements. -/
def stream_recv_cb_fill_blk (st : State) (pcm_data_stereo : List Int) (i : Nat) : State :=
  { st with
    fifo := memcpy st.fifo (st.prod_blk_idx * BLK_STEREO_NUM_SAMPS)
      pcm_data_stereo (i * BLK_STEREO_NUM_SAMPS) (BLK_STEREO_SIZE_OCTETS / 2)
    prod_blk_idx := NEXT_IDX st.prod_blk_idx }

/-- The function `audio_datapath_i2s_blk_complete`. -/
def audio_datapath_i2s_blk_complete (st : State) : State :=
  if st.streaming then
    let next_out_blk_idx := NEXT_IDX st.cons_blk_idx
    { st with
      next_bufs := st.next_bufs ++ [next_out_blk_idx * 32]
      cons_blk_idx := next_out_blk_idx }
  else
    { st with soft_resets := st.soft_resets + 1 }

/-- The initial state with the streams started and the consumer index at `c`. -/
def streaming_from (c : Nat) : State :=
  { init_state with cons_blk_idx := c, streaming := true }

/-- Pushing a sequence of blocks, each with one producer step. -/
def push_blocks (st : State) (blocks : List (List Int)) : State :=
  blocks.foldl (fun s b => stream_recv_cb_fill_blk s b 0) st

/-- Test blocks: block `i` of `numbered_blocks n` is 32 samples of value `i`. -/
def numbered_blocks (n : Nat) : List (List Int) :=
  (List.range n).map (fun (i : Nat) => List.replicate 32 (Int.ofNat i))

/-- Running `k` consumer ticks. -/
def consumer_ticks : Nat → State → State
  | 0, st => st
  | k + 1, st => consumer_ticks k (audio_datapath_i2s_blk_complete st)

/-- The 32 samples the output interface finds at offset `off` of `fifo`. -/
def tx_block (fifo : List Int) (off : Nat) : List Int := (fifo.drop off).take 32

/-- The blocks handed to the output interface so far, oldest first. -/
def handed_out (st : State) : List (List Int) := st.next_bufs.map (tx_block st.fifo)

/-! ## Callbacks of the radio stack -/

def stream_started_cb (st : State) : State := { st with streaming := true }

def stream_stopped_cb (st : State) : State := { st with streaming := false }

/-- The function `scan_recv_cb`; the return value is always `true`. -/
def scan_recv_cb (st : State) : State × Bool :=
  ({ st with sem_broadcaster_found := k_sem_give st.sem_broadcaster_found }, true)

/-- The function `scan_term_cb` only prints. -/
def scan_term_cb (st : State) (_err : Int) : State := st

def pa_synced_cb (st : State) (sink : Ptr) : State :=
  if st.broadcast_sink ≠ none then st
  else { st with broadcast_sink := sink, sem_pa_synced := k_sem_give st.sem_pa_synced }

/-- The inner loop of `base_recv_cb` over the BIS entries of one subgroup. -/
def base_recv_cb_subgroup (acc : Nat) (sg : bt_audio_base_subgroup) : Nat :=
  sg.bis_data.foldl (fun a b => (a ||| BIT b.index) % 2 ^ 32) acc

/-- The function `base_recv_cb`. -/
def base_recv_cb (stream_count : Nat) (st : State) (base : bt_audio_base) : State :=
  if k_sem_count_get st.sem_base_received ≠ 0 then st
  else
    let base_bis_index_bitfield := base.subgroups.foldl base_recv_cb_subgroup 0
    { st with
      bis_index_bitfield := base_bis_index_bitfield &&& bis_index_mask stream_count
      sem_base_received := k_sem_give st.sem_base_received }

def syncable_cb (st : State) (encrypted : Bool) : State :=
  if encrypted then st
  else { st with sem_syncable := k_sem_give st.sem_syncable }

def pa_sync_lost_cb (st : State) : State :=
  if st.broadcast_sink = none then st
  else { st with broadcast_sink := none, streaming := false }

/-! ## The control loop of `main` -/

/-- The function `reset`. -/
def reset (st : State) (env : Env) : State :=
  let st := { st with
    bis_index_bitfield := 0
    sem_broadcaster_found := k_sem_reset st.sem_broadcaster_found
    sem_pa_synced := k_sem_reset st.sem_pa_synced
    sem_base_received := k_sem_reset st.sem_base_received
    sem_syncable := k_sem_reset st.sem_syncable
    sem_pa_sync_lost := k_sem_reset st.sem_pa_sync_lost }
  if st.broadcast_sink ≠ none then
    let st := { st with deleted := st.deleted ++ [st.broadcast_sink] }
    if env.delete_err ≠ 0 then st
    else { st with broadcast_sink := none }
  else st

/-- The head of the `while (true)` loop of `main`: `reset()`, then
`bt_audio_broadcast_sink_scan_start`, then the wait on `sem_broadcaster_found`. -/
def main_loop_top (st : State) (env : Env) : State :=
  let st := reset st env
  let st := { st with scan_starts := st.scan_starts + 1 }
  if env.scan_err ≠ 0 then { st with pc := MainPc.returned }
  else { st with pc := MainPc.wait_broadcaster_found }

/-- One run of `main` from its blocking point to the next one. -/
def main_step (st : State) (env : Env) (expired : Bool) : State :=
  match st.pc with
  | MainPc.top => main_loop_top st env
  | MainPc.wait_broadcaster_found =>
    match k_sem_take st.sem_broadcaster_found expired with
    | none => st
    | some (err, count) =>
      if err ≠ 0 then main_loop_top { st with sem_broadcaster_found := count } env
      else { st with sem_broadcaster_found := count, pc := MainPc.wait_pa_synced }
  | MainPc.wait_pa_synced =>
    match k_sem_take st.sem_pa_synced expired with
    | none => st
    | some (err, count) =>
      if err ≠ 0 then main_loop_top { st with sem_pa_synced := count } env
      else { st with sem_pa_synced := count, pc := MainPc.wait_base_received }
  | MainPc.wait_base_received =>
    match k_sem_take st.sem_base_received expired with
    | none => st
    | some (err, count) =>
      if err ≠ 0 then main_loop_top { st with sem_base_received := count } env
      else { st with sem_base_received := count, pc := MainPc.wait_syncable }
  | MainPc.wait_syncable =>
    match k_sem_take st.sem_syncable expired with
    | none => st
    | some (err, count) =>
      if err ≠ 0 then main_loop_top { st with sem_syncable := count } env
      else
        let st := { st with
          sem_syncable := count
          sync_calls := st.sync_calls ++ [(st.broadcast_sink, st.bis_index_bitfield)] }
        if env.sync_err ≠ 0 then { st with pc := MainPc.returned }
        else { st with pc := MainPc.wait_pa_sync_lost }
  | MainPc.wait_pa_sync_lost =>
    match k_sem_take st.sem_pa_sync_lost false with
    | none => st
    | some (_, count) => main_loop_top { st with sem_pa_sync_lost := count } env
  | MainPc.returned => st

/-- What can happen next: a callback of the radio stack, or a run of `main` with the
answers of the collaborators and whether the deadline of its wait has passed. -/
inductive Event where
  | scan_recv
  | scan_term (err : Int)
  | pa_synced (sink : Ptr)
  | base_recv (base : bt_audio_base)
  | syncable (encrypted : Bool)
  | pa_sync_lost
  | stream_started
  | stream_stopped
  | main_run (env : Env) (expired : Bool)
deriving DecidableEq, Repr

/-- One event applied to the state. -/
def step (stream_count : Nat) (st : State) : Event → State
  | Event.scan_recv => (scan_recv_cb st).1
  | Event.scan_term err => scan_term_cb st err
  | Event.pa_synced sink => pa_synced_cb st sink
  | Event.base_recv base => base_recv_cb stream_count st base
  | Event.syncable encrypted => syncable_cb st encrypted
  | Event.pa_sync_lost => pa_sync_lost_cb st
  | Event.stream_started => stream_started_cb st
  | Event.stream_stopped => stream_stopped_cb st
  | Event.main_run env expired => main_step st env expired

/-- Whether the event is a callback of the radio stack (not a run of `main`). -/
def is_callback : Event → Bool
  | Event.main_run _ _ => false
  | _ => true

/-- Whether the event is a run of `main` for which the deadline of its wait has passed. -/
def deadline_passed : Event → Bool
  | Event.main_run _ expired => expired
  | _ => false

/-- A run: the events applied in order. -/
def run (stream_count : Nat) (st : State) (evs : List Event) : State :=
  evs.foldl (step stream_count) st

/-- The number of stage waits that `main` has passed in the current iteration of its
loop. -/
def waits_passed : MainPc → Nat
  | MainPc.top => 0
  | MainPc.wait_broadcaster_found => 0
  | MainPc.wait_pa_synced => 1
  | MainPc.wait_base_received => 2
  | MainPc.wait_syncable => 3
  | MainPc.wait_pa_sync_lost => 4
  | MainPc.returned => 0

/-- The count of the semaphore that `main` is blocked on, for the four stage waits. -/
def awaited_count (st : State) : Nat :=
  match st.pc with
  | MainPc.wait_broadcaster_found => st.sem_broadcaster_found
  | MainPc.wait_pa_synced => st.sem_pa_synced
  | MainPc.wait_base_received => st.sem_base_received
  | MainPc.wait_syncable => st.sem_syncable
  | _ => 0

/-- Whether `main` is blocked in one of the four stage waits. -/
def in_stage_wait : MainPc → Bool
  | MainPc.wait_broadcaster_found => true
  | MainPc.wait_pa_synced => true
  | MainPc.wait_base_received => true
  | MainPc.wait_syncable => true
  | _ => false

/-- Collaborator answers with every call succeeding. -/
def env_ok : Env := { delete_err := 0, scan_err := 0, sync_err := 0 }

/-- The BASE of the scenario in the spec: one subgroup with the BIS indices 2 and 5. -/
def base_2_5 : bt_audio_base :=
  { subgroups := [{ bis_data := [{ index := 2 }, { index := 5 }] }] }

/-- A BASE with one subgroup holding the single BIS index `i`. -/
def base_single (i : Nat) : bt_audio_base :=
  { subgroups := [{ bis_data := [{ index := i }] }] }

/-! ## The handshake in the words of the spec -/

/-- The states of `SyncSession.state` in the spec that one attempt passes through. -/
inductive SyncStage where
  | Scanning
  | AwaitingPaSync
  | AwaitingDescription
  | AwaitingSyncable
  | JoiningStreams
deriving DecidableEq, Repr

/-- How many stage events the spec state has behind it. -/
def SyncStage.rank : SyncStage → Nat
  | SyncStage.Scanning => 0
  | SyncStage.AwaitingPaSync => 1
  | SyncStage.AwaitingDescription => 2
  | SyncStage.AwaitingSyncable => 3
  | SyncStage.JoiningStreams => 4

/-- The SyncStateMachine operations in the words of the spec (section 4.1), for one
attempt without timeout: `onDiscovery` is valid only in Scanning, `onPaSynced` only in
AwaitingPaSync, `onDescriptionReceived` only once, in AwaitingDescription, `onSyncable`
advances to JoiningStreams when not encrypted and goes back to Scanning when encrypted;
an event that is not valid in the current state is ignored. -/
def spec_on_event : SyncStage → Event → SyncStage
  | SyncStage.Scanning, Event.scan_recv => SyncStage.AwaitingPaSync
  | SyncStage.AwaitingPaSync, Event.pa_synced _ => SyncStage.AwaitingDescription
  | SyncStage.AwaitingDescription, Event.base_recv _ => SyncStage.AwaitingSyncable
  | SyncStage.AwaitingSyncable, Event.syncable false => SyncStage.JoiningStreams
  | SyncStage.AwaitingSyncable, Event.syncable true => SyncStage.Scanning
  | s, _ => s

/-- The spec state matching the last validly ordered event of a sequence. -/
def spec_stage (evs : List Event) : SyncStage :=
  evs.foldl spec_on_event SyncStage.Scanning

/-! ## Sample runs -/

/-- A handshake up to the wait for syncable: the first run of `main`, then discovery,
PA sync with sink 1 and the BASE of the spec scenario, each followed by a run of `main`. -/
def run_to_syncable_wait : List Event :=
  [Event.main_run env_ok false, Event.scan_recv, Event.main_run env_ok false,
   Event.pa_synced (some 1), Event.main_run env_ok false,
   Event.base_recv base_2_5, Event.main_run env_ok false]

/-- A complete handshake: as before, then an unencrypted syncable event, the run of
`main` that calls `bt_audio_broadcast_sink_sync` with success, and the start of a stream. -/
def run_to_final_wait : List Event :=
  run_to_syncable_wait ++
    [Event.syncable false, Event.main_run env_ok false, Event.stream_started]

/-- A handshake in which the unencrypted syncable event arrives before the discovery:
the first run of `main`, the early syncable event, then discovery, PA sync with sink 1
and the BASE of the spec scenario, each followed by a run of `main`, and one more run. -/
def run_with_early_syncable : List Event :=
  [Event.main_run env_ok false, Event.syncable false, Event.scan_recv,
   Event.main_run env_ok false, Event.pa_synced (some 1), Event.main_run env_ok false,
   Event.base_recv base_2_5, Event.main_run env_ok false, Event.main_run env_ok false]

/-- What the events `pre` delivered since the head of the loop account for in state `st`:
a semaphore is given, a wait has been passed, or the sync call has been made (more than
`calls` entries in `sync_calls`) only if the callback of that stage is among `pre`. -/
def delivered_inv (calls : Nat) (st : State) (pre : List Event) : Prop :=
  st.sem_pa_sync_lost = 0 ∧ st.pc ≠ MainPc.top ∧
  ((st.sem_broadcaster_found ≠ 0 ∨ 1 ≤ waits_passed st.pc ∨ calls < st.sync_calls.length) →
    Event.scan_recv ∈ pre) ∧
  ((st.sem_pa_synced ≠ 0 ∨ 2 ≤ waits_passed st.pc ∨ calls < st.sync_calls.length) →
    ∃ sink, Event.pa_synced sink ∈ pre) ∧
  ((st.sem_base_received ≠ 0 ∨ 3 ≤ waits_passed st.pc ∨ calls < st.sync_calls.length) →
    ∃ base, Event.base_recv base ∈ pre) ∧
  ((st.sem_syncable ≠ 0 ∨ 4 ≤ waits_passed st.pc ∨ calls < st.sync_calls.length) →
    Event.syncable false ∈ pre)

/-- Whether the event leaves a stored sink alone and stays inside the attempt: no report
of a lost sync, no wait timing out, and a PA sync that carries a sink. -/
def keeps_sink : Event → Bool
  | Event.main_run _ expired => !expired
  | Event.pa_sync_lost => false
  | Event.pa_synced sink => sink.isSome
  | _ => true

/-- What the events `pre` delivered since the head of the loop account for in state `st`,
where `start_sink` is `broadcast_sink` as the head of the loop left it: the sink is set
once a PA sync has been delivered, it is set only then (or from the start), and it is
set whenever `sem_pa_synced` is given or the wait for the PA sync has been passed. -/
def sink_inv (start_sink : Ptr) (st : State) (pre : List Event) : Prop :=
  st.sem_pa_sync_lost = 0 ∧ st.pc ≠ MainPc.top ∧
  ((∃ sink, Event.pa_synced sink ∈ pre) → st.broadcast_sink ≠ none) ∧
  (st.broadcast_sink ≠ none → (∃ sink, Event.pa_synced sink ∈ pre) ∨ start_sink ≠ none) ∧
  ((st.sem_pa_synced ≠ 0 ∨ 2 ≤ waits_passed st.pc) → st.broadcast_sink ≠ none)

/-! ## The receive path: `init_lc3` and `stream_recv_cb` -/

/-- The macro `FRAME_SIZE_BYTES_MONO`: `160 * 2`. -/
def FRAME_SIZE_BYTES_MONO : Nat := 160 * 2

/-- The macro `FRAME_SIZE_BYTES_STEREO`: `FRAME_SIZE_BYTES_MONO * 2`, which expands to
`160 * 2 * 2`. -/
def FRAME_SIZE_BYTES_STEREO : Nat := FRAME_SIZE_BYTES_MONO * 2

/-- Modelled from the spec: the flag BT_ISO_FLAGS_VALID of the Zephyr ISO header is not
among the sources; it is the validity flag of a payload, `BIT(0)` of `info->flags`. -/
def BT_ISO_FLAGS_VALID : Nat := BIT 0

/-- The part of `struct bt_iso_recv_info` that `stream_recv_cb` reads. -/
structure bt_iso_recv_info where
  flags : Nat
deriving DecidableEq, Repr

/-- The part of `struct net_buf` that `stream_recv_cb` reads: the payload bytes and their
number (`uint16_t len`). -/
structure net_buf where
  data : List Nat
  len : Nat
deriving DecidableEq, Repr

/-- What one call of `lc3_decode` answers: its return value (0 decoded, 1 concealment
performed, -1 error) and the samples it leaves in the `pcm` buffer, which holds zeros
when the call is made. The codec itself is outside the sources and opaque. -/
structure Lc3Answer where
  ret : Int
  pcm : List Int
deriving DecidableEq, Repr

/-- Low byte of an `int16_t` in memory (little endian, two's complement). -/
def int16_lo (x : Int) : Nat := (x % 65536).toNat % 256

/-- High byte of an `int16_t` in memory. -/
def int16_hi (x : Int) : Nat := (x % 65536).toNat / 256

/-- The `int16_t` stored in two bytes. -/
def int16_of_bytes (lo hi : Nat) : Int :=
  if lo + 256 * hi < 32768 then Int.ofNat (lo + 256 * hi)
  else Int.ofNat (lo + 256 * hi) - 65536

/-- An `int16_t` array seen through a `char *`. -/
def int16s_to_bytes : List Int → List Nat
  | [] => []
  | x :: xs => int16_lo x :: int16_hi x :: int16s_to_bytes xs

/-- A byte buffer seen through an `int16_t *`. -/
def bytes_to_int16s : List Nat → List Int
  | lo :: hi :: rest => int16_of_bytes lo hi :: bytes_to_int16s rest
  | _ => []

/-- The first `n` elements of an `int16_t` array set to zero. -/
def zero_int16s (buf : List Int) : Nat → List Int
  | 0 => buf
  | n + 1 => (zero_int16s buf n).set n 0

/-- The call `memset(buf, 0, nbytes)` on an `int16_t` array. -/
def memset_int16 (buf : List Int) (nbytes : Nat) : List Int :=
  zero_int16s buf (nbytes / 2)

/-- The function `init_lc3`; the two arguments are what
`bt_codec_cfg_get_frame_blocks_per_sdu` and `lc3_setup_decoder` return. -/
def init_lc3 (st : State) (frame_blocks_per_sdu : Int) (decoder : Ptr) : State :=
  { st with frames_per_sdu := frame_blocks_per_sdu, lc3_decoder := decoder }

/-- The first `n` iterations of the loop `for (i = 0; i < NUM_BLKS_IN_FRAME; i++)` of
`stream_recv_cb`. -/
def stream_recv_cb_fill (st : State) (pcm_data_stereo : List Int) : Nat → State
  | 0 => st
  | i + 1 =>
    stream_recv_cb_fill_blk (stream_recv_cb_fill st pcm_data_stereo i) pcm_data_stereo i

/-- The function `stream_recv_cb`. The result is `none` where the C code has no defined
behaviour: `frames_per_sdu` zero in the division that initialises `octets_per_frame`
(it is evaluated before the decoder check), or a zero sample width in `pscm_zero_pad`.
`err` is a `uint8_t`. The counter `start_i2s_out` is an `int32_t` that only moves from
10 down to 0, so its decrement is not wrapped. -/
def stream_recv_cb (st : State) (info : bt_iso_recv_info) (buf : net_buf)
    (dec : Lc3Answer) : Option State :=
  if st.frames_per_sdu = 0 then none
  else
    let octets_per_frame : Int := Int.tdiv (Int.ofNat buf.len) st.frames_per_sdu
    if st.lc3_decoder = none then
      some { st with printed := st.printed ++ [RecvMsg.decoder_not_setup] }
    else
      let in_buf : Option (List Nat) :=
        if info.flags &&& BT_ISO_FLAGS_VALID = 0 then none else some buf.data
      let st := { st with audio_buf := memset_int16 st.audio_buf FRAME_SIZE_BYTES_MONO }
      let st := { st with
        lc3_calls := st.lc3_calls ++ [(in_buf, octets_per_frame)]
        audio_buf := memcpy st.audio_buf 0 dec.pcm 0 160 }
      let err : Int := dec.ret % 2 ^ 8
      let st :=
        if err < 0 then { st with printed := st.printed ++ [RecvMsg.decoder_failed] }
        else st
      let st := { st with
        pcm_data_stereo := memset_int16 st.pcm_data_stereo FRAME_SIZE_BYTES_STEREO }
      match pscm_zero_pad (int16s_to_bytes st.audio_buf) FRAME_SIZE_BYTES_MONO
          CONFIG_AUDIO_BIT_DEPTH_BITS (int16s_to_bytes st.pcm_data_stereo) with
      | none => none
      | some (ret, output, _) =>
        let st := { st with pcm_data_stereo := bytes_to_int16s output }
        let err : Int := ret % 2 ^ 8
        if err ≠ 0 then some { st with printed := st.printed ++ [RecvMsg.zero_pad_failed] }
        else
          let st := stream_recv_cb_fill st st.pcm_data_stereo NUM_BLKS_IN_FRAME
          if st.start_i2s_out = 0 then
            some { st with
              i2s_calls := st.i2s_calls ++
                [I2sCall.audio_i2s_start TxBuf.tx_buf_one,
                 I2sCall.audio_i2s_set_next_buf TxBuf.tx_buf_two] }
          else some { st with start_i2s_out := st.start_i2s_out - 1 }

/-- The content of `audio_buf` after the `memset` and the call of `lc3_decode` in
`stream_recv_cb`. -/
def decoded_frame (st : State) (dec : Lc3Answer) : List Int :=
  memcpy (memset_int16 st.audio_buf FRAME_SIZE_BYTES_MONO) 0 dec.pcm 0 160

/-- The content of `pcm_data_stereo` after the `memset` and the call of `pscm_zero_pad`
in `stream_recv_cb`: the widened stereo frame. -/
def widened_frame (st : State) (dec : Lc3Answer) : List Int :=
  match pscm_zero_pad (int16s_to_bytes (decoded_frame st dec)) FRAME_SIZE_BYTES_MONO
      CONFIG_AUDIO_BIT_DEPTH_BITS
      (int16s_to_bytes (memset_int16 st.pcm_data_stereo FRAME_SIZE_BYTES_STEREO)) with
  | none => []
  | some (_, output, _) => bytes_to_int16s output

/-- The argument `in` of `lc3_decode` in `stream_recv_cb`: `NULL` when the validity flag
is clear, the payload data otherwise. -/
def recv_in_buf (info : bt_iso_recv_info) (buf : net_buf) : Option (List Nat) :=
  if info.flags &&& BT_ISO_FLAGS_VALID = 0 then none else some buf.data

/-- The state of `stream_recv_cb` when its fill loop starts, for a configured decoder. -/
def recv_before_fill (st : State) (info : bt_iso_recv_info) (buf : net_buf)
    (dec : Lc3Answer) : State :=
  { st with
    lc3_calls := st.lc3_calls ++
      [(recv_in_buf info buf, Int.tdiv (Int.ofNat buf.len) st.frames_per_sdu)]
    audio_buf := decoded_frame st dec
    pcm_data_stereo := widened_frame st dec }

/-- The end of `stream_recv_cb`: the output is started when the counter is zero, the
counter is decremented otherwise. -/
def recv_finish (st : State) : State :=
  if st.start_i2s_out = 0 then
    { st with
      i2s_calls := st.i2s_calls ++
        [I2sCall.audio_i2s_start TxBuf.tx_buf_one,
         I2sCall.audio_i2s_set_next_buf TxBuf.tx_buf_two] }
  else { st with start_i2s_out := st.start_i2s_out - 1 }

/-- The value of an `int16_t` after a round trip through memory. -/
def to_int16 (x : Int) : Int := (x + 32768) % 65536 - 32768

/-- What can happen on the audio path: a payload delivered to `stream_recv_cb` (with the
answer of the decoder), a tick of the output clock, or a stream starting or stopping. -/
inductive AudioEvent where
  | recv (info : bt_iso_recv_info) (buf : net_buf) (dec : Lc3Answer)
  | blk_complete
  | stream_started
  | stream_stopped
deriving DecidableEq, Repr

/-- One audio event applied to the state. -/
def audio_step (st : State) : AudioEvent → Option State
  | AudioEvent.recv info buf dec => stream_recv_cb st info buf dec
  | AudioEvent.blk_complete => some (audio_datapath_i2s_blk_complete st)
  | AudioEvent.stream_started => some (stream_started_cb st)
  | AudioEvent.stream_stopped => some (stream_stopped_cb st)

/-- The audio events applied in order, as long as the behaviour is defined. -/
def audio_run : State → List AudioEvent → Option State
  | st, [] => some st
  | st, e :: evs =>
    match audio_step st e with
    | none => none
    | some st1 => audio_run st1 evs

/-- Whether the event is a payload delivery. -/
def is_recv : AudioEvent → Bool
  | AudioEvent.recv _ _ _ => true
  | _ => false

/-- The number of payload deliveries among the events. -/
def recv_count (evs : List AudioEvent) : Nat := (evs.filter is_recv).length

/-- The I2S calls of `m` payloads that find the start counter at zero: each calls
`audio_i2s_start` and then `audio_i2s_set_next_buf`. -/
def start_calls : Nat → List I2sCall
  | 0 => []
  | m + 1 =>
    start_calls m ++
      [I2sCall.audio_i2s_start TxBuf.tx_buf_one,
       I2sCall.audio_i2s_set_next_buf TxBuf.tx_buf_two]

/-- A payload of four bytes. -/
def sample_buf : net_buf := { data := [1, 2, 3, 4], len := 4 }

/-- The state after `init_lc3` has set up a decoder (handle 1) with one frame per SDU. -/
def configured_state : State := init_lc3 init_state 1 (some 1)

/-! ## The codec driver: `hw_codec.c` -/

/-- An operation on the codec chip or the CPU issued by `hw_codec.c`. -/
inductive CodecOp where
  | k_busy_wait (usec : Nat)
  | cs47l63_write_reg (reg value : Nat)
  | cs47l63_read_reg (reg : Nat)
deriving DecidableEq, Repr

/-- The loop of `cs47l63_comm_reg_conf_write` from entry `i` on. `SPI_BUSY_WAIT` is a
constant of a header that is not among the sources and is a parameter; `write_ret i` is
what `cs47l63_write_reg` returns for entry `i`. The result is the return value and the
operations issued, in order. -/
def cs47l63_comm_reg_conf_write_from (SPI_BUSY_WAIT : Nat) (write_ret : Nat → Int) :
    List (Nat × Nat) → Nat → Int × List CodecOp
  | [], _ => (0, [])
  | (reg, value) :: rest, i =>
    if reg = SPI_BUSY_WAIT then
      let r := cs47l63_comm_reg_conf_write_from SPI_BUSY_WAIT write_ret rest (i + 1)
      (r.1, CodecOp.k_busy_wait value :: r.2)
    else
      let ret := write_ret i
      if ret ≠ 0 then (ret, [CodecOp.cs47l63_write_reg reg value])
      else
        let r := cs47l63_comm_reg_conf_write_from SPI_BUSY_WAIT write_ret rest (i + 1)
        (r.1, CodecOp.cs47l63_write_reg reg value :: r.2)

/-- The function `cs47l63_comm_reg_conf_write` on the first `num_of_regs` entries of
`config`. -/
def cs47l63_comm_reg_conf_write (SPI_BUSY_WAIT : Nat) (write_ret : Nat → Int)
    (config : List (Nat × Nat)) (num_of_regs : Nat) : Int × List CodecOp :=
  cs47l63_comm_reg_conf_write_from SPI_BUSY_WAIT write_ret (config.take num_of_regs) 0

/-- What a table entry asks for: a busy wait for the sentinel address, a register write
otherwise. -/
def entry_op (SPI_BUSY_WAIT : Nat) (entry : Nat × Nat) : CodecOp :=
  if entry.1 = SPI_BUSY_WAIT then CodecOp.k_busy_wait entry.2
  else CodecOp.cs47l63_write_reg entry.1 entry.2

/-- The function `hw_codec_soft_reset`; the tables `output_disable` and `soft_reset` are
not among the sources and are parameters, each with the answers to its writes. -/
def hw_codec_soft_reset (SPI_BUSY_WAIT : Nat) (write_ret1 write_ret2 : Nat → Int)
    (output_disable soft_reset : List (Nat × Nat)) : Int × List CodecOp :=
  let r1 := cs47l63_comm_reg_conf_write SPI_BUSY_WAIT write_ret1 output_disable
    output_disable.length
  if r1.1 ≠ 0 then r1
  else
    let r2 := cs47l63_comm_reg_conf_write SPI_BUSY_WAIT write_ret2 soft_reset
      soft_reset.length
    if r2.1 ≠ 0 then (r2.1, r1.2 ++ r2.2) else (0, r1.2 ++ r2.2)

/-- The constants of the codec headers that `hw_codec_volume_adjust` uses; the headers
are not among the sources. -/
structure CodecConsts where
  CS47L63_OUT1L_VOLUME_1 : Nat
  CS47L63_OUT_VU : Nat
  CS47L63_OUT1L_MUTE : Nat
  CS47L63_OUT1L_VOL_MASK : Nat
  MAX_VOLUME_REG_VAL : Nat
deriving DecidableEq, Repr

/-- A `uint32_t` reinterpreted as `int32_t`. -/
def to_int32 (u : Nat) : Int :=
  if u < 2 ^ 31 then Int.ofNat u else Int.ofNat u - 2 ^ 32

/-- An `int32_t` converted to `uint32_t`. -/
def to_uint32 (x : Int) : Nat := (x % 2 ^ 32).toNat

/-- The operator `~` on a `uint32_t`. -/
def not32 (x : Nat) : Nat := (2 ^ 32 - 1) ^^^ x

/-- The function `hw_codec_volume_adjust`. `prev_volume_reg_val` is its function-static
variable; `read_ret`, `read_val` and `write_ret` are what `cs47l63_read_reg` and
`cs47l63_write_reg` answer. The result is the return value, the new
`prev_volume_reg_val` and the operations issued. -/
def hw_codec_volume_adjust (K : CodecConsts) (prev_volume_reg_val : Nat)
    (adjustment_db : Int) (read_ret : Int) (read_val : Nat) (write_ret : Int) :
    Int × Nat × List CodecOp :=
  if adjustment_db = 0 then
    (write_ret, prev_volume_reg_val,
      [CodecOp.cs47l63_write_reg K.CS47L63_OUT1L_VOLUME_1
        ((prev_volume_reg_val ||| K.CS47L63_OUT_VU) &&& not32 K.CS47L63_OUT1L_MUTE)])
  else if read_ret ≠ 0 then
    (read_ret, prev_volume_reg_val, [CodecOp.cs47l63_read_reg K.CS47L63_OUT1L_VOLUME_1])
  else
    let volume_reg_val := read_val &&& K.CS47L63_OUT1L_VOL_MASK
    let new_volume_reg_val : Int :=
      to_int32 (to_uint32 (Int.ofNat volume_reg_val + adjustment_db * 2))
    let new_volume_reg_val : Int :=
      if new_volume_reg_val < 0 then 0
      else if new_volume_reg_val > Int.ofNat K.MAX_VOLUME_REG_VAL then
        Int.ofNat K.MAX_VOLUME_REG_VAL
      else new_volume_reg_val
    let written :=
      (to_uint32 new_volume_reg_val ||| K.CS47L63_OUT_VU) &&& not32 K.CS47L63_OUT1L_MUTE
    let ops := [CodecOp.cs47l63_read_reg K.CS47L63_OUT1L_VOLUME_1,
      CodecOp.cs47l63_write_reg K.CS47L63_OUT1L_VOLUME_1 written]
    if write_ret ≠ 0 then (write_ret, prev_volume_reg_val, ops)
    else (0, to_uint32 new_volume_reg_val, ops)

/-- Sample constants with the layout the volume code relies on: the volume field in the
low eight bits, the mute bit 8, the volume update bit 9, and 0x80 as highest volume
(64 dB in steps of 0.5 dB); the register address plays no part. -/
def codec_consts : CodecConsts :=
  { CS47L63_OUT1L_VOLUME_1 := 0x4008
    CS47L63_OUT_VU := 0x200
    CS47L63_OUT1L_MUTE := 0x100
    CS47L63_OUT1L_VOL_MASK := 0xFF
    MAX_VOLUME_REG_VAL := 0x80 }

/-! ## Ring buffer: producer step and consumer tick -/

theorem blk_stereo_num_samps_eq : BLK_STEREO_NUM_SAMPS = 32 := by decide

theorem blk_stereo_elems_eq : BLK_STEREO_SIZE_OCTETS / 2 = 32 := by decide

theorem length_memcpy (dst : List Int) (d : Nat) (src : List Int) (s n : Nat) :
    (memcpy dst d src s n).length = dst.length := by
  induction n with
  | zero => rfl
  | succ n ih => simp [memcpy, ih]

theorem getElem?_memcpy (dst : List Int) (d : Nat) (src : List Int) (s n j : Nat) :
    (memcpy dst d src s n)[j]? =
      if d ≤ j ∧ j < d + n ∧ j < dst.length then some (src.getD (s + (j - d)) 0)
      else dst[j]? := by
  induction n with
  | zero =>
    have : ¬ (d ≤ j ∧ j < d + 0 ∧ j < dst.length) := by omega
    rw [if_neg this]
    rfl
  | succ n ih =>
    simp only [memcpy, List.getElem?_set, length_memcpy, ih]
    by_cases h1 : d + n = j
    · subst h1
      by_cases h2 : d + n < dst.length
      · have e : s + (d + n - d) = s + n := by omega
        have h5 : d ≤ d + n ∧ d + n < d + (n + 1) ∧ d + n < dst.length := by omega
        rw [if_pos h5, e]
        simp [h2]
      · have h3 : dst[d + n]? = none := List.getElem?_eq_none (by omega)
        have h5 : ¬ (d ≤ d + n ∧ d + n < d + (n + 1) ∧ d + n < dst.length) := by omega
        have h6 : ¬ (d ≤ d + n ∧ d + n < d + n ∧ d + n < dst.length) := by omega
        rw [if_neg h5, h3]
        simp [h2, h6, h3]
    · simp only [h1, if_false]
      by_cases h4 : d ≤ j ∧ j < d + n ∧ j < dst.length
      · have h5 : d ≤ j ∧ j < d + (n + 1) ∧ j < dst.length := by omega
        rw [if_pos h4, if_pos h5]
      · have h5 : ¬ (d ≤ j ∧ j < d + (n + 1) ∧ j < dst.length) := by omega
        rw [if_neg h4, if_neg h5]

theorem getElem?_tx_block (fifo : List Int) (off j : Nat) :
    (tx_block fifo off)[j]? = if j < 32 then fifo[off + j]? else none := by
  simp [tx_block, List.getElem?_take, List.getElem?_drop]


theorem next_idx_mod (i : Nat) (h : i < 80) : NEXT_IDX i = (i + 1) % 80 := by
  unfold NEXT_IDX
  split <;> omega

theorem tx_block_fill_blk (st : State) (b : List Int) (s : Nat)
    (hf : st.fifo.length = 2560) (hp : st.prod_blk_idx < 80) (hb : b.length = 32)
    (hs : s < 80) :
    tx_block (stream_recv_cb_fill_blk st b 0).fifo (s * 32) =
      if s = st.prod_blk_idx then b else tx_block st.fifo (s * 32) := by
  apply List.ext_getElem?
  intro j
  rw [getElem?_tx_block]
  simp only [stream_recv_cb_fill_blk, getElem?_memcpy, blk_stereo_num_samps_eq,
    blk_stereo_elems_eq, hf]
  by_cases hj : j < 32
  · by_cases hsp : s = st.prod_blk_idx
    · subst hsp
      have h1 : st.prod_blk_idx * 32 ≤ st.prod_blk_idx * 32 + j ∧
          st.prod_blk_idx * 32 + j < st.prod_blk_idx * 32 + 32 ∧
          st.prod_blk_idx * 32 + j < 2560 := by omega
      have h2 : 0 * 32 + (st.prod_blk_idx * 32 + j - st.prod_blk_idx * 32) = j := by omega
      rw [if_pos hj, if_pos h1, if_pos rfl, h2, List.getD_eq_getElem?_getD,
        List.getElem?_eq_getElem (by omega)]
      rfl
    · have h1 : ¬ (st.prod_blk_idx * 32 ≤ s * 32 + j ∧
          s * 32 + j < st.prod_blk_idx * 32 + 32 ∧ s * 32 + j < 2560) := by omega
      rw [if_pos hj, if_neg h1, if_neg hsp, getElem?_tx_block, if_pos hj]
  · rw [if_neg hj]
    by_cases hsp : s = st.prod_blk_idx
    · rw [if_pos hsp]
      exact (List.getElem?_eq_none (by omega)).symm
    · rw [if_neg hsp, getElem?_tx_block, if_neg hj]

theorem push_blocks_concat (st : State) (blocks : List (List Int)) (b : List Int) :
    push_blocks st (blocks ++ [b]) = stream_recv_cb_fill_blk (push_blocks st blocks) b 0 := by
  simp [push_blocks, List.foldl_append]

theorem fill_blk_frame (st : State) (b : List Int) (i : Nat) :
    (stream_recv_cb_fill_blk st b i).cons_blk_idx = st.cons_blk_idx ∧
    (stream_recv_cb_fill_blk st b i).streaming = st.streaming ∧
    (stream_recv_cb_fill_blk st b i).next_bufs = st.next_bufs ∧
    (stream_recv_cb_fill_blk st b i).soft_resets = st.soft_resets ∧
    (stream_recv_cb_fill_blk st b i).fifo.length = st.fifo.length ∧
    (stream_recv_cb_fill_blk st b i).prod_blk_idx = NEXT_IDX st.prod_blk_idx :=
  by
  simp only [stream_recv_cb_fill_blk, length_memcpy, and_self]

theorem push_blocks_inv (st : State) (blocks : List (List Int))
    (hf : st.fifo.length = 2560) (hp : st.prod_blk_idx = 0) :
    (push_blocks st blocks).fifo.length = 2560 ∧
    (push_blocks st blocks).prod_blk_idx = blocks.length % 80 ∧
    (push_blocks st blocks).cons_blk_idx = st.cons_blk_idx ∧
    (push_blocks st blocks).streaming = st.streaming ∧
    (push_blocks st blocks).next_bufs = st.next_bufs ∧
    (push_blocks st blocks).soft_resets = st.soft_resets := by
  induction blocks using List.reverseRecOn with
  | nil => simp [push_blocks, hf, hp]
  | append_singleton bs b ih =>
    obtain ⟨h1, h2, h3, h4, h5, h6⟩ := ih
    obtain ⟨f1, f2, f3, f4, f5, f6⟩ := fill_blk_frame (push_blocks st bs) b 0
    have hlt : (push_blocks st bs).prod_blk_idx < 80 := by omega
    rw [push_blocks_concat, f1, f2, f3, f4, f5, f6, next_idx_mod _ hlt, h2,
      List.length_append, List.length_singleton]
    refine ⟨h1, ?_, h3, h4, h5, h6⟩
    omega

theorem slot_push_blocks (st : State) (blocks : List (List Int)) (s : Nat)
    (hf : st.fifo.length = 2560) (hp : st.prod_blk_idx = 0)
    (h32 : ∀ b ∈ blocks, b.length = 32) (hs : s < 80) :
    tx_block (push_blocks st blocks).fifo (s * 32) =
      if blocks.length ≤ s then tx_block st.fifo (s * 32)
      else blocks.getD (s + 80 * ((blocks.length - 1 - s) / 80)) [] := by
  induction blocks using List.reverseRecOn with
  | nil => simp [push_blocks]
  | append_singleton bs b ih =>
    have ih := ih (fun x hx => h32 x (List.mem_append_left _ hx))
    have hb : b.length = 32 := h32 b (by simp)
    obtain ⟨h1, h2, -⟩ := push_blocks_inv st bs hf hp
    rw [push_blocks_concat, tx_block_fill_blk _ _ _ h1 (by omega) hb hs, h2, ih]
    simp only [List.length_append, List.length_singleton]
    by_cases hsp : s = bs.length % 80
    · have e : s + 80 * ((bs.length + 1 - 1 - s) / 80) = bs.length := by omega
      have h3 : ¬ (bs.length + 1 ≤ s) := by omega
      rw [if_pos hsp, if_neg h3, e]
      simp
    · rw [if_neg hsp]
      by_cases h4 : bs.length ≤ s
      · have h5 : bs.length + 1 ≤ s := by omega
        rw [if_pos h4, if_pos h5]
      · have h5 : ¬ (bs.length + 1 ≤ s) := by omega
        have e : s + 80 * ((bs.length + 1 - 1 - s) / 80) =
            s + 80 * ((bs.length - 1 - s) / 80) := by omega
        have h6 : s + 80 * ((bs.length - 1 - s) / 80) < bs.length := by omega
        rw [if_neg h4, if_neg h5, e]
        simp only [List.getD_eq_getElem?_getD]
        rw [List.getElem?_append_left h6]


theorem blk_complete_streaming (st : State) (hs : st.streaming = true) :
    (audio_datapath_i2s_blk_complete st).next_bufs =
      st.next_bufs ++ [NEXT_IDX st.cons_blk_idx * 32] ∧
    (audio_datapath_i2s_blk_complete st).cons_blk_idx = NEXT_IDX st.cons_blk_idx ∧
    (audio_datapath_i2s_blk_complete st).fifo = st.fifo ∧
    (audio_datapath_i2s_blk_complete st).soft_resets = st.soft_resets ∧
    (audio_datapath_i2s_blk_complete st).streaming = true := by
  simp only [audio_datapath_i2s_blk_complete, hs, if_true, and_self]

theorem consumer_ticks_streaming (t : Nat) (st : State) (hs : st.streaming = true)
    (hc : st.cons_blk_idx < 80) :
    (consumer_ticks t st).next_bufs =
      st.next_bufs ++ (List.range t).map (fun j => (st.cons_blk_idx + 1 + j) % 80 * 32) ∧
    (consumer_ticks t st).cons_blk_idx = (st.cons_blk_idx + t) % 80 ∧
    (consumer_ticks t st).fifo = st.fifo ∧
    (consumer_ticks t st).soft_resets = st.soft_resets := by
  induction t generalizing st with
  | zero =>
    simp only [consumer_ticks, List.range_zero, List.map_nil, List.append_nil, true_and,
      and_true]
    omega
  | succ t ih =>
    obtain ⟨b1, b2, b3, b4, b5⟩ := blk_complete_streaming st hs
    have hn := next_idx_mod st.cons_blk_idx hc
    have hlt : (audio_datapath_i2s_blk_complete st).cons_blk_idx < 80 := by
      rw [b2, hn]
      omega
    obtain ⟨i1, i2, i3, i4⟩ := ih (audio_datapath_i2s_blk_complete st) b5 hlt
    have key : [(st.cons_blk_idx + 1) % 80 * 32] ++
        List.map (fun j => ((st.cons_blk_idx + 1) % 80 + 1 + j) % 80 * 32) (List.range t) =
        List.map (fun j => (st.cons_blk_idx + 1 + j) % 80 * 32) (List.range (t + 1)) := by
      rw [List.range_succ_eq_map, List.map_cons, List.map_map, List.singleton_append]
      refine List.cons_eq_cons.mpr ⟨rfl, List.map_congr_left ?_⟩
      intro j _
      show ((st.cons_blk_idx + 1) % 80 + 1 + j) % 80 * 32 =
        (st.cons_blk_idx + 1 + (j + 1)) % 80 * 32
      omega
    have key2 : ((st.cons_blk_idx + 1) % 80 + t) % 80 = (st.cons_blk_idx + (t + 1)) % 80 := by
      omega
    simp only [consumer_ticks]
    rw [i1, i2, i3, i4, b1, b2, b3, b4, hn, List.append_assoc, key, key2]
    exact ⟨rfl, rfl, rfl, rfl⟩

theorem tx_block_init (s : Nat) (hs : s < 80) :
    tx_block (List.replicate FIFO_NUM_SAMPS 0) (s * 32) = List.replicate 32 0 := by
  apply List.ext_getElem?
  intro j
  rw [getElem?_tx_block, List.getElem?_replicate, List.getElem?_replicate]
  have e : FIFO_NUM_SAMPS = 2560 := rfl
  rw [e]
  by_cases hj : j < 32
  · rw [if_pos hj, if_pos hj, if_pos (by omega)]
  · rw [if_neg hj, if_neg hj]

theorem streaming_from_fields (c : Nat) :
    (streaming_from c).fifo = List.replicate FIFO_NUM_SAMPS 0 ∧
    (streaming_from c).prod_blk_idx = 0 ∧
    (streaming_from c).cons_blk_idx = c ∧
    (streaming_from c).streaming = true ∧
    (streaming_from c).next_bufs = [] ∧
    (streaming_from c).soft_resets = 0 :=
  ⟨rfl, rfl, rfl, rfl, rfl, rfl⟩

/-- Pushing from a state that differs from the initial one in the consumer index only,
then ticking: the ticks hand out the slots after the consumer index in ring order, each
with the latest block written to it (or the initial zeros), and the recovery path is
never taken. -/
theorem handed_out_push_ticks (c t : Nat) (blocks : List (List Int)) (hc : c < 80)
    (h32 : ∀ b ∈ blocks, b.length = 32) :
    handed_out (consumer_ticks t (push_blocks (streaming_from c) blocks)) =
      (List.range t).map (fun j =>
        if blocks.length ≤ (c + 1 + j) % 80 then List.replicate 32 0
        else blocks.getD ((c + 1 + j) % 80 +
          80 * ((blocks.length - 1 - (c + 1 + j) % 80) / 80)) []) ∧
    (consumer_ticks t (push_blocks (streaming_from c) blocks)).soft_resets = 0 := by
  obtain ⟨s1, s2, s3, s4, s5, s6⟩ := streaming_from_fields c
  have hf : (streaming_from c).fifo.length = 2560 := by
    rw [s1, List.length_replicate]
    rfl
  obtain ⟨-, -, p3, p4, p5, p6⟩ := push_blocks_inv _ blocks hf s2
  obtain ⟨t1, -, t3, t4⟩ :=
    consumer_ticks_streaming t _ (p4.trans s4) (by rw [p3, s3]; exact hc)
  refine ⟨?_, ?_⟩
  · unfold handed_out
    rw [t1, t3, p5, p3, s5, s3, List.nil_append, List.map_map]
    apply List.map_congr_left
    intro j _
    simp only [Function.comp]
    have hs : (c + 1 + j) % 80 < 80 := Nat.mod_lt _ (by omega)
    rw [slot_push_blocks _ blocks _ hf s2 h32 hs]
    by_cases h : blocks.length ≤ (c + 1 + j) % 80
    · rw [if_pos h, if_pos h, s1]
      exact tx_block_init _ hs
    · rw [if_neg h, if_neg h]
  · rw [t4, p6, s6]

theorem numbered_blocks_length (n : Nat) : (numbered_blocks n).length = n := by
  simp [numbered_blocks]

theorem numbered_blocks_samples (n : Nat) : ∀ b ∈ numbered_blocks n, b.length = 32 := by
  intro b hb
  simp only [numbered_blocks, List.mem_map] at hb
  obtain ⟨i, -, rfl⟩ := hb
  simp

/-- C1, evaluated at two blocks: from the initial state with the streams started, pushing
the blocks `[1, .., 1]` and `[2, .., 2]` with the producer step and then running two
consumer ticks hands out the second block and then the never written slot 2 (zeros);
the first pushed block is not handed out at all, so the round trip fails. -/
theorem ring_round_trip_skips_first_block :
    handed_out (consumer_ticks 2 (push_blocks (streaming_from 0)
        [List.replicate 32 1, List.replicate 32 2])) =
      [List.replicate 32 2, List.replicate 32 0] ∧
    handed_out (consumer_ticks 2 (push_blocks (streaming_from 0)
        [List.replicate 32 1, List.replicate 32 2])) ≠
      [List.replicate 32 1, List.replicate 32 2] := by
  decide

/-- C2, refuted at m = 2: after pushing 82 numbered blocks from the initial state without
a consumer tick, the first tick hands out block 81 (slot 1, overwritten by the 82nd push),
not block 2, the oldest block that survives. -/
theorem ring_overwrite_first_pop_not_oldest :
    (handed_out (consumer_ticks 1 (push_blocks (streaming_from 0) (numbered_blocks 82)))).head?
      = some (List.replicate 32 81) ∧
    (numbered_blocks 82)[2]? = some (List.replicate 32 2) ∧
    (handed_out (consumer_ticks 1 (push_blocks (streaming_from 0) (numbered_blocks 82)))).head?
      ≠ (numbered_blocks 82)[2]? := by
  have h := (handed_out_push_ticks 0 1 (numbered_blocks 82) (by decide)
    (numbered_blocks_samples 82)).1
  rw [h]
  decide

/-- C2, amended: with N = 80 and 0 < m < N, after pushing N + m blocks of 32 samples
from the initial state (streams started, consumer index at any c < N) without a consumer
tick, every later tick succeeds without taking the recovery path, and tick j hands out
slot s = (c + 1 + j) mod N with the latest block pushed to it: block N + s when s < m,
block s otherwise. The earliest m blocks are lost; the sequence starts wherever the
consumer index stands, not at block m. -/
theorem ring_overwrite_pop_order (m c t : Nat) (blocks : List (List Int))
    (hm : 0 < m) (hmN : m < 80) (hc : c < 80) (hlen : blocks.length = 80 + m)
    (h32 : ∀ b ∈ blocks, b.length = 32) :
    handed_out (consumer_ticks t (push_blocks (streaming_from c) blocks)) =
      (List.range t).map (fun j =>
        if (c + 1 + j) % 80 < m then blocks.getD (80 + (c + 1 + j) % 80) []
        else blocks.getD ((c + 1 + j) % 80) []) ∧
    (consumer_ticks t (push_blocks (streaming_from c) blocks)).soft_resets = 0 := by
  obtain ⟨h1, h2⟩ := handed_out_push_ticks c t blocks hc h32
  refine ⟨?_, h2⟩
  rw [h1]
  apply List.map_congr_left
  intro j _
  have hs : (c + 1 + j) % 80 < 80 := Nat.mod_lt _ (by omega)
  have h3 : ¬ (blocks.length ≤ (c + 1 + j) % 80) := by omega
  rw [if_neg h3, hlen]
  by_cases h4 : (c + 1 + j) % 80 < m
  · have e : (c + 1 + j) % 80 + 80 * ((80 + m - 1 - (c + 1 + j) % 80) / 80) =
        80 + (c + 1 + j) % 80 := by omega
    rw [if_pos h4, e]
  · have e : (c + 1 + j) % 80 + 80 * ((80 + m - 1 - (c + 1 + j) % 80) / 80) =
        (c + 1 + j) % 80 := by omega
    rw [if_neg h4, e]

/-- The amended C2 at m = 2, c = 0 and three ticks over 82 numbered blocks. -/
theorem ring_overwrite_pop_order_witness :
    handed_out (consumer_ticks 3 (push_blocks (streaming_from 0) (numbered_blocks 82))) =
      (List.range 3).map (fun j =>
        if (0 + 1 + j) % 80 < 2 then (numbered_blocks 82).getD (80 + (0 + 1 + j) % 80) []
        else (numbered_blocks 82).getD ((0 + 1 + j) % 80) []) ∧
    (consumer_ticks 3 (push_blocks (streaming_from 0) (numbered_blocks 82))).soft_resets = 0 :=
  ring_overwrite_pop_order 2 0 3 (numbered_blocks 82) (by decide) (by decide) (by decide)
    (by decide) (by decide)

/-! ## Channel widening: `pscm_zero_pad` -/

theorem length_pscm_copy_sample (input : List Nat) (n pin pout : Nat) (out : List Nat) :
    (pscm_copy_sample input n pin pout out).length = out.length := by
  induction n generalizing pin pout out with
  | zero => rfl
  | succ n ih => rw [pscm_copy_sample, ih, List.length_set]

theorem getElem?_pscm_copy_sample (input : List Nat) (n pin pout : Nat) (out : List Nat)
    (k : Nat) :
    (pscm_copy_sample input n pin pout out)[k]? =
      if pout ≤ k ∧ k < pout + n ∧ k < out.length then some (input.getD (pin + (k - pout)) 0)
      else out[k]? := by
  induction n generalizing pin pout out with
  | zero =>
    have h : ¬ (pout ≤ k ∧ k < pout + 0 ∧ k < out.length) := by omega
    rw [if_neg h]
    rfl
  | succ n ih =>
    rw [pscm_copy_sample, ih, List.length_set]
    by_cases h1 : pout + 1 ≤ k ∧ k < pout + 1 + n ∧ k < out.length
    · have h2 : pout ≤ k ∧ k < pout + (n + 1) ∧ k < out.length := by omega
      have e : pin + 1 + (k - (pout + 1)) = pin + (k - pout) := by omega
      rw [if_pos h1, if_pos h2, e]
    · rw [if_neg h1, List.getElem?_set]
      by_cases h3 : pout = k
      · subst h3
        by_cases h4 : pout < out.length
        · have h2 : pout ≤ pout ∧ pout < pout + (n + 1) ∧ pout < out.length := by omega
          have e : pin + (pout - pout) = pin := by omega
          rw [if_pos rfl, if_pos h4, if_pos h2, e]
        · have h2 : ¬ (pout ≤ pout ∧ pout < pout + (n + 1) ∧ pout < out.length) := by omega
          rw [if_pos rfl, if_neg h4, if_neg h2]
          exact (List.getElem?_eq_none (by omega)).symm
      · have h2 : ¬ (pout ≤ k ∧ k < pout + (n + 1) ∧ k < out.length) := by omega
        rw [if_neg h3, if_neg h2]

theorem length_pscm_zero_sample (n pout : Nat) (out : List Nat) :
    (pscm_zero_sample n pout out).length = out.length := by
  induction n generalizing pout out with
  | zero => rfl
  | succ n ih => rw [pscm_zero_sample, ih, List.length_set]

theorem getElem?_pscm_zero_sample (n pout : Nat) (out : List Nat) (k : Nat) :
    (pscm_zero_sample n pout out)[k]? =
      if pout ≤ k ∧ k < pout + n ∧ k < out.length then some 0 else out[k]? := by
  induction n generalizing pout out with
  | zero =>
    have h : ¬ (pout ≤ k ∧ k < pout + 0 ∧ k < out.length) := by omega
    rw [if_neg h]
    rfl
  | succ n ih =>
    rw [pscm_zero_sample, ih, List.length_set]
    by_cases h1 : pout + 1 ≤ k ∧ k < pout + 1 + n ∧ k < out.length
    · have h2 : pout ≤ k ∧ k < pout + (n + 1) ∧ k < out.length := by omega
      rw [if_pos h1, if_pos h2]
    · rw [if_neg h1, List.getElem?_set]
      by_cases h3 : pout = k
      · subst h3
        by_cases h4 : pout < out.length
        · have h2 : pout ≤ pout ∧ pout < pout + (n + 1) ∧ pout < out.length := by omega
          rw [if_pos rfl, if_pos h4, if_pos h2]
        · have h2 : ¬ (pout ≤ pout ∧ pout < pout + (n + 1) ∧ pout < out.length) := by omega
          rw [if_pos rfl, if_neg h4, if_neg h2]
          exact (List.getElem?_eq_none (by omega)).symm
      · have h2 : ¬ (pout ≤ k ∧ k < pout + (n + 1) ∧ k < out.length) := by omega
        rw [if_neg h3, if_neg h2]

theorem length_pscm_loop (input : List Nat) (bps n pin pout : Nat) (out : List Nat) :
    (pscm_loop input bps n pin pout out).length = out.length := by
  induction n generalizing pin pout out with
  | zero => rfl
  | succ n ih =>
    rw [pscm_loop, ih, length_pscm_zero_sample, length_pscm_copy_sample]

/-- The bytes outside the window written by the outer loop keep their value. -/
theorem pscm_loop_outside (input : List Nat) (bps n pin pout : Nat) (out : List Nat)
    (k : Nat) (hk : k < pout ∨ pout + 2 * bps * n ≤ k) :
    (pscm_loop input bps n pin pout out)[k]? = out[k]? := by
  induction n generalizing pin pout out with
  | zero => rfl
  | succ n ih =>
    have e : 2 * bps * (n + 1) = 2 * bps * n + bps + bps := by
      rw [Nat.mul_succ]
      omega
    rw [e] at hk
    rw [pscm_loop, ih _ _ _ (by omega), getElem?_pscm_zero_sample,
      getElem?_pscm_copy_sample, length_pscm_copy_sample]
    have h1 : ¬ (pout + bps ≤ k ∧ k < pout + bps + bps ∧ k < out.length) := by omega
    have h2 : ¬ (pout ≤ k ∧ k < pout + bps ∧ k < out.length) := by omega
    rw [if_neg h1, if_neg h2]

/-- Inside the window, byte `j` of output sample `2 * i` is byte `j` of input sample `i`,
and byte `j` of output sample `2 * i + 1` is zero. -/
theorem pscm_loop_inside (input : List Nat) (bps n pin pout : Nat) (out : List Nat)
    (hout : pout + 2 * bps * n ≤ out.length) (i j : Nat) (hi : i < n) (hj : j < bps) :
    (pscm_loop input bps n pin pout out)[pout + 2 * bps * i + j]? =
        some (input.getD (pin + bps * i + j) 0) ∧
    (pscm_loop input bps n pin pout out)[pout + 2 * bps * i + bps + j]? = some 0 := by
  induction n generalizing pin pout out i with
  | zero => omega
  | succ n ih =>
    have e : 2 * bps * (n + 1) = 2 * bps * n + bps + bps := by
      rw [Nat.mul_succ]
      omega
    rw [e] at hout
    rw [pscm_loop]
    cases i with
    | zero =>
      rw [Nat.mul_zero, Nat.mul_zero, Nat.add_zero, Nat.add_zero,
        pscm_loop_outside _ _ _ _ _ _ _ (Or.inl (by omega)),
        pscm_loop_outside _ _ _ _ _ _ _ (Or.inl (by omega)),
        getElem?_pscm_zero_sample, getElem?_pscm_zero_sample, getElem?_pscm_copy_sample,
        length_pscm_copy_sample]
      have h1 : ¬ (pout + bps ≤ pout + j ∧ pout + j < pout + bps + bps ∧
          pout + j < out.length) := by omega
      have h2 : pout ≤ pout + j ∧ pout + j < pout + bps ∧ pout + j < out.length := by omega
      have h3 : pout + bps ≤ pout + bps + j ∧ pout + bps + j < pout + bps + bps ∧
          pout + bps + j < out.length := by omega
      have e2 : pin + (pout + j - pout) = pin + j := by omega
      rw [if_neg h1, if_pos h2, if_pos h3, e2]
      exact ⟨rfl, rfl⟩
    | succ i =>
      have hlen : pout + bps + bps + 2 * bps * n ≤
          (pscm_zero_sample bps (pout + bps)
            (pscm_copy_sample input bps pin pout out)).length := by
        rw [length_pscm_zero_sample, length_pscm_copy_sample]
        omega
      obtain ⟨a1, a2⟩ := ih (pin + bps) (pout + bps + bps) _ hlen i (by omega)
      have e3 : 2 * bps * (i + 1) = 2 * bps * i + bps + bps := by
        rw [Nat.mul_succ]
        omega
      have e4 : bps * (i + 1) = bps * i + bps := Nat.mul_succ _ _
      have e5 : pout + (2 * bps * i + bps + bps) + j = pout + bps + bps + 2 * bps * i + j := by
        omega
      have e6 : pout + (2 * bps * i + bps + bps) + bps + j =
          pout + bps + bps + 2 * bps * i + bps + j := by omega
      have e7 : pin + (bps * i + bps) + j = pin + bps + bps * i + j := by omega
      rw [e3, e4, e5, e6, e7]
      exact ⟨a1, a2⟩

theorem getElem?_sample_at (buf : List Nat) (bps k j : Nat) :
    (sample_at buf bps k)[j]? = if j < bps then buf[k * bps + j]? else none := by
  simp [sample_at, List.getElem?_take, List.getElem?_drop]

/-- C3: for a mono input of S samples of `pcm_bit_depth / 8 >= 1` bytes each (both buffers
in memory, the output size within `size_t`), `pscm_zero_pad` returns 0, sets the output
size to twice the input size, which is 2S samples, and writes an output in which sample
2k is input sample k and sample 2k + 1 is zero, for every k < S; the buffer length and
the bytes after the 2S samples are as before. -/
theorem pscm_zero_pad_widens (input output : List Nat) (S pcm_bit_depth : Nat)
    (hd : 8 ≤ pcm_bit_depth) (hd8 : pcm_bit_depth < 2 ^ 8)
    (hin : S * (pcm_bit_depth / 8) ≤ input.length)
    (hout : 2 * (S * (pcm_bit_depth / 8)) ≤ output.length)
    (hsz : 2 * (S * (pcm_bit_depth / 8)) < 2 ^ 32) :
    ∃ out, pscm_zero_pad input (S * (pcm_bit_depth / 8)) pcm_bit_depth output =
        some (0, out, 2 * (S * (pcm_bit_depth / 8))) ∧
      2 * (S * (pcm_bit_depth / 8)) / (pcm_bit_depth / 8) = 2 * S ∧
      out.length = output.length ∧
      (∀ k, k < S →
        sample_at out (pcm_bit_depth / 8) (2 * k) = sample_at input (pcm_bit_depth / 8) k ∧
        sample_at out (pcm_bit_depth / 8) (2 * k + 1) =
          List.replicate (pcm_bit_depth / 8) 0) ∧
      (∀ k, 2 * (S * (pcm_bit_depth / 8)) ≤ k → out[k]? = output[k]?) := by
  have hb : 0 < pcm_bit_depth / 8 := by omega
  have hb8 : pcm_bit_depth / 8 % 2 ^ 8 = pcm_bit_depth / 8 := Nat.mod_eq_of_lt (by omega)
  generalize hbps : pcm_bit_depth / 8 = bps at *
  have hS : S * bps / bps = S := Nat.mul_div_cancel S hb
  have hw : 0 + 2 * bps * S = 2 * (S * bps) := by
    rw [Nat.zero_add, Nat.mul_assoc, Nat.mul_comm bps S]
  refine ⟨pscm_loop input bps S 0 0 output, ?_, ?_, length_pscm_loop _ _ _ _ _ _, ?_, ?_⟩
  · unfold pscm_zero_pad
    simp only [hbps, hb8, hS]
    rw [if_neg (by omega), Nat.mul_comm (S * bps) 2, Nat.mod_eq_of_lt hsz]
  · rw [← Nat.mul_assoc, Nat.mul_div_cancel _ hb]
  · intro k hk
    have hwin : 0 + 2 * bps * S ≤ output.length := by
      rw [hw]
      exact hout
    constructor
    · apply List.ext_getElem?
      intro j
      rw [getElem?_sample_at, getElem?_sample_at]
      by_cases hj : j < bps
      · have a := (pscm_loop_inside input bps S 0 0 output hwin k j hk hj).1
        have e1 : 2 * k * bps + j = 0 + 2 * bps * k + j := by
          rw [Nat.zero_add, Nat.mul_assoc, Nat.mul_assoc, Nat.mul_comm k bps]
        have e2 : 0 + bps * k + j = k * bps + j := by
          rw [Nat.zero_add, Nat.mul_comm]
        have hlt : k * bps + j < input.length := by
          have : (k + 1) * bps ≤ S * bps := Nat.mul_le_mul_right _ hk
          rw [Nat.succ_mul] at this
          omega
        rw [if_pos hj, if_pos hj, e1, a, e2, List.getD_eq_getElem?_getD,
          List.getElem?_eq_getElem hlt]
        rfl
      · rw [if_neg hj, if_neg hj]
    · apply List.ext_getElem?
      intro j
      rw [getElem?_sample_at, List.getElem?_replicate]
      by_cases hj : j < bps
      · have a := (pscm_loop_inside input bps S 0 0 output hwin k j hk hj).2
        have e1 : (2 * k + 1) * bps + j = 0 + 2 * bps * k + bps + j := by
          rw [Nat.zero_add, Nat.succ_mul, Nat.mul_assoc, Nat.mul_assoc, Nat.mul_comm k bps]
        rw [if_pos hj, if_pos hj, e1, a]
      · rw [if_neg hj, if_neg hj]
  · intro k hk
    exact pscm_loop_outside _ _ _ _ _ _ _ (Or.inr (by rw [hw]; exact hk))

/-- C3 at three 16-bit samples written into a buffer of fourteen bytes. -/
theorem pscm_zero_pad_widens_witness :
    ∃ out, pscm_zero_pad [1, 2, 3, 4, 5, 6] (3 * (16 / 8)) 16 (List.replicate 14 9) =
        some (0, out, 2 * (3 * (16 / 8))) ∧
      2 * (3 * (16 / 8)) / (16 / 8) = 2 * 3 ∧
      out.length = (List.replicate 14 9).length ∧
      (∀ k, k < 3 →
        sample_at out (16 / 8) (2 * k) = sample_at [1, 2, 3, 4, 5, 6] (16 / 8) k ∧
        sample_at out (16 / 8) (2 * k + 1) = List.replicate (16 / 8) 0) ∧
      (∀ k, 2 * (3 * (16 / 8)) ≤ k → out[k]? = (List.replicate 14 9)[k]?) :=
  pscm_zero_pad_widens [1, 2, 3, 4, 5, 6] (List.replicate 14 9) 3 16 (by decide) (by decide)
    (by decide) (by decide) (by decide)

/-! ## Sub-stream mask: `base_recv_cb` -/

theorem bit_lt (n : Nat) : BIT n < 2 ^ 32 :=
  Nat.mod_lt _ (by decide)

theorem bit_eq_two_pow (n : Nat) (h : n < 32) : BIT n = 2 ^ n := by
  unfold BIT
  rw [Nat.one_shiftLeft]
  exact Nat.mod_eq_of_lt (Nat.pow_lt_pow_right (by decide) h)

theorem testBit_bit (n i : Nat) (h : n < 32) : (BIT n).testBit i = true ↔ n = i := by
  rw [bit_eq_two_pow n h, Nat.testBit_two_pow]
  exact decide_eq_true_iff

theorem bit_mask_eq (n : Nat) (h : n < 32) : BIT_MASK n = 2 ^ n - 1 := by
  unfold BIT_MASK
  rw [bit_eq_two_pow n h]
  have h1 : 2 ^ n < 2 ^ 32 := Nat.pow_lt_pow_right (by decide) h
  have h2 : 0 < 2 ^ n := Nat.pow_pos (by decide)
  have e : 2 ^ n + 2 ^ 32 - 1 = 2 ^ n - 1 + 2 ^ 32 := by omega
  rw [e, Nat.add_mod_right]
  exact Nat.mod_eq_of_lt (by omega)

theorem testBit_bis_index_mask (stream_count i : Nat) (h : stream_count + 1 < 32) :
    (bis_index_mask stream_count).testBit i = true ↔ i ≤ stream_count := by
  unfold bis_index_mask
  rw [bit_mask_eq _ h, Nat.testBit_two_pow_sub_one, decide_eq_true_iff]
  omega

theorem base_recv_cb_subgroup_spec (sg : bt_audio_base_subgroup) (acc : Nat)
    (hacc : acc < 2 ^ 32) (hidx : ∀ b ∈ sg.bis_data, b.index < 32) (i : Nat) :
    base_recv_cb_subgroup acc sg < 2 ^ 32 ∧
    ((base_recv_cb_subgroup acc sg).testBit i = true ↔
      acc.testBit i = true ∨ ∃ b ∈ sg.bis_data, b.index = i) := by
  obtain ⟨l⟩ := sg
  unfold base_recv_cb_subgroup
  simp only at hidx ⊢
  induction l generalizing acc with
  | nil => exact ⟨hacc, by simp⟩
  | cons b l ih =>
    have hb : b.index < 32 := hidx b (List.mem_cons_self _ _)
    have hlt : acc ||| BIT b.index < 2 ^ 32 := Nat.or_lt_two_pow hacc (bit_lt _)
    have hmod : (acc ||| BIT b.index) % 2 ^ 32 = acc ||| BIT b.index :=
      Nat.mod_eq_of_lt hlt
    obtain ⟨h1, h2⟩ := ih (acc ||| BIT b.index) hlt
      (fun x hx => hidx x (List.mem_cons_of_mem _ hx))
    rw [List.foldl_cons, hmod]
    refine ⟨h1, ?_⟩
    rw [h2, Nat.testBit_or, Bool.or_eq_true, testBit_bit _ _ hb]
    constructor
    · rintro ((h | h) | ⟨x, hx, hxi⟩)
      · exact Or.inl h
      · exact Or.inr ⟨b, List.mem_cons_self _ _, h⟩
      · exact Or.inr ⟨x, List.mem_cons_of_mem _ hx, hxi⟩
    · rintro (h | ⟨x, hx, hxi⟩)
      · exact Or.inl (Or.inl h)
      · rcases List.mem_cons.mp hx with rfl | hx
        · exact Or.inl (Or.inr hxi)
        · exact Or.inr ⟨x, hx, hxi⟩

theorem base_recv_cb_fold_spec (sgs : List bt_audio_base_subgroup) (acc : Nat)
    (hacc : acc < 2 ^ 32) (hidx : ∀ sg ∈ sgs, ∀ b ∈ sg.bis_data, b.index < 32) (i : Nat) :
    (sgs.foldl base_recv_cb_subgroup acc).testBit i = true ↔
      acc.testBit i = true ∨ ∃ sg ∈ sgs, ∃ b ∈ sg.bis_data, b.index = i := by
  induction sgs generalizing acc with
  | nil => simp
  | cons sg sgs ih =>
    obtain ⟨h1, h2⟩ := base_recv_cb_subgroup_spec sg acc hacc
      (hidx sg (List.mem_cons_self _ _)) i
    rw [List.foldl_cons, ih _ h1 (fun x hx => hidx x (List.mem_cons_of_mem _ hx)), h2]
    constructor
    · rintro ((h | ⟨b, hb, hbi⟩) | ⟨x, hx, b, hb, hbi⟩)
      · exact Or.inl h
      · exact Or.inr ⟨sg, List.mem_cons_self _ _, b, hb, hbi⟩
      · exact Or.inr ⟨x, List.mem_cons_of_mem _ hx, b, hb, hbi⟩
    · rintro (h | ⟨x, hx, b, hb, hbi⟩)
      · exact Or.inl (Or.inl h)
      · rcases List.mem_cons.mp hx with rfl | hx
        · exact Or.inl (Or.inr ⟨b, hb, hbi⟩)
        · exact Or.inr ⟨x, hx, b, hb, hbi⟩

/-- C4: for a BASE that `base_recv_cb` accepts (count of `sem_base_received` zero) with
all BIS indices below 32, and a stream count for which `BIT_MASK(stream count + 1)` is a
defined shift: afterwards bit i of `bis_index_bitfield` is set iff some BIS of some
subgroup has index i and bit i of `bis_index_mask` is set, which is the case iff
i <= stream count; the descriptor is taken whatever its indices (the semaphore is given).
With one subgroup of indices 2 and 5 and stream count 4 (range [0,4]) the bitfield is
`BIT(2)` alone. -/
theorem base_recv_cb_bitfield (stream_count : Nat) (st : State) (base : bt_audio_base)
    (hsem : st.sem_base_received = 0)
    (hidx : ∀ sg ∈ base.subgroups, ∀ b ∈ sg.bis_data, b.index < 32)
    (hcnt : stream_count + 1 < 32) :
    (∀ i, (base_recv_cb stream_count st base).bis_index_bitfield.testBit i = true ↔
      (∃ sg ∈ base.subgroups, ∃ b ∈ sg.bis_data, b.index = i) ∧
        (bis_index_mask stream_count).testBit i = true) ∧
    (∀ i, (bis_index_mask stream_count).testBit i = true ↔ i ≤ stream_count) ∧
    (base_recv_cb stream_count st base).sem_base_received = 1 ∧
    (base_recv_cb 4 st
      { subgroups := [{ bis_data := [{ index := 2 }, { index := 5 }] }] }).bis_index_bitfield
        = BIT 2 := by
  have hne : ¬ (k_sem_count_get st.sem_base_received ≠ 0) := by
    simp [k_sem_count_get, hsem]
  refine ⟨?_, fun i => testBit_bis_index_mask stream_count i hcnt, ?_, ?_⟩
  · intro i
    unfold base_recv_cb
    rw [if_neg hne]
    simp only [Nat.testBit_and, Bool.and_eq_true]
    rw [base_recv_cb_fold_spec _ 0 (by decide) hidx i]
    simp
  · unfold base_recv_cb
    rw [if_neg hne]
    simp [k_sem_give, hsem]
  · unfold base_recv_cb
    rw [if_neg hne]
    show List.foldl base_recv_cb_subgroup 0
      [{ bis_data := [{ index := 2 }, { index := 5 }] }] &&& bis_index_mask 4 = BIT 2
    decide

/-- C4 at the scenario of the spec: one subgroup with indices 2 and 5, stream count 4. -/
theorem base_recv_cb_bitfield_witness :
    (∀ i, (base_recv_cb 4 init_state
        { subgroups := [{ bis_data := [{ index := 2 }, { index := 5 }] }] }
        ).bis_index_bitfield.testBit i = true ↔
      (∃ sg ∈ [({ bis_data := [{ index := 2 }, { index := 5 }] } : bt_audio_base_subgroup)],
        ∃ b ∈ sg.bis_data, b.index = i) ∧ (bis_index_mask 4).testBit i = true) ∧
    (∀ i, (bis_index_mask 4).testBit i = true ↔ i ≤ 4) ∧
    (base_recv_cb 4 init_state
      { subgroups := [{ bis_data := [{ index := 2 }, { index := 5 }] }] }).sem_base_received
        = 1 ∧
    (base_recv_cb 4 init_state
      { subgroups := [{ bis_data := [{ index := 2 }, { index := 5 }] }] }).bis_index_bitfield
        = BIT 2 :=
  base_recv_cb_bitfield 4 init_state
    { subgroups := [{ bis_data := [{ index := 2 }, { index := 5 }] }] } rfl (by decide)
    (by decide)

/-! ## The handshake: callbacks and the control loop of `main` -/

theorem k_sem_give_ne_zero (count : Nat) : k_sem_give count ≠ 0 := by
  unfold k_sem_give
  split <;> omega

theorem syncable_cb_encrypted (st : State) : syncable_cb st true = st := by
  simp [syncable_cb]

theorem run_cons (n : Nat) (st : State) (e : Event) (evs : List Event) :
    run n st (e :: evs) = run n (step n st e) evs := rfl

theorem run_nil (n : Nat) (st : State) : run n st [] = st := rfl

theorem main_loop_top_fields (st : State) (env : Env) :
    (main_loop_top st env).sem_broadcaster_found = 0 ∧
    (main_loop_top st env).sem_pa_synced = 0 ∧
    (main_loop_top st env).sem_base_received = 0 ∧
    (main_loop_top st env).sem_syncable = 0 ∧
    (main_loop_top st env).sem_pa_sync_lost = 0 ∧
    (main_loop_top st env).bis_index_bitfield = 0 ∧
    (main_loop_top st env).sync_calls = st.sync_calls ∧
    (main_loop_top st env).scan_starts = st.scan_starts + 1 ∧
    ((main_loop_top st env).pc = MainPc.wait_broadcaster_found ∨
      (main_loop_top st env).pc = MainPc.returned) ∧
    (env.scan_err = 0 → (main_loop_top st env).pc = MainPc.wait_broadcaster_found) := by
  unfold main_loop_top reset k_sem_reset
  by_cases h1 : st.broadcast_sink = none <;> by_cases h2 : env.delete_err = 0 <;>
    by_cases h3 : env.scan_err = 0 <;> simp [h1, h2, h3]

/-- The head of the loop resets every semaphore, so the counts before it do not matter. -/
theorem main_loop_top_sems (st : State) (env : Env) (a b c d e : Nat) (p : MainPc) :
    main_loop_top
      { st with
        sem_broadcaster_found := a
        sem_pa_synced := b
        sem_base_received := c
        sem_syncable := d
        sem_pa_sync_lost := e
        pc := p } env =
    main_loop_top st env := by
  by_cases h1 : st.broadcast_sink = none <;> by_cases h2 : env.delete_err = 0 <;>
    by_cases h3 : env.scan_err = 0 <;> simp [main_loop_top, reset, k_sem_reset, h1, h2, h3]

/-- The runs of `main` from each blocking point, by the count of the awaited semaphore. -/
theorem main_step_eq (st : State) (env : Env) (expired : Bool) :
    main_step st env expired =
      match st.pc with
      | MainPc.top => main_loop_top st env
      | MainPc.wait_broadcaster_found =>
        if st.sem_broadcaster_found ≠ 0 then
          { st with
            sem_broadcaster_found := st.sem_broadcaster_found - 1
            pc := MainPc.wait_pa_synced }
        else if expired then main_loop_top st env else st
      | MainPc.wait_pa_synced =>
        if st.sem_pa_synced ≠ 0 then
          { st with
            sem_pa_synced := st.sem_pa_synced - 1
            pc := MainPc.wait_base_received }
        else if expired then main_loop_top st env else st
      | MainPc.wait_base_received =>
        if st.sem_base_received ≠ 0 then
          { st with
            sem_base_received := st.sem_base_received - 1
            pc := MainPc.wait_syncable }
        else if expired then main_loop_top st env else st
      | MainPc.wait_syncable =>
        if st.sem_syncable ≠ 0 then
          { st with
            sem_syncable := st.sem_syncable - 1
            sync_calls := st.sync_calls ++ [(st.broadcast_sink, st.bis_index_bitfield)]
            pc := if env.sync_err ≠ 0 then MainPc.returned else MainPc.wait_pa_sync_lost }
        else if expired then main_loop_top st env else st
      | MainPc.wait_pa_sync_lost =>
        if st.sem_pa_sync_lost ≠ 0 then main_loop_top st env else st
      | MainPc.returned => st := by
  unfold main_step k_sem_take
  cases hp : st.pc
  · rfl
  · by_cases hc : st.sem_broadcaster_found = 0 <;> cases expired <;> simp [hc, main_loop_top_sems]
  · by_cases hc : st.sem_pa_synced = 0 <;> cases expired <;> simp [hc, main_loop_top_sems]
  · by_cases hc : st.sem_base_received = 0 <;> cases expired <;> simp [hc, main_loop_top_sems]
  · by_cases hc : st.sem_syncable = 0 <;> cases expired <;>
      by_cases hs : env.sync_err = 0 <;> simp [hc, hs, main_loop_top_sems]
  · by_cases hc : st.sem_pa_sync_lost = 0 <;> simp [hc, main_loop_top_sems]
  · rfl

/-- No sync while `sem_syncable` is not given: one step. -/
theorem step_keeps_unsynced (n : Nat) (st : State) (e : Event)
    (he : e ≠ Event.syncable false)
    (hsem : st.sem_syncable = 0) (hpc : st.pc ≠ MainPc.wait_pa_sync_lost) :
    (step n st e).sem_syncable = 0 ∧ (step n st e).pc ≠ MainPc.wait_pa_sync_lost ∧
    (step n st e).sync_calls = st.sync_calls := by
  cases e with
  | scan_recv => exact ⟨hsem, hpc, rfl⟩
  | scan_term err => exact ⟨hsem, hpc, rfl⟩
  | pa_synced sink =>
    by_cases h : st.broadcast_sink = none <;> simp [step, pa_synced_cb, h, hsem, hpc]
  | base_recv base =>
    by_cases h : st.sem_base_received = 0 <;>
      simp [step, base_recv_cb, k_sem_count_get, h, hsem, hpc]
  | syncable encrypted =>
    cases encrypted with
    | false => exact absurd rfl he
    | true =>
      have e : step n st (Event.syncable true) = st := syncable_cb_encrypted st
      rw [e]
      exact ⟨hsem, hpc, rfl⟩
  | pa_sync_lost =>
    by_cases h : st.broadcast_sink = none <;> simp [step, pa_sync_lost_cb, h, hsem, hpc]
  | stream_started => exact ⟨hsem, hpc, rfl⟩
  | stream_stopped => exact ⟨hsem, hpc, rfl⟩
  | main_run env expired =>
    obtain ⟨-, -, -, t4, -, -, t7, -, t9, -⟩ := main_loop_top_fields st env
    have top : (main_loop_top st env).sem_syncable = 0 ∧
        (main_loop_top st env).pc ≠ MainPc.wait_pa_sync_lost ∧
        (main_loop_top st env).sync_calls = st.sync_calls := by
      refine ⟨t4, ?_, t7⟩
      rcases t9 with h | h <;> simp [h]
    simp only [step]
    rw [main_step_eq]
    cases hp : st.pc
    · exact top
    · by_cases hc : st.sem_broadcaster_found = 0 <;> cases expired <;>
        simp [hc, hsem, top, hp]
    · by_cases hc : st.sem_pa_synced = 0 <;> cases expired <;> simp [hc, hsem, top, hp]
    · by_cases hc : st.sem_base_received = 0 <;> cases expired <;> simp [hc, hsem, top, hp]
    · cases expired <;> simp [hsem, hp, top]
    · exact absurd hp hpc
    · simp [hsem, hp]

/-- No sync while `sem_syncable` is not given: any run. -/
theorem run_keeps_unsynced (n : Nat) (evs : List Event) (st : State)
    (hev : ∀ e ∈ evs, e ≠ Event.syncable false)
    (hsem : st.sem_syncable = 0) (hpc : st.pc ≠ MainPc.wait_pa_sync_lost) :
    (run n st evs).sem_syncable = 0 ∧ (run n st evs).pc ≠ MainPc.wait_pa_sync_lost ∧
    (run n st evs).sync_calls = st.sync_calls := by
  induction evs generalizing st with
  | nil => exact ⟨hsem, hpc, rfl⟩
  | cons e evs ih =>
    obtain ⟨h1, h2, h3⟩ :=
      step_keeps_unsynced n st e (hev e (List.mem_cons_self _ _)) hsem hpc
    obtain ⟨i1, i2, i3⟩ := ih (step n st e) (fun x hx => hev x (List.mem_cons_of_mem _ hx))
      h1 h2
    rw [run_cons]
    exact ⟨i1, i2, i3.trans h3⟩

/-- The final wait is never left: no step gives `sem_pa_sync_lost`. -/
theorem step_stays_in_final_wait (n : Nat) (st : State) (e : Event)
    (hpc : st.pc = MainPc.wait_pa_sync_lost) (hsem : st.sem_pa_sync_lost = 0) :
    (step n st e).pc = MainPc.wait_pa_sync_lost ∧ (step n st e).sem_pa_sync_lost = 0 ∧
    (step n st e).scan_starts = st.scan_starts := by
  cases e with
  | scan_recv => exact ⟨hpc, hsem, rfl⟩
  | scan_term err => exact ⟨hpc, hsem, rfl⟩
  | pa_synced sink =>
    by_cases h : st.broadcast_sink = none <;> simp [step, pa_synced_cb, h, hsem, hpc]
  | base_recv base =>
    by_cases h : st.sem_base_received = 0 <;>
      simp [step, base_recv_cb, k_sem_count_get, h, hsem, hpc]
  | syncable encrypted =>
    cases encrypted <;> simp [step, syncable_cb, hsem, hpc]
  | pa_sync_lost =>
    by_cases h : st.broadcast_sink = none <;> simp [step, pa_sync_lost_cb, h, hsem, hpc]
  | stream_started => exact ⟨hpc, hsem, rfl⟩
  | stream_stopped => exact ⟨hpc, hsem, rfl⟩
  | main_run env expired =>
    simp only [step]
    rw [main_step_eq]
    simp [hpc, hsem]

theorem run_stays_in_final_wait (n : Nat) (evs : List Event) (st : State)
    (hpc : st.pc = MainPc.wait_pa_sync_lost) (hsem : st.sem_pa_sync_lost = 0) :
    (run n st evs).pc = MainPc.wait_pa_sync_lost ∧ (run n st evs).sem_pa_sync_lost = 0 ∧
    (run n st evs).scan_starts = st.scan_starts := by
  induction evs generalizing st with
  | nil => exact ⟨hpc, hsem, rfl⟩
  | cons e evs ih =>
    obtain ⟨h1, h2, h3⟩ := step_stays_in_final_wait n st e hpc hsem
    obtain ⟨i1, i2, i3⟩ := ih (step n st e) h1 h2
    rw [run_cons]
    exact ⟨i1, i2, i3.trans h3⟩

/-- C9: `syncable_cb` with `encrypted = true` changes nothing, `sem_syncable` included;
and in every run from the start of an attempt (the head of the loop of `main`) in which
no syncable event is unencrypted, `bt_audio_broadcast_sink_sync` is never called and
`main` never gets to the wait that follows it. -/
theorem encrypted_source_never_joined (n : Nat) (st : State) (env : Env)
    (evs : List Event) (hev : ∀ e ∈ evs, e ≠ Event.syncable false) :
    (∀ s : State, syncable_cb s true = s) ∧
    (run n (main_loop_top st env) evs).sync_calls = (main_loop_top st env).sync_calls ∧
    (run n (main_loop_top st env) evs).pc ≠ MainPc.wait_pa_sync_lost ∧
    (run n (main_loop_top st env) evs).sem_syncable = 0 := by
  obtain ⟨-, -, -, t4, -, -, -, -, t9, -⟩ := main_loop_top_fields st env
  have hpc : (main_loop_top st env).pc ≠ MainPc.wait_pa_sync_lost := by
    rcases t9 with h | h <;> simp [h]
  obtain ⟨h1, h2, h3⟩ := run_keeps_unsynced n evs (main_loop_top st env) hev t4 hpc
  exact ⟨syncable_cb_encrypted, h3, h2, h1⟩

/-- C9 on an attempt that gets to the syncable wait, sees an encrypted syncable event and
then times out. -/
theorem encrypted_source_never_joined_witness :
    (∀ s : State, syncable_cb s true = s) ∧
    (run 4 (main_loop_top init_state env_ok)
      [Event.scan_recv, Event.main_run env_ok false, Event.pa_synced (some 1),
       Event.main_run env_ok false, Event.base_recv base_2_5, Event.main_run env_ok false,
       Event.syncable true, Event.main_run env_ok false,
       Event.main_run env_ok true]).sync_calls = (main_loop_top init_state env_ok).sync_calls ∧
    (run 4 (main_loop_top init_state env_ok)
      [Event.scan_recv, Event.main_run env_ok false, Event.pa_synced (some 1),
       Event.main_run env_ok false, Event.base_recv base_2_5, Event.main_run env_ok false,
       Event.syncable true, Event.main_run env_ok false,
       Event.main_run env_ok true]).pc ≠ MainPc.wait_pa_sync_lost ∧
    (run 4 (main_loop_top init_state env_ok)
      [Event.scan_recv, Event.main_run env_ok false, Event.pa_synced (some 1),
       Event.main_run env_ok false, Event.base_recv base_2_5, Event.main_run env_ok false,
       Event.syncable true, Event.main_run env_ok false,
       Event.main_run env_ok true]).sem_syncable = 0 :=
  encrypted_source_never_joined 4 init_state env_ok _ (by decide)

/-- C10, evaluated after a complete handshake (`run_to_final_wait`): `main` is in its
final wait with the sink set and the stream started; `pa_sync_lost_cb` clears the sink and
`streaming` but does not give `sem_pa_sync_lost`, and whatever events follow, `main`
stays in the final wait and never starts a scan again. -/
theorem sync_lost_never_restarts (evs : List Event) :
    (run 4 init_state run_to_final_wait).pc = MainPc.wait_pa_sync_lost ∧
    (run 4 init_state run_to_final_wait).broadcast_sink = some 1 ∧
    (run 4 init_state run_to_final_wait).sync_calls = [(some 1, BIT 2)] ∧
    (run 4 init_state (run_to_final_wait ++ [Event.pa_sync_lost])).broadcast_sink = none ∧
    (run 4 init_state (run_to_final_wait ++ [Event.pa_sync_lost])).sem_pa_sync_lost = 0 ∧
    (run 4 init_state (run_to_final_wait ++ [Event.pa_sync_lost] ++ evs)).pc =
      MainPc.wait_pa_sync_lost ∧
    (run 4 init_state (run_to_final_wait ++ [Event.pa_sync_lost] ++ evs)).scan_starts = 1 := by
  have h1 : (run 4 init_state (run_to_final_wait ++ [Event.pa_sync_lost])).pc =
      MainPc.wait_pa_sync_lost := by decide
  have h2 : (run 4 init_state (run_to_final_wait ++ [Event.pa_sync_lost])).sem_pa_sync_lost
      = 0 := by decide
  have h3 : (run 4 init_state (run_to_final_wait ++ [Event.pa_sync_lost])).scan_starts
      = 1 := by decide
  obtain ⟨r1, -, r3⟩ := run_stays_in_final_wait 4 evs _ h1 h2
  have e : run 4 init_state (run_to_final_wait ++ [Event.pa_sync_lost] ++ evs) =
      run 4 (run 4 init_state (run_to_final_wait ++ [Event.pa_sync_lost])) evs := by
    simp only [run, List.foldl_append]
  rw [e]
  exact ⟨by decide, by decide, by decide, by decide, h2, r1, r3.trans h3⟩

/-- C6, refuted: in one attempt (one scan start, no delete) a first BASE with index 1 is
delivered and taken by `main`; a second BASE with index 2 then changes
`bis_index_bitfield` from `BIT(1)` to `BIT(2)` and raises the count of
`sem_base_received` from 0 to 1. -/
theorem later_base_after_take_is_not_noop :
    (run 4 init_state
      [Event.main_run env_ok false, Event.scan_recv, Event.main_run env_ok false,
       Event.pa_synced (some 1), Event.main_run env_ok false,
       Event.base_recv (base_single 1), Event.main_run env_ok false]).bis_index_bitfield
      = BIT 1 ∧
    (run 4 init_state
      [Event.main_run env_ok false, Event.scan_recv, Event.main_run env_ok false,
       Event.pa_synced (some 1), Event.main_run env_ok false,
       Event.base_recv (base_single 1), Event.main_run env_ok false]).sem_base_received
      = 0 ∧
    (run 4 init_state
      [Event.main_run env_ok false, Event.scan_recv, Event.main_run env_ok false,
       Event.pa_synced (some 1), Event.main_run env_ok false,
       Event.base_recv (base_single 1), Event.main_run env_ok false,
       Event.base_recv (base_single 2)]).bis_index_bitfield = BIT 2 ∧
    (run 4 init_state
      [Event.main_run env_ok false, Event.scan_recv, Event.main_run env_ok false,
       Event.pa_synced (some 1), Event.main_run env_ok false,
       Event.base_recv (base_single 1), Event.main_run env_ok false,
       Event.base_recv (base_single 2)]).sem_base_received = 1 ∧
    (run 4 init_state
      [Event.main_run env_ok false, Event.scan_recv, Event.main_run env_ok false,
       Event.pa_synced (some 1), Event.main_run env_ok false,
       Event.base_recv (base_single 1), Event.main_run env_ok false,
       Event.base_recv (base_single 2)]).scan_starts = 1 := by
  decide

theorem base_recv_cb_pending (n : Nat) (st : State) (base : bt_audio_base)
    (h : st.sem_base_received ≠ 0) : base_recv_cb n st base = st := by
  simp [base_recv_cb, k_sem_count_get, h]

theorem base_recv_cb_gives (n : Nat) (st : State) (base : bt_audio_base) :
    (base_recv_cb n st base).sem_base_received ≠ 0 := by
  by_cases h : st.sem_base_received = 0
  · simp [base_recv_cb, k_sem_count_get, h, k_sem_give]
  · rw [base_recv_cb_pending n st base h]
    exact h

/-- A callback leaves the count of `sem_base_received` non-zero. -/
theorem callback_keeps_base_pending (n : Nat) (st : State) (e : Event)
    (he : is_callback e = true)
    (h : st.sem_base_received ≠ 0) : (step n st e).sem_base_received ≠ 0 := by
  cases e with
  | scan_recv => exact h
  | scan_term err => exact h
  | pa_synced sink =>
    by_cases h1 : st.broadcast_sink = none <;> simp [step, pa_synced_cb, h1, h]
  | base_recv base => exact base_recv_cb_gives n st base
  | syncable encrypted => cases encrypted <;> simp [step, syncable_cb, h]
  | pa_sync_lost =>
    by_cases h1 : st.broadcast_sink = none <;> simp [step, pa_sync_lost_cb, h1, h]
  | stream_started => exact h
  | stream_stopped => exact h
  | main_run env expired => exact absurd he (by simp [is_callback])

theorem callbacks_keep_base_pending (n : Nat) (evs : List Event) (st : State)
    (hev : ∀ e ∈ evs, is_callback e = true)
    (h : st.sem_base_received ≠ 0) : (run n st evs).sem_base_received ≠ 0 := by
  induction evs generalizing st with
  | nil => exact h
  | cons e evs ih =>
    rw [run_cons]
    exact ih _ (fun x hx => hev x (List.mem_cons_of_mem _ hx))
      (callback_keeps_base_pending n st e (hev e (List.mem_cons_self _ _)) h)

/-- C6, amended: after a first delivery `base1` to `base_recv_cb`, and whatever callbacks
`evs` follow it, as long as `main` has not run in between (so it has neither taken
`sem_base_received` nor called `reset`), the count of `sem_base_received` is non-zero and
a later delivery `base2` changes nothing at all, whatever its content; in general a
delivery is a no-op in every state in which that count is non-zero. -/
theorem later_base_before_take_is_noop (n : Nat) (st : State) (base1 base2 : bt_audio_base)
    (evs : List Event) (hev : ∀ e ∈ evs, is_callback e = true) :
    (run n (base_recv_cb n st base1) evs).sem_base_received ≠ 0 ∧
    step n (run n (base_recv_cb n st base1) evs) (Event.base_recv base2) =
      run n (base_recv_cb n st base1) evs ∧
    (∀ s : State, s.sem_base_received ≠ 0 → base_recv_cb n s base2 = s) := by
  have h := callbacks_keep_base_pending n evs _ hev (base_recv_cb_gives n st base1)
  exact ⟨h, base_recv_cb_pending n _ base2 h, fun s hs => base_recv_cb_pending n s base2 hs⟩

/-- The amended C6 with a discovery and a PA sync between the two deliveries. -/
theorem later_base_before_take_is_noop_witness :
    (run 4 (base_recv_cb 4 init_state (base_single 1))
      [Event.scan_recv, Event.pa_synced (some 1)]).sem_base_received ≠ 0 ∧
    step 4 (run 4 (base_recv_cb 4 init_state (base_single 1))
      [Event.scan_recv, Event.pa_synced (some 1)]) (Event.base_recv (base_single 2)) =
      run 4 (base_recv_cb 4 init_state (base_single 1))
        [Event.scan_recv, Event.pa_synced (some 1)] ∧
    (∀ s : State, s.sem_base_received ≠ 0 → base_recv_cb 4 s (base_single 2) = s) :=
  later_base_before_take_is_noop 4 init_state (base_single 1) (base_single 2)
    [Event.scan_recv, Event.pa_synced (some 1)] (by decide)

/-- C7, refuted twice. The wait for a broadcaster times out in the first attempt: no sink
exists and `bt_audio_broadcast_sink_delete` is not called at all. The wait for the BASE
times out with sink 7 set and the delete call failing (-22): the call is made once and
`broadcast_sink` stays set. In both cases the scan is started again. -/
theorem stage_timeout_without_delete_or_clear :
    (run 4 init_state
      [Event.main_run env_ok false, Event.main_run env_ok true]).deleted = [] ∧
    (run 4 init_state
      [Event.main_run env_ok false, Event.main_run env_ok true]).scan_starts = 2 ∧
    (run 4 init_state
      [Event.main_run env_ok false, Event.scan_recv, Event.main_run env_ok false,
       Event.pa_synced (some 7), Event.main_run env_ok false,
       Event.main_run { delete_err := -22, scan_err := 0, sync_err := 0 } true]).deleted
      = [some 7] ∧
    (run 4 init_state
      [Event.main_run env_ok false, Event.scan_recv, Event.main_run env_ok false,
       Event.pa_synced (some 7), Event.main_run env_ok false,
       Event.main_run { delete_err := -22, scan_err := 0, sync_err := 0 } true]).broadcast_sink
      = some 7 ∧
    (run 4 init_state
      [Event.main_run env_ok false, Event.scan_recv, Event.main_run env_ok false,
       Event.pa_synced (some 7), Event.main_run env_ok false,
       Event.main_run { delete_err := -22, scan_err := 0, sync_err := 0 } true]).pc
      = MainPc.wait_broadcaster_found := by
  decide

/-- What the head of the loop does with the sink. -/
theorem main_loop_top_sink (st : State) (env : Env) :
    (st.broadcast_sink = none →
      (main_loop_top st env).deleted = st.deleted ∧
      (main_loop_top st env).broadcast_sink = none) ∧
    (∀ h, st.broadcast_sink = some h →
      (main_loop_top st env).deleted = st.deleted ++ [some h] ∧
      (env.delete_err = 0 → (main_loop_top st env).broadcast_sink = none)) := by
  unfold main_loop_top reset k_sem_reset
  constructor
  · intro h1
    by_cases h3 : env.scan_err = 0 <;> simp [h1, h3]
  · intro h h1
    by_cases h2 : env.delete_err = 0 <;> by_cases h3 : env.scan_err = 0 <;>
      simp [h1, h2, h3]

/-- A stage wait that has timed out goes to the head of the loop. -/
theorem main_step_timeout (st : State) (env : Env) (hw : in_stage_wait st.pc = true)
    (hc : awaited_count st = 0) : main_step st env true = main_loop_top st env := by
  rw [main_step_eq]
  unfold awaited_count at hc
  cases hp : st.pc <;> simp [hp, in_stage_wait] at hw hc ⊢ <;> simp [hc]

/-- C7, amended: when one of the four stage waits of `main` times out (its semaphore not
given), the loop goes through `reset()`: `bis_index_bitfield` and the five semaphores are
zero afterwards and `bt_audio_broadcast_sink_scan_start` is called once, after which
`main` waits for a broadcaster again if that call succeeds. If a sink is set,
`bt_audio_broadcast_sink_delete` is called exactly once, on that sink, and
`broadcast_sink` is `NULL` afterwards if the call succeeds. If no sink is set, no delete
call is made and `broadcast_sink` remains `NULL`. -/
theorem stage_timeout_resets (st : State) (env : Env)
    (hw : in_stage_wait st.pc = true) (hc : awaited_count st = 0) :
    (main_step st env true).bis_index_bitfield = 0 ∧
    (main_step st env true).sem_broadcaster_found = 0 ∧
    (main_step st env true).sem_pa_synced = 0 ∧
    (main_step st env true).sem_base_received = 0 ∧
    (main_step st env true).sem_syncable = 0 ∧
    (main_step st env true).sem_pa_sync_lost = 0 ∧
    (main_step st env true).scan_starts = st.scan_starts + 1 ∧
    (env.scan_err = 0 → (main_step st env true).pc = MainPc.wait_broadcaster_found) ∧
    (st.broadcast_sink = none →
      (main_step st env true).deleted = st.deleted ∧
      (main_step st env true).broadcast_sink = none) ∧
    (∀ h, st.broadcast_sink = some h →
      (main_step st env true).deleted = st.deleted ++ [some h] ∧
      (env.delete_err = 0 → (main_step st env true).broadcast_sink = none)) := by
  rw [main_step_timeout st env hw hc]
  obtain ⟨t1, t2, t3, t4, t5, t6, -, t8, -, t10⟩ := main_loop_top_fields st env
  obtain ⟨s1, s2⟩ := main_loop_top_sink st env
  exact ⟨t6, t1, t2, t3, t4, t5, t8, t10, s1, s2⟩

/-- The amended C7 at a timeout of the wait for syncable, with sink 1 set. -/
theorem stage_timeout_resets_witness :
    (main_step (run 4 init_state run_to_syncable_wait) env_ok true).bis_index_bitfield = 0 ∧
    (main_step (run 4 init_state run_to_syncable_wait) env_ok true).sem_broadcaster_found
      = 0 ∧
    (main_step (run 4 init_state run_to_syncable_wait) env_ok true).sem_pa_synced = 0 ∧
    (main_step (run 4 init_state run_to_syncable_wait) env_ok true).sem_base_received = 0 ∧
    (main_step (run 4 init_state run_to_syncable_wait) env_ok true).sem_syncable = 0 ∧
    (main_step (run 4 init_state run_to_syncable_wait) env_ok true).sem_pa_sync_lost = 0 ∧
    (main_step (run 4 init_state run_to_syncable_wait) env_ok true).scan_starts =
      (run 4 init_state run_to_syncable_wait).scan_starts + 1 ∧
    (env_ok.scan_err = 0 →
      (main_step (run 4 init_state run_to_syncable_wait) env_ok true).pc =
        MainPc.wait_broadcaster_found) ∧
    ((run 4 init_state run_to_syncable_wait).broadcast_sink = none →
      (main_step (run 4 init_state run_to_syncable_wait) env_ok true).deleted =
        (run 4 init_state run_to_syncable_wait).deleted ∧
      (main_step (run 4 init_state run_to_syncable_wait) env_ok true).broadcast_sink
        = none) ∧
    (∀ h, (run 4 init_state run_to_syncable_wait).broadcast_sink = some h →
      (main_step (run 4 init_state run_to_syncable_wait) env_ok true).deleted =
        (run 4 init_state run_to_syncable_wait).deleted ++ [some h] ∧
      (env_ok.delete_err = 0 →
        (main_step (run 4 init_state run_to_syncable_wait) env_ok true).broadcast_sink
          = none)) :=
  stage_timeout_resets (run 4 init_state run_to_syncable_wait) env_ok (by decide) (by decide)

/-- C8, refuted: `main` waits for syncable after `run_to_syncable_wait`; an encrypted
syncable event, and a run of `main` before the deadline, leave it in that wait, with the
sink still set and no second scan started. -/
theorem encrypted_syncable_does_not_restart :
    (run 4 init_state run_to_syncable_wait).pc = MainPc.wait_syncable ∧
    (run 4 init_state (run_to_syncable_wait ++ [Event.syncable true])).pc
      = MainPc.wait_syncable ∧
    (run 4 init_state (run_to_syncable_wait ++
      [Event.syncable true, Event.main_run env_ok false])).pc = MainPc.wait_syncable ∧
    (run 4 init_state (run_to_syncable_wait ++
      [Event.syncable true, Event.main_run env_ok false])).scan_starts = 1 ∧
    (run 4 init_state (run_to_syncable_wait ++
      [Event.syncable true, Event.main_run env_ok false])).broadcast_sink = some 1 ∧
    (run 4 init_state (run_to_syncable_wait ++
      [Event.syncable true, Event.main_run env_ok false])).deleted = [] := by
  decide

/-- C8, amended: `syncable_cb` with `encrypted = true` changes no state. While `main`
waits for syncable with `sem_syncable` not given, it keeps waiting after the callback,
and it goes to the head of its loop (`reset()`, scan start) only when the wait times
out. -/
theorem encrypted_syncable_waits_for_timeout (st : State) (env : Env)
    (hpc : st.pc = MainPc.wait_syncable) (hsem : st.sem_syncable = 0) :
    syncable_cb st true = st ∧
    main_step (syncable_cb st true) env false = st ∧
    main_step (syncable_cb st true) env true = main_loop_top st env := by
  rw [syncable_cb_encrypted, main_step_eq, main_step_eq]
  simp [hpc, hsem]

/-- The amended C8 at the state after `run_to_syncable_wait`. -/
theorem encrypted_syncable_waits_for_timeout_witness :
    syncable_cb (run 4 init_state run_to_syncable_wait) true =
      run 4 init_state run_to_syncable_wait ∧
    main_step (syncable_cb (run 4 init_state run_to_syncable_wait) true) env_ok false =
      run 4 init_state run_to_syncable_wait ∧
    main_step (syncable_cb (run 4 init_state run_to_syncable_wait) true) env_ok true =
      main_loop_top (run 4 init_state run_to_syncable_wait) env_ok :=
  encrypted_syncable_waits_for_timeout (run 4 init_state run_to_syncable_wait) env_ok
    (by decide) (by decide)

/-- C5, refuted: in `run_with_early_syncable` the unencrypted syncable event is delivered
before the discovery, so the last validly ordered event is the BASE and the spec state
is AwaitingSyncable (three events behind it); yet `main` passes all four waits and calls
`bt_audio_broadcast_sink_sync`. -/
theorem early_syncable_passes_the_wait :
    spec_stage run_with_early_syncable = SyncStage.AwaitingSyncable ∧
    (run 4 init_state run_with_early_syncable).pc = MainPc.wait_pa_sync_lost ∧
    (run 4 init_state run_with_early_syncable).sync_calls = [(some 1, BIT 2)] ∧
    ¬ (waits_passed (run 4 init_state run_with_early_syncable).pc ≤
        (spec_stage run_with_early_syncable).rank) := by
  decide

/-- The invariant is carried to a next state whose given semaphores, passed waits and
sync calls are either those of the state before or due to the event just delivered. -/
theorem delivered_inv_next (calls : Nat) (st st' : State) (pre : List Event) (e : Event)
    (h : delivered_inv calls st pre)
    (k1 : st'.sem_pa_sync_lost = 0) (k2 : st'.pc ≠ MainPc.top)
    (k3 : (st'.sem_broadcaster_found ≠ 0 ∨ 1 ≤ waits_passed st'.pc ∨
        calls < st'.sync_calls.length) →
      (st.sem_broadcaster_found ≠ 0 ∨ 1 ≤ waits_passed st.pc ∨
        calls < st.sync_calls.length) ∨ e = Event.scan_recv)
    (k4 : (st'.sem_pa_synced ≠ 0 ∨ 2 ≤ waits_passed st'.pc ∨
        calls < st'.sync_calls.length) →
      (st.sem_pa_synced ≠ 0 ∨ 2 ≤ waits_passed st.pc ∨
        calls < st.sync_calls.length) ∨ ∃ sink, e = Event.pa_synced sink)
    (k5 : (st'.sem_base_received ≠ 0 ∨ 3 ≤ waits_passed st'.pc ∨
        calls < st'.sync_calls.length) →
      (st.sem_base_received ≠ 0 ∨ 3 ≤ waits_passed st.pc ∨
        calls < st.sync_calls.length) ∨ ∃ base, e = Event.base_recv base)
    (k6 : (st'.sem_syncable ≠ 0 ∨ 4 ≤ waits_passed st'.pc ∨
        calls < st'.sync_calls.length) →
      (st.sem_syncable ≠ 0 ∨ 4 ≤ waits_passed st.pc ∨
        calls < st.sync_calls.length) ∨ e = Event.syncable false) :
    delivered_inv calls st' (pre ++ [e]) := by
  obtain ⟨-, -, h3, h4, h5, h6⟩ := h
  have last : e ∈ pre ++ [e] := List.mem_append_right _ (List.mem_singleton_self _)
  refine ⟨k1, k2, fun x => ?_, fun x => ?_, fun x => ?_, fun x => ?_⟩
  · rcases k3 x with y | y
    · exact List.mem_append_left _ (h3 y)
    · exact y ▸ last
  · rcases k4 x with y | ⟨sink, y⟩
    · exact (h4 y).imp fun _ z => List.mem_append_left _ z
    · exact ⟨sink, y ▸ last⟩
  · rcases k5 x with y | ⟨base, y⟩
    · exact (h5 y).imp fun _ z => List.mem_append_left _ z
    · exact ⟨base, y ▸ last⟩
  · rcases k6 x with y | y
    · exact List.mem_append_left _ (h6 y)
    · exact y ▸ last

theorem step_delivered_inv (n calls : Nat) (st : State) (pre : List Event) (e : Event)
    (he : deadline_passed e = false) (h : delivered_inv calls st pre) :
    delivered_inv calls (step n st e) (pre ++ [e]) := by
  have h1 : st.sem_pa_sync_lost = 0 := h.1
  have h2 : st.pc ≠ MainPc.top := h.2.1
  cases e with
  | scan_recv =>
    exact delivered_inv_next calls st _ pre _ h h1 h2 (fun _ => Or.inr rfl) Or.inl Or.inl
      Or.inl
  | scan_term err =>
    exact delivered_inv_next calls st _ pre _ h h1 h2 Or.inl Or.inl Or.inl Or.inl
  | pa_synced sink =>
    by_cases hs : st.broadcast_sink = none
    · have e1 : step n st (Event.pa_synced sink) =
          { st with broadcast_sink := sink, sem_pa_synced := k_sem_give st.sem_pa_synced } := by
        simp [step, pa_synced_cb, hs]
      rw [e1]
      exact delivered_inv_next calls st _ pre _ h h1 h2 Or.inl (fun _ => Or.inr ⟨sink, rfl⟩)
        Or.inl Or.inl
    · have e1 : step n st (Event.pa_synced sink) = st := by
        simp [step, pa_synced_cb, hs]
      rw [e1]
      exact delivered_inv_next calls st _ pre _ h h1 h2 Or.inl Or.inl Or.inl Or.inl
  | base_recv base =>
    by_cases hs : st.sem_base_received = 0
    · apply delivered_inv_next calls st _ pre _ h
      · simp [step, base_recv_cb, k_sem_count_get, hs, h1]
      · simp [step, base_recv_cb, k_sem_count_get, hs, h2]
      · simp [step, base_recv_cb, k_sem_count_get, hs]
      · simp [step, base_recv_cb, k_sem_count_get, hs]
      · exact fun _ => Or.inr ⟨base, rfl⟩
      · simp [step, base_recv_cb, k_sem_count_get, hs]
    · have e1 : step n st (Event.base_recv base) = st := base_recv_cb_pending n st base hs
      rw [e1]
      exact delivered_inv_next calls st _ pre _ h h1 h2 Or.inl Or.inl Or.inl Or.inl
  | syncable encrypted =>
    cases encrypted with
    | true =>
      have e1 : step n st (Event.syncable true) = st := syncable_cb_encrypted st
      rw [e1]
      exact delivered_inv_next calls st _ pre _ h h1 h2 Or.inl Or.inl Or.inl Or.inl
    | false =>
      exact delivered_inv_next calls st _ pre _ h h1 h2 Or.inl Or.inl Or.inl
        (fun _ => Or.inr rfl)
  | pa_sync_lost =>
    by_cases hs : st.broadcast_sink = none
    · have e1 : step n st Event.pa_sync_lost = st := by
        simp [step, pa_sync_lost_cb, hs]
      rw [e1]
      exact delivered_inv_next calls st _ pre _ h h1 h2 Or.inl Or.inl Or.inl Or.inl
    · have e1 : step n st Event.pa_sync_lost =
          { st with broadcast_sink := none, streaming := false } := by
        simp [step, pa_sync_lost_cb, hs]
      rw [e1]
      exact delivered_inv_next calls st _ pre _ h h1 h2 Or.inl Or.inl Or.inl Or.inl
  | stream_started =>
    exact delivered_inv_next calls st _ pre _ h h1 h2 Or.inl Or.inl Or.inl Or.inl
  | stream_stopped =>
    exact delivered_inv_next calls st _ pre _ h h1 h2 Or.inl Or.inl Or.inl Or.inl
  | main_run env expired =>
    have hx : expired = false := he
    subst hx
    simp only [step]
    rw [main_step_eq]
    cases hp : st.pc
    · exact absurd hp h2
    · by_cases hc : st.sem_broadcaster_found = 0
      · simp only [hc, ne_eq, not_true_eq_false, if_false, Bool.false_eq_true]
        exact delivered_inv_next calls st _ pre _ h h1 h2 Or.inl Or.inl Or.inl Or.inl
      · apply delivered_inv_next calls st _ pre _ h <;>
          simp [hc, hp, h1, waits_passed]
    · by_cases hc : st.sem_pa_synced = 0
      · simp only [hc, ne_eq, not_true_eq_false, if_false, Bool.false_eq_true]
        exact delivered_inv_next calls st _ pre _ h h1 h2 Or.inl Or.inl Or.inl Or.inl
      · apply delivered_inv_next calls st _ pre _ h <;>
          simp [hc, hp, h1, waits_passed]
    · by_cases hc : st.sem_base_received = 0
      · simp only [hc, ne_eq, not_true_eq_false, if_false, Bool.false_eq_true]
        exact delivered_inv_next calls st _ pre _ h h1 h2 Or.inl Or.inl Or.inl Or.inl
      · apply delivered_inv_next calls st _ pre _ h <;>
          simp [hc, hp, h1, waits_passed]
    · by_cases hc : st.sem_syncable = 0
      · simp only [hc, ne_eq, not_true_eq_false, if_false, Bool.false_eq_true]
        exact delivered_inv_next calls st _ pre _ h h1 h2 Or.inl Or.inl Or.inl Or.inl
      · by_cases hs : env.sync_err = 0 <;>
          apply delivered_inv_next calls st _ pre _ h <;>
          simp [hc, hs, hp, h1, waits_passed]
    · simp only [h1, ne_eq, not_true_eq_false, if_false]
      exact delivered_inv_next calls st _ pre _ h h1 h2 Or.inl Or.inl Or.inl Or.inl
    · exact delivered_inv_next calls st _ pre _ h h1 h2 Or.inl Or.inl Or.inl Or.inl

theorem run_delivered_inv (n calls : Nat) (evs : List Event) (st : State)
    (pre : List Event) (hev : ∀ e ∈ evs, deadline_passed e = false)
    (h : delivered_inv calls st pre) :
    delivered_inv calls (run n st evs) (pre ++ evs) := by
  induction evs generalizing st pre with
  | nil =>
    rw [List.append_nil]
    exact h
  | cons e evs ih =>
    have h1 := step_delivered_inv n calls st pre e (hev e (List.mem_cons_self _ _)) h
    have h2 := ih (step n st e) (pre ++ [e])
      (fun x hx => hev x (List.mem_cons_of_mem _ hx)) h1
    rw [List.append_assoc, List.singleton_append] at h2
    exact h2

/-- C5, amended: within one attempt, that is in every run from the head of the loop of
`main` in which no wait times out, whatever the order and number of the callbacks:
`main` is past the wait of a stage only if the callback of that stage (`scan_recv_cb`,
`pa_synced_cb`, `base_recv_cb`, `syncable_cb` with `encrypted = false`) has been delivered
since the head of the loop, and `bt_audio_broadcast_sink_sync` has been called only if all
four have been. The order of the deliveries is not checked. -/
theorem waits_pass_only_after_their_event (n : Nat) (st : State) (env : Env)
    (evs : List Event) (hev : ∀ e ∈ evs, deadline_passed e = false) :
    (1 ≤ waits_passed (run n (main_loop_top st env) evs).pc → Event.scan_recv ∈ evs) ∧
    (2 ≤ waits_passed (run n (main_loop_top st env) evs).pc →
      ∃ sink, Event.pa_synced sink ∈ evs) ∧
    (3 ≤ waits_passed (run n (main_loop_top st env) evs).pc →
      ∃ base, Event.base_recv base ∈ evs) ∧
    (4 ≤ waits_passed (run n (main_loop_top st env) evs).pc →
      Event.syncable false ∈ evs) ∧
    ((main_loop_top st env).sync_calls.length <
        (run n (main_loop_top st env) evs).sync_calls.length →
      Event.scan_recv ∈ evs ∧ (∃ sink, Event.pa_synced sink ∈ evs) ∧
      (∃ base, Event.base_recv base ∈ evs) ∧ Event.syncable false ∈ evs) := by
  obtain ⟨t1, t2, t3, t4, t5, -, -, -, t9, -⟩ := main_loop_top_fields st env
  have h0 : delivered_inv (main_loop_top st env).sync_calls.length (main_loop_top st env)
      [] := by
    unfold delivered_inv
    rcases t9 with hp | hp <;> simp [t1, t2, t3, t4, t5, hp, waits_passed]
  have h := run_delivered_inv n _ evs _ [] hev h0
  rw [List.nil_append] at h
  obtain ⟨-, -, h3, h4, h5, h6⟩ := h
  exact ⟨fun x => h3 (Or.inr (Or.inl x)), fun x => h4 (Or.inr (Or.inl x)),
    fun x => h5 (Or.inr (Or.inl x)), fun x => h6 (Or.inr (Or.inl x)),
    fun x => ⟨h3 (Or.inr (Or.inr x)), h4 (Or.inr (Or.inr x)), h5 (Or.inr (Or.inr x)),
      h6 (Or.inr (Or.inr x))⟩⟩

/-- The amended C5 on the attempt of `run_with_early_syncable` after its first run of
`main`. -/
theorem waits_pass_only_after_their_event_witness :
    (1 ≤ waits_passed (run 4 (main_loop_top init_state env_ok)
      run_with_early_syncable.tail).pc → Event.scan_recv ∈ run_with_early_syncable.tail) ∧
    (2 ≤ waits_passed (run 4 (main_loop_top init_state env_ok)
      run_with_early_syncable.tail).pc →
      ∃ sink, Event.pa_synced sink ∈ run_with_early_syncable.tail) ∧
    (3 ≤ waits_passed (run 4 (main_loop_top init_state env_ok)
      run_with_early_syncable.tail).pc →
      ∃ base, Event.base_recv base ∈ run_with_early_syncable.tail) ∧
    (4 ≤ waits_passed (run 4 (main_loop_top init_state env_ok)
      run_with_early_syncable.tail).pc →
      Event.syncable false ∈ run_with_early_syncable.tail) ∧
    ((main_loop_top init_state env_ok).sync_calls.length <
        (run 4 (main_loop_top init_state env_ok)
          run_with_early_syncable.tail).sync_calls.length →
      Event.scan_recv ∈ run_with_early_syncable.tail ∧
      (∃ sink, Event.pa_synced sink ∈ run_with_early_syncable.tail) ∧
      (∃ base, Event.base_recv base ∈ run_with_early_syncable.tail) ∧
      Event.syncable false ∈ run_with_early_syncable.tail) :=
  waits_pass_only_after_their_event 4 init_state env_ok run_with_early_syncable.tail
    (by decide)

/-! ## The sink handle: C15 -/

/-- C15, refuted in both directions. After the discovery has been taken by `main`, the
loop is past the discovery stage but `broadcast_sink` is still `NULL`: `scan_recv_cb`
stores nothing. And a PA sync delivered while `main` still waits for a broadcaster
stores the sink although the loop is not past the discovery stage. -/
theorem sink_not_tied_to_discovery :
    (run 4 init_state
      [Event.main_run env_ok false, Event.scan_recv, Event.main_run env_ok false]).pc
      = MainPc.wait_pa_synced ∧
    (run 4 init_state
      [Event.main_run env_ok false, Event.scan_recv,
       Event.main_run env_ok false]).broadcast_sink = none ∧
    (run 4 init_state
      [Event.main_run env_ok false, Event.pa_synced (some 1)]).pc
      = MainPc.wait_broadcaster_found ∧
    (run 4 init_state
      [Event.main_run env_ok false, Event.pa_synced (some 1)]).broadcast_sink = some 1 := by
  decide

/-- The invariant is carried over an event that is not a PA sync and leaves the sink as
it is. -/
theorem sink_inv_next (start_sink : Ptr) (st st1 : State) (pre : List Event) (e : Event)
    (h : sink_inv start_sink st pre)
    (k1 : st1.sem_pa_sync_lost = 0) (k2 : st1.pc ≠ MainPc.top)
    (k3 : st1.broadcast_sink = st.broadcast_sink)
    (k4 : (st1.sem_pa_synced ≠ 0 ∨ 2 ≤ waits_passed st1.pc) →
      (st.sem_pa_synced ≠ 0 ∨ 2 ≤ waits_passed st.pc))
    (k5 : ∀ sink, e ≠ Event.pa_synced sink) :
    sink_inv start_sink st1 (pre ++ [e]) := by
  obtain ⟨-, -, h3, h4, h5⟩ := h
  refine ⟨k1, k2, ?_, ?_, ?_⟩
  · rintro ⟨sink, hs⟩
    rw [k3]
    rcases List.mem_append.mp hs with h1 | h1
    · exact h3 ⟨sink, h1⟩
    · exact absurd (List.mem_singleton.mp h1).symm (k5 sink)
  · intro hne
    rw [k3] at hne
    rcases h4 hne with ⟨sink, hs⟩ | hs
    · exact Or.inl ⟨sink, List.mem_append_left _ hs⟩
    · exact Or.inr hs
  · intro hx
    rw [k3]
    exact h5 (k4 hx)

theorem step_sink_inv (n : Nat) (start_sink : Ptr) (st : State) (pre : List Event)
    (e : Event) (he : keeps_sink e = true) (h : sink_inv start_sink st pre) :
    sink_inv start_sink (step n st e) (pre ++ [e]) := by
  have h1 : st.sem_pa_sync_lost = 0 := h.1
  have h2 : st.pc ≠ MainPc.top := h.2.1
  cases e with
  | scan_recv =>
    exact sink_inv_next start_sink st _ pre _ h h1 h2 rfl id (fun _ hx => by cases hx)
  | scan_term err =>
    exact sink_inv_next start_sink st _ pre _ h h1 h2 rfl id (fun _ hx => by cases hx)
  | pa_synced sink =>
    have hsome : sink ≠ none := by
      intro hn
      rw [hn] at he
      exact absurd he (by decide)
    have last : Event.pa_synced sink ∈ pre ++ [Event.pa_synced sink] :=
      List.mem_append_right _ (List.mem_singleton_self _)
    obtain ⟨-, -, h3, h4, h5⟩ := h
    by_cases hs : st.broadcast_sink = none
    · have e1 : step n st (Event.pa_synced sink) =
          { st with broadcast_sink := sink, sem_pa_synced := k_sem_give st.sem_pa_synced } := by
        simp [step, pa_synced_cb, hs]
      rw [e1]
      exact ⟨h1, h2, fun _ => hsome, fun _ => Or.inl ⟨sink, last⟩, fun _ => hsome⟩
    · have e1 : step n st (Event.pa_synced sink) = st := by
        simp [step, pa_synced_cb, hs]
      rw [e1]
      exact ⟨h1, h2, fun _ => hs, fun _ => Or.inl ⟨sink, last⟩, fun _ => hs⟩
  | base_recv base =>
    by_cases hs : st.sem_base_received = 0
    · apply sink_inv_next start_sink st _ pre _ h
      · simp [step, base_recv_cb, k_sem_count_get, hs, h1]
      · simp [step, base_recv_cb, k_sem_count_get, hs, h2]
      · simp [step, base_recv_cb, k_sem_count_get, hs]
      · simp [step, base_recv_cb, k_sem_count_get, hs]
      · exact fun _ hx => by cases hx
    · have e1 : step n st (Event.base_recv base) = st := base_recv_cb_pending n st base hs
      rw [e1]
      exact sink_inv_next start_sink st _ pre _ h h1 h2 rfl id (fun _ hx => by cases hx)
  | syncable encrypted =>
    cases encrypted with
    | true =>
      have e1 : step n st (Event.syncable true) = st := syncable_cb_encrypted st
      rw [e1]
      exact sink_inv_next start_sink st _ pre _ h h1 h2 rfl id (fun _ hx => by cases hx)
    | false =>
      exact sink_inv_next start_sink st _ pre _ h h1 h2 rfl id (fun _ hx => by cases hx)
  | pa_sync_lost => exact absurd he (by decide)
  | stream_started =>
    exact sink_inv_next start_sink st _ pre _ h h1 h2 rfl id (fun _ hx => by cases hx)
  | stream_stopped =>
    exact sink_inv_next start_sink st _ pre _ h h1 h2 rfl id (fun _ hx => by cases hx)
  | main_run env expired =>
    have hx : expired = false := by
      cases expired
      · rfl
      · exact absurd he (by simp [keeps_sink])
    subst hx
    simp only [step]
    rw [main_step_eq]
    cases hp : st.pc
    · exact absurd hp h2
    · by_cases hc : st.sem_broadcaster_found = 0
      · simp only [hc, ne_eq, not_true_eq_false, if_false, Bool.false_eq_true]
        exact sink_inv_next start_sink st _ pre _ h h1 h2 rfl id (fun _ hx => by cases hx)
      · apply sink_inv_next start_sink st _ pre _ h <;>
          simp [hc, hp, h1, waits_passed]
    · by_cases hc : st.sem_pa_synced = 0
      · simp only [hc, ne_eq, not_true_eq_false, if_false, Bool.false_eq_true]
        exact sink_inv_next start_sink st _ pre _ h h1 h2 rfl id (fun _ hx => by cases hx)
      · apply sink_inv_next start_sink st _ pre _ h <;>
          simp [hc, hp, h1, waits_passed]
    · by_cases hc : st.sem_base_received = 0
      · simp only [hc, ne_eq, not_true_eq_false, if_false, Bool.false_eq_true]
        exact sink_inv_next start_sink st _ pre _ h h1 h2 rfl id (fun _ hx => by cases hx)
      · apply sink_inv_next start_sink st _ pre _ h <;>
          simp [hc, hp, h1, waits_passed]
    · by_cases hc : st.sem_syncable = 0
      · simp only [hc, ne_eq, not_true_eq_false, if_false, Bool.false_eq_true]
        exact sink_inv_next start_sink st _ pre _ h h1 h2 rfl id (fun _ hx => by cases hx)
      · have h5 := h.2.2.2.2
        have hsink : st.broadcast_sink ≠ none := h5 (Or.inr (by rw [hp]; decide))
        obtain ⟨-, -, h3, h4, -⟩ := h
        by_cases hs : env.sync_err = 0
        · simp only [hc, hs, ne_eq, not_false_eq_true, if_true, not_true_eq_false, if_false]
          refine ⟨h1, by simp, fun _ => hsink, fun hne => ?_, fun _ => hsink⟩
          rcases h4 hne with ⟨sink, hx⟩ | hx
          · exact Or.inl ⟨sink, List.mem_append_left _ hx⟩
          · exact Or.inr hx
        · simp only [hc, hs, ne_eq, not_false_eq_true, if_true]
          refine ⟨h1, by simp, fun _ => hsink, fun hne => ?_, fun _ => hsink⟩
          rcases h4 hne with ⟨sink, hx⟩ | hx
          · exact Or.inl ⟨sink, List.mem_append_left _ hx⟩
          · exact Or.inr hx
    · simp only [h1, ne_eq, not_true_eq_false, if_false]
      exact sink_inv_next start_sink st _ pre _ h h1 h2 rfl id (fun _ hx => by cases hx)
    · exact sink_inv_next start_sink st _ pre _ h h1 h2 rfl id (fun _ hx => by cases hx)

theorem run_sink_inv (n : Nat) (start_sink : Ptr) (evs : List Event) (st : State)
    (pre : List Event) (hev : ∀ e ∈ evs, keeps_sink e = true)
    (h : sink_inv start_sink st pre) :
    sink_inv start_sink (run n st evs) (pre ++ evs) := by
  induction evs generalizing st pre with
  | nil =>
    rw [List.append_nil]
    exact h
  | cons e evs ih =>
    have h1 := step_sink_inv n start_sink st pre e (hev e (List.mem_cons_self _ _)) h
    have h2 := ih (step n st e) (pre ++ [e])
      (fun x hx => hev x (List.mem_cons_of_mem _ hx)) h1
    rw [List.append_assoc, List.singleton_append] at h2
    exact h2

/-- C15, amended: `broadcast_sink` is stored by `pa_synced_cb`, on PA sync and not on
discovery. Within one attempt, that is in every run from the head of the loop of `main`
in which no wait times out, no sync loss is reported and every PA sync carries a sink:
`broadcast_sink` is non-`NULL` once a PA sync has been delivered; it is non-`NULL` only
then, or because the delete call at the head of the loop left it set; and it is
non-`NULL` whenever the control loop is past the wait for the PA sync. -/
theorem sink_set_by_pa_sync (n : Nat) (st : State) (env : Env) (evs : List Event)
    (hev : ∀ e ∈ evs, keeps_sink e = true) :
    ((∃ sink, Event.pa_synced sink ∈ evs) →
      (run n (main_loop_top st env) evs).broadcast_sink ≠ none) ∧
    ((run n (main_loop_top st env) evs).broadcast_sink ≠ none →
      (∃ sink, Event.pa_synced sink ∈ evs) ∨ (main_loop_top st env).broadcast_sink ≠ none) ∧
    (2 ≤ waits_passed (run n (main_loop_top st env) evs).pc →
      (run n (main_loop_top st env) evs).broadcast_sink ≠ none) := by
  obtain ⟨-, t2, -, -, t5, -, -, -, t9, -⟩ := main_loop_top_fields st env
  have h0 : sink_inv (main_loop_top st env).broadcast_sink (main_loop_top st env) [] := by
    unfold sink_inv
    refine ⟨t5, ?_, ?_, fun hne => Or.inr hne, ?_⟩
    · rcases t9 with hp | hp <;> simp [hp]
    · rintro ⟨sink, hs⟩
      exact absurd hs (by simp)
    · rcases t9 with hp | hp <;> simp [t2, hp, waits_passed]
  have h := run_sink_inv n _ evs _ [] hev h0
  rw [List.nil_append] at h
  obtain ⟨-, -, h3, h4, h5⟩ := h
  exact ⟨h3, h4, fun x => h5 (Or.inr x)⟩

/-- The amended C15 on the attempt of `run_to_syncable_wait` after its first run of
`main`. -/
theorem sink_set_by_pa_sync_witness :
    ((∃ sink, Event.pa_synced sink ∈ run_to_syncable_wait.tail) →
      (run 4 (main_loop_top init_state env_ok)
        run_to_syncable_wait.tail).broadcast_sink ≠ none) ∧
    ((run 4 (main_loop_top init_state env_ok)
        run_to_syncable_wait.tail).broadcast_sink ≠ none →
      (∃ sink, Event.pa_synced sink ∈ run_to_syncable_wait.tail) ∨
        (main_loop_top init_state env_ok).broadcast_sink ≠ none) ∧
    (2 ≤ waits_passed (run 4 (main_loop_top init_state env_ok)
        run_to_syncable_wait.tail).pc →
      (run 4 (main_loop_top init_state env_ok)
        run_to_syncable_wait.tail).broadcast_sink ≠ none) :=
  sink_set_by_pa_sync 4 init_state env_ok run_to_syncable_wait.tail (by decide)

/-! ## The output tick: `audio_datapath_i2s_blk_complete` -/

theorem blk_complete_idle (st : State) (hs : st.streaming = false) :
    audio_datapath_i2s_blk_complete st = { st with soft_resets := st.soft_resets + 1 } := by
  simp [audio_datapath_i2s_blk_complete, hs]

theorem consumer_ticks_idle (k : Nat) (st : State) (hs : st.streaming = false) :
    consumer_ticks k st = { st with soft_resets := st.soft_resets + k } := by
  induction k generalizing st with
  | zero => rfl
  | succ k ih =>
    rw [consumer_ticks, blk_complete_idle st hs,
      ih { st with soft_resets := st.soft_resets + 1 } hs]
    simp only [State.mk.injEq, and_true, true_and]
    omega

/-- C11: in a state with `streaming = false`, a call of
`audio_datapath_i2s_blk_complete` calls `hw_codec_soft_reset` once and changes nothing
else, so `cons_blk_idx`, `fifo` and the list of buffers handed to
`audio_i2s_set_next_buf` stay as they are; and this holds on every tick: k ticks make k
calls of `hw_codec_soft_reset` and none of `audio_i2s_set_next_buf`. -/
theorem idle_tick_soft_resets (st : State) (k : Nat) (hs : st.streaming = false) :
    audio_datapath_i2s_blk_complete st = { st with soft_resets := st.soft_resets + 1 } ∧
    (consumer_ticks k st).soft_resets = st.soft_resets + k ∧
    (consumer_ticks k st).next_bufs = st.next_bufs ∧
    (consumer_ticks k st).cons_blk_idx = st.cons_blk_idx ∧
    (consumer_ticks k st).fifo = st.fifo ∧
    (consumer_ticks k st).streaming = false := by
  rw [consumer_ticks_idle k st hs]
  exact ⟨blk_complete_idle st hs, rfl, rfl, rfl, rfl, hs⟩

/-- C11 on three ticks from the initial state. -/
theorem idle_tick_soft_resets_witness :
    audio_datapath_i2s_blk_complete init_state =
      { init_state with soft_resets := init_state.soft_resets + 1 } ∧
    (consumer_ticks 3 init_state).soft_resets = init_state.soft_resets + 3 ∧
    (consumer_ticks 3 init_state).next_bufs = init_state.next_bufs ∧
    (consumer_ticks 3 init_state).cons_blk_idx = init_state.cons_blk_idx ∧
    (consumer_ticks 3 init_state).fifo = init_state.fifo ∧
    (consumer_ticks 3 init_state).streaming = false :=
  idle_tick_soft_resets init_state 3 rfl

/-- C12: in a state with `streaming = true` and `cons_blk_idx = c < 80`, a call of
`audio_datapath_i2s_blk_complete` hands to `audio_i2s_set_next_buf` the address of slot
`(c + 1) mod 80` of `fifo` (sample offset 32 times the slot, inside `fifo`), which is
the slot `NEXT_IDX(c)`, sets `cons_blk_idx` to that slot, and changes nothing else: no
sample of `fifo`, not `prod_blk_idx`, and `hw_codec_soft_reset` is not called. -/
theorem streaming_tick_pops_next (st : State) (c : Nat) (hs : st.streaming = true)
    (hc : st.cons_blk_idx = c) (hlt : c < 80) :
    audio_datapath_i2s_blk_complete st =
      { st with
        next_bufs := st.next_bufs ++ [(c + 1) % 80 * 32]
        cons_blk_idx := (c + 1) % 80 } ∧
    NEXT_IDX c = (c + 1) % 80 ∧
    (c + 1) % 80 * 32 + 32 ≤ FIFO_NUM_SAMPS ∧
    (audio_datapath_i2s_blk_complete st).fifo = st.fifo ∧
    (audio_datapath_i2s_blk_complete st).prod_blk_idx = st.prod_blk_idx ∧
    (audio_datapath_i2s_blk_complete st).soft_resets = st.soft_resets := by
  have hn := next_idx_mod c hlt
  have e : audio_datapath_i2s_blk_complete st =
      { st with
        next_bufs := st.next_bufs ++ [(c + 1) % 80 * 32]
        cons_blk_idx := (c + 1) % 80 } := by
    simp [audio_datapath_i2s_blk_complete, hs, hc, hn]
  refine ⟨e, hn, ?_, ?_, ?_, ?_⟩
  · have : FIFO_NUM_SAMPS = 2560 := rfl
    omega
  · rw [e]
  · rw [e]
  · rw [e]

/-- C12 at the last slot: from `cons_blk_idx = 79` the tick hands out slot 0. -/
theorem streaming_tick_pops_next_witness :
    audio_datapath_i2s_blk_complete (streaming_from 79) =
      { streaming_from 79 with
        next_bufs := (streaming_from 79).next_bufs ++ [(79 + 1) % 80 * 32]
        cons_blk_idx := (79 + 1) % 80 } ∧
    NEXT_IDX 79 = (79 + 1) % 80 ∧
    (79 + 1) % 80 * 32 + 32 ≤ FIFO_NUM_SAMPS ∧
    (audio_datapath_i2s_blk_complete (streaming_from 79)).fifo = (streaming_from 79).fifo ∧
    (audio_datapath_i2s_blk_complete (streaming_from 79)).prod_blk_idx =
      (streaming_from 79).prod_blk_idx ∧
    (audio_datapath_i2s_blk_complete (streaming_from 79)).soft_resets =
      (streaming_from 79).soft_resets :=
  streaming_tick_pops_next (streaming_from 79) 79 rfl rfl (by decide)

/-! ## The receive path: the fill loop of `stream_recv_cb` -/

theorem getElem?_drop_take (l : List Int) (a n j : Nat) :
    ((l.drop a).take n)[j]? = if j < n then l[a + j]? else none := by
  simp [List.getElem?_take, List.getElem?_drop]

theorem tx_block_fill_blk_at (st : State) (pcm : List Int) (i s : Nat)
    (hf : st.fifo.length = 2560) (hp : st.prod_blk_idx < 80)
    (hpcm : i * 32 + 32 ≤ pcm.length) (hs : s < 80) :
    tx_block (stream_recv_cb_fill_blk st pcm i).fifo (s * 32) =
      if s = st.prod_blk_idx then (pcm.drop (i * 32)).take 32
      else tx_block st.fifo (s * 32) := by
  apply List.ext_getElem?
  intro j
  rw [getElem?_tx_block]
  simp only [stream_recv_cb_fill_blk, getElem?_memcpy, blk_stereo_num_samps_eq,
    blk_stereo_elems_eq, hf]
  by_cases hj : j < 32
  · by_cases hsp : s = st.prod_blk_idx
    · subst hsp
      have h1 : st.prod_blk_idx * 32 ≤ st.prod_blk_idx * 32 + j ∧
          st.prod_blk_idx * 32 + j < st.prod_blk_idx * 32 + 32 ∧
          st.prod_blk_idx * 32 + j < 2560 := by omega
      have h2 : i * 32 + (st.prod_blk_idx * 32 + j - st.prod_blk_idx * 32) = i * 32 + j := by
        omega
      rw [if_pos hj, if_pos h1, if_pos rfl, h2, List.getD_eq_getElem?_getD,
        List.getElem?_eq_getElem (by omega), getElem?_drop_take, if_pos hj,
        List.getElem?_eq_getElem (by omega)]
      rfl
    · have h1 : ¬ (st.prod_blk_idx * 32 ≤ s * 32 + j ∧
          s * 32 + j < st.prod_blk_idx * 32 + 32 ∧ s * 32 + j < 2560) := by omega
      rw [if_pos hj, if_neg h1, if_neg hsp, getElem?_tx_block, if_pos hj]
  · rw [if_neg hj]
    by_cases hsp : s = st.prod_blk_idx
    · rw [if_pos hsp, getElem?_drop_take, if_neg hj]
    · rw [if_neg hsp, getElem?_tx_block, if_neg hj]

/-- The fill loop changes `fifo` and `prod_blk_idx` only. -/
theorem stream_recv_cb_fill_frame (st : State) (pcm : List Int) (n : Nat) :
    stream_recv_cb_fill st pcm n =
      { st with
        fifo := (stream_recv_cb_fill st pcm n).fifo
        prod_blk_idx := (stream_recv_cb_fill st pcm n).prod_blk_idx } := by
  induction n with
  | zero => rfl
  | succ n ih =>
    simp only [stream_recv_cb_fill, stream_recv_cb_fill_blk]
    rw [ih]

/-- The fill loop after `n <= 80` iterations from `prod_blk_idx = p`: block `i` of the
frame is in slot `(p + i) mod 80`, every other slot is as before, and `prod_blk_idx` is
`(p + n) mod 80`. -/
theorem stream_recv_cb_fill_spec (st : State) (pcm : List Int) (n p : Nat)
    (hf : st.fifo.length = 2560) (hp : st.prod_blk_idx = p) (hlt : p < 80)
    (hn : n ≤ 80) (hpcm : n * 32 ≤ pcm.length) :
    (stream_recv_cb_fill st pcm n).fifo.length = 2560 ∧
    (stream_recv_cb_fill st pcm n).prod_blk_idx = (p + n) % 80 ∧
    (∀ i, i < n → tx_block (stream_recv_cb_fill st pcm n).fifo ((p + i) % 80 * 32) =
      (pcm.drop (i * 32)).take 32) ∧
    (∀ s, s < 80 → (∀ i, i < n → s ≠ (p + i) % 80) →
      tx_block (stream_recv_cb_fill st pcm n).fifo (s * 32) = tx_block st.fifo (s * 32)) := by
  induction n with
  | zero =>
    refine ⟨hf, ?_, ?_, ?_⟩
    · simp only [stream_recv_cb_fill, hp]
      omega
    · intro i hi
      omega
    · intro s _ _
      rfl
  | succ n ih =>
    obtain ⟨i1, i2, i3, i4⟩ := ih (by omega) (by omega)
    have hpl : (stream_recv_cb_fill st pcm n).prod_blk_idx < 80 := by
      rw [i2]
      exact Nat.mod_lt _ (by decide)
    have hsrc : n * 32 + 32 ≤ pcm.length := by omega
    have key := fun s hs =>
      tx_block_fill_blk_at (stream_recv_cb_fill st pcm n) pcm n s i1 hpl hsrc hs
    obtain ⟨-, -, -, -, f5, f6⟩ := fill_blk_frame (stream_recv_cb_fill st pcm n) pcm n
    simp only [stream_recv_cb_fill]
    refine ⟨f5.trans i1, ?_, ?_, ?_⟩
    · rw [f6, next_idx_mod _ hpl, i2]
      omega
    · intro i hi
      rw [key _ (Nat.mod_lt _ (by decide)), i2]
      by_cases hin : i = n
      · subst hin
        rw [if_pos rfl]
      · have hne : (p + i) % 80 ≠ (p + n) % 80 := by omega
        rw [if_neg hne]
        exact i3 i (by omega)
    · intro s hs hne
      have h1 : s ≠ (p + n) % 80 := hne n (by omega)
      rw [key s hs, i2, if_neg h1]
      exact i4 s hs (fun i hi => hne i (by omega))

/-! ## The receive path: `stream_recv_cb` as a whole -/

theorem pscm_zero_pad_frame (input output : List Nat) :
    pscm_zero_pad input FRAME_SIZE_BYTES_MONO CONFIG_AUDIO_BIT_DEPTH_BITS output =
      some (0, pscm_loop input 2 160 0 0 output, 640) := by
  rfl

theorem widened_frame_eq (st : State) (dec : Lc3Answer) :
    widened_frame st dec =
      bytes_to_int16s (pscm_loop (int16s_to_bytes (decoded_frame st dec)) 2 160 0 0
        (int16s_to_bytes (memset_int16 st.pcm_data_stereo FRAME_SIZE_BYTES_STEREO))) := by
  unfold widened_frame
  rw [pscm_zero_pad_frame]

/-- With `frames_per_sdu` non-zero and a decoder set up, `stream_recv_cb` calls the
decoder, widens the frame, runs the fill loop over the widened frame and finishes with
the output start counter. It prints nothing: `err` is unsigned and never below zero. -/
theorem stream_recv_cb_configured (st : State) (info : bt_iso_recv_info) (buf : net_buf)
    (dec : Lc3Answer) (hfr : st.frames_per_sdu ≠ 0) (hdec : st.lc3_decoder ≠ none) :
    stream_recv_cb st info buf dec =
      some (recv_finish (stream_recv_cb_fill (recv_before_fill st info buf dec)
        (widened_frame st dec) NUM_BLKS_IN_FRAME)) := by
  have herr : ¬ (dec.ret % 2 ^ 8 < 0) := by
    have := Int.emod_nonneg dec.ret (by decide : (2 : Int) ^ 8 ≠ 0)
    omega
  unfold stream_recv_cb
  rw [if_neg hfr, if_neg hdec]
  dsimp only
  rw [if_neg herr, pscm_zero_pad_frame]
  dsimp only
  rw [if_neg (by decide : ¬ ((0 : Int) % 2 ^ 8 ≠ 0)), widened_frame_eq, recv_finish,
    apply_ite some]
  rfl

/-! ## Samples and bytes -/

theorem int16_of_bytes_lo_hi (x : Int) :
    int16_of_bytes (int16_lo x) (int16_hi x) = to_int16 x := by
  unfold int16_of_bytes int16_lo int16_hi to_int16
  have h0 : 0 ≤ x % 65536 := Int.emod_nonneg x (by decide)
  have h1 : x % 65536 < 65536 := Int.emod_lt_of_pos x (by decide)
  generalize hu : (x % 65536).toNat = u
  have hux : (u : Int) = x % 65536 := by
    rw [← hu]
    exact Int.toNat_of_nonneg h0
  have e : u % 256 + 256 * (u / 256) = u := Nat.mod_add_div u 256
  rw [e]
  simp only [Int.ofNat_eq_coe]
  split <;> omega

theorem to_int16_of_range (x : Int) (h1 : -32768 ≤ x) (h2 : x < 32768) : to_int16 x = x := by
  unfold to_int16
  omega

theorem length_int16s_to_bytes (l : List Int) : (int16s_to_bytes l).length = 2 * l.length := by
  induction l with
  | nil => rfl
  | cons x xs ih =>
    simp only [int16s_to_bytes, List.length_cons, ih]
    omega

theorem length_bytes_to_int16s (b : List Nat) : (bytes_to_int16s b).length = b.length / 2 := by
  induction b using bytes_to_int16s.induct with
  | case1 lo hi rest ih =>
    simp only [bytes_to_int16s, List.length_cons, ih]
    omega
  | case2 b h =>
    match b, h with
    | [], _ => rfl
    | [_], _ => simp [bytes_to_int16s]
    | lo :: hi :: rest, h => exact absurd rfl (h lo hi rest)

theorem getD_int16s_to_bytes (l : List Int) (k : Nat) :
    (int16s_to_bytes l).getD (2 * k) 0 = int16_lo (l.getD k 0) ∧
    (int16s_to_bytes l).getD (2 * k + 1) 0 = int16_hi (l.getD k 0) := by
  induction l generalizing k with
  | nil => constructor <;> simp [int16s_to_bytes, int16_lo, int16_hi]
  | cons x xs ih =>
    cases k with
    | zero => exact ⟨rfl, rfl⟩
    | succ k =>
      have e1 : 2 * (k + 1) = 2 * k + 1 + 1 := by omega
      rw [e1]
      simp only [int16s_to_bytes, List.getD_cons_succ]
      exact ih k

theorem getElem?_bytes_to_int16s (b : List Nat) (k : Nat) (lo hi : Nat)
    (h1 : b[2 * k]? = some lo) (h2 : b[2 * k + 1]? = some hi) :
    (bytes_to_int16s b)[k]? = some (int16_of_bytes lo hi) := by
  induction b using bytes_to_int16s.induct generalizing k with
  | case1 x y rest ih =>
    cases k with
    | zero =>
      simp only [Nat.mul_zero, List.getElem?_cons_zero, Nat.zero_add,
        List.getElem?_cons_succ, Option.some.injEq] at h1 h2
      subst h1 h2
      simp [bytes_to_int16s]
    | succ k =>
      have e1 : 2 * (k + 1) = 2 * k + 1 + 1 := by omega
      rw [e1] at h1 h2
      simp only [List.getElem?_cons_succ] at h1 h2
      simp only [bytes_to_int16s, List.getElem?_cons_succ]
      exact ih k h1 h2
  | case2 b h =>
    match b, h with
    | [], _ => simp at h1
    | [_], _ => simp at h2
    | x :: y :: rest, h => exact absurd rfl (h x y rest)

theorem length_zero_int16s (buf : List Int) (n : Nat) :
    (zero_int16s buf n).length = buf.length := by
  induction n with
  | zero => rfl
  | succ n ih => rw [zero_int16s, List.length_set, ih]

theorem length_memset_int16 (buf : List Int) (n : Nat) :
    (memset_int16 buf n).length = buf.length :=
  length_zero_int16s buf _

theorem length_widened_frame (st : State) (dec : Lc3Answer) :
    (widened_frame st dec).length = st.pcm_data_stereo.length := by
  rw [widened_frame_eq, length_bytes_to_int16s, length_pscm_loop, length_int16s_to_bytes,
    length_memset_int16]
  omega

/-- The widened frame: sample `2 * k` is decoded sample `k`, sample `2 * k + 1` is zero. -/
theorem widened_frame_samples (st : State) (dec : Lc3Answer) (k : Nat) (hk : k < 160)
    (hlen : 320 ≤ st.pcm_data_stereo.length) :
    (widened_frame st dec)[2 * k]? = some (to_int16 ((decoded_frame st dec).getD k 0)) ∧
    (widened_frame st dec)[2 * k + 1]? = some 0 := by
  have hout : 0 + 2 * 2 * 160 ≤
      (int16s_to_bytes (memset_int16 st.pcm_data_stereo FRAME_SIZE_BYTES_STEREO)).length := by
    rw [length_int16s_to_bytes, length_memset_int16]
    omega
  obtain ⟨a0, z0⟩ := pscm_loop_inside (int16s_to_bytes (decoded_frame st dec)) 2 160 0 0 _
    hout k 0 hk (by decide)
  obtain ⟨a1, z1⟩ := pscm_loop_inside (int16s_to_bytes (decoded_frame st dec)) 2 160 0 0 _
    hout k 1 hk (by decide)
  obtain ⟨g0, g1⟩ := getD_int16s_to_bytes (decoded_frame st dec) k
  have e0 : 0 + 2 * 2 * k + 0 = 2 * (2 * k) := by omega
  have e1 : 0 + 2 * 2 * k + 1 = 2 * (2 * k) + 1 := by omega
  have e2 : 0 + 2 * 2 * k + 2 + 0 = 2 * (2 * k + 1) := by omega
  have e3 : 0 + 2 * 2 * k + 2 + 1 = 2 * (2 * k + 1) + 1 := by omega
  have e4 : 0 + 2 * k + 0 = 2 * k := by omega
  have e5 : 0 + 2 * k + 1 = 2 * k + 1 := by omega
  rw [e0, e4, g0] at a0
  rw [e1, e5, g1] at a1
  rw [e2] at z0
  rw [e3] at z1
  rw [widened_frame_eq]
  refine ⟨?_, ?_⟩
  · rw [getElem?_bytes_to_int16s _ _ _ _ a0 a1, int16_of_bytes_lo_hi]
  · rw [getElem?_bytes_to_int16s _ _ _ _ z0 z1]
    rfl

/-! ## The receive path: C13, C14 and C16 -/

theorem num_blks_in_frame_eq : NUM_BLKS_IN_FRAME = 10 := by decide

theorem recv_finish_fields (s : State) :
    (recv_finish s).fifo = s.fifo ∧
    (recv_finish s).prod_blk_idx = s.prod_blk_idx ∧
    (recv_finish s).cons_blk_idx = s.cons_blk_idx ∧
    (recv_finish s).pcm_data_stereo = s.pcm_data_stereo ∧
    (recv_finish s).audio_buf = s.audio_buf ∧
    (recv_finish s).lc3_calls = s.lc3_calls ∧
    (recv_finish s).next_bufs = s.next_bufs ∧
    (recv_finish s).printed = s.printed ∧
    (recv_finish s).lc3_decoder = s.lc3_decoder ∧
    (recv_finish s).frames_per_sdu = s.frames_per_sdu := by
  unfold recv_finish
  split <;> exact ⟨rfl, rfl, rfl, rfl, rfl, rfl, rfl, rfl, rfl, rfl⟩

theorem recv_before_fill_fields (st : State) (info : bt_iso_recv_info) (buf : net_buf)
    (dec : Lc3Answer) :
    (recv_before_fill st info buf dec).fifo = st.fifo ∧
    (recv_before_fill st info buf dec).prod_blk_idx = st.prod_blk_idx ∧
    (recv_before_fill st info buf dec).cons_blk_idx = st.cons_blk_idx ∧
    (recv_before_fill st info buf dec).audio_buf = decoded_frame st dec ∧
    (recv_before_fill st info buf dec).pcm_data_stereo = widened_frame st dec ∧
    (recv_before_fill st info buf dec).lc3_calls = st.lc3_calls ++
      [(recv_in_buf info buf, Int.tdiv (Int.ofNat buf.len) st.frames_per_sdu)] ∧
    (recv_before_fill st info buf dec).printed = st.printed ∧
    (recv_before_fill st info buf dec).start_i2s_out = st.start_i2s_out ∧
    (recv_before_fill st info buf dec).i2s_calls = st.i2s_calls ∧
    (recv_before_fill st info buf dec).next_bufs = st.next_bufs ∧
    (recv_before_fill st info buf dec).lc3_decoder = st.lc3_decoder ∧
    (recv_before_fill st info buf dec).frames_per_sdu = st.frames_per_sdu := by
  simp only [recv_before_fill, and_self]

theorem stream_recv_cb_fill_fields (st : State) (pcm : List Int) (n : Nat) :
    (stream_recv_cb_fill st pcm n).cons_blk_idx = st.cons_blk_idx ∧
    (stream_recv_cb_fill st pcm n).pcm_data_stereo = st.pcm_data_stereo ∧
    (stream_recv_cb_fill st pcm n).audio_buf = st.audio_buf ∧
    (stream_recv_cb_fill st pcm n).lc3_calls = st.lc3_calls ∧
    (stream_recv_cb_fill st pcm n).next_bufs = st.next_bufs ∧
    (stream_recv_cb_fill st pcm n).printed = st.printed ∧
    (stream_recv_cb_fill st pcm n).lc3_decoder = st.lc3_decoder ∧
    (stream_recv_cb_fill st pcm n).frames_per_sdu = st.frames_per_sdu ∧
    (stream_recv_cb_fill st pcm n).start_i2s_out = st.start_i2s_out ∧
    (stream_recv_cb_fill st pcm n).i2s_calls = st.i2s_calls := by
  induction n with
  | zero => exact ⟨rfl, rfl, rfl, rfl, rfl, rfl, rfl, rfl, rfl, rfl⟩
  | succ n ih =>
    simp only [stream_recv_cb_fill, stream_recv_cb_fill_blk]
    exact ih

theorem stream_recv_cb_fill_prod (st : State) (pcm : List Int) (n : Nat)
    (hp : st.prod_blk_idx < 80) :
    (stream_recv_cb_fill st pcm n).prod_blk_idx = (st.prod_blk_idx + n) % 80 := by
  induction n with
  | zero =>
    simp only [stream_recv_cb_fill]
    omega
  | succ n ih =>
    obtain ⟨-, -, -, -, -, f6⟩ := fill_blk_frame (stream_recv_cb_fill st pcm n) pcm n
    have hlt : (stream_recv_cb_fill st pcm n).prod_blk_idx < 80 := by
      rw [ih]
      exact Nat.mod_lt _ (by decide)
    simp only [stream_recv_cb_fill]
    rw [f6, next_idx_mod _ hlt, ih]
    omega

/-- C13: for a payload handled by `stream_recv_cb` with a decoder set up
(`frames_per_sdu` non-zero), `prod_blk_idx = p < 80` and the arrays at their declared
sizes: the widened stereo frame left in `pcm_data_stereo` has decoded sample k at 2k and
zero at 2k + 1 for k < 160, it is NUM_BLKS_IN_FRAME blocks of BLK_STEREO_NUM_SAMPS
samples long, block i of it is in slot `(p + i) mod 80` of `fifo` afterwards,
`prod_blk_idx` is `(p + NUM_BLKS_IN_FRAME) mod 80`, and every other slot, the length of
`fifo` and `cons_blk_idx` are unchanged. -/
theorem frame_split_and_push (st : State) (info : bt_iso_recv_info) (buf : net_buf)
    (dec : Lc3Answer) (p : Nat) (hfr : st.frames_per_sdu ≠ 0)
    (hdec : st.lc3_decoder ≠ none) (hp : st.prod_blk_idx = p) (hlt : p < 80)
    (hf : st.fifo.length = FIFO_NUM_SAMPS) (hpcm : st.pcm_data_stereo.length = 640) :
    ∃ st1, stream_recv_cb st info buf dec = some st1 ∧
      (∀ k, k < 160 →
        st1.pcm_data_stereo[2 * k]? = some (to_int16 (st1.audio_buf.getD k 0)) ∧
        st1.pcm_data_stereo[2 * k + 1]? = some 0) ∧
      NUM_BLKS_IN_FRAME * BLK_STEREO_NUM_SAMPS = 2 * 160 ∧
      (∀ i, i < NUM_BLKS_IN_FRAME →
        tx_block st1.fifo ((p + i) % 80 * 32) =
          (st1.pcm_data_stereo.drop (i * BLK_STEREO_NUM_SAMPS)).take BLK_STEREO_NUM_SAMPS) ∧
      st1.prod_blk_idx = (p + NUM_BLKS_IN_FRAME) % 80 ∧
      (∀ s, s < 80 → (∀ i, i < NUM_BLKS_IN_FRAME → s ≠ (p + i) % 80) →
        tx_block st1.fifo (s * 32) = tx_block st.fifo (s * 32)) ∧
      st1.cons_blk_idx = st.cons_blk_idx ∧
      st1.fifo.length = st.fifo.length := by
  have hfn : FIFO_NUM_SAMPS = 2560 := rfl
  rw [hfn] at hf
  obtain ⟨b1, b2, b3, b4, b5, -⟩ := recv_before_fill_fields st info buf dec
  have hw : (widened_frame st dec).length = 640 := by
    rw [length_widened_frame, hpcm]
  obtain ⟨s1, s2, s3, s4⟩ := stream_recv_cb_fill_spec (recv_before_fill st info buf dec)
    (widened_frame st dec) 10 p (by rw [b1]; exact hf) (b2.trans hp) hlt (by decide)
    (by omega)
  obtain ⟨c1, c2, c3, -⟩ := stream_recv_cb_fill_fields (recv_before_fill st info buf dec)
    (widened_frame st dec) 10
  obtain ⟨r1, r2, r3, r4, r5, -⟩ := recv_finish_fields
    (stream_recv_cb_fill (recv_before_fill st info buf dec) (widened_frame st dec) 10)
  have hcfg := stream_recv_cb_configured st info buf dec hfr hdec
  rw [num_blks_in_frame_eq] at hcfg
  rw [num_blks_in_frame_eq, blk_stereo_num_samps_eq]
  refine ⟨_, hcfg, ?_, by decide, ?_, ?_, ?_, ?_, ?_⟩
  · intro k hk
    rw [r4, r5, c2, c3, b4, b5]
    exact widened_frame_samples st dec k hk (by omega)
  · intro i hi
    rw [r1, r4, c2, b5]
    exact s3 i hi
  · rw [r2]
    exact s2
  · intro s hs hne
    rw [r1, s4 s hs hne, b1]
  · rw [r3, c1, b3]
  · rw [r1, s1]
    exact hf.symm

/-- C13 on a valid payload delivered in the state after `init_lc3`. -/
theorem frame_split_and_push_witness :
    ∃ st1, stream_recv_cb configured_state { flags := 1 } sample_buf
        { ret := 0, pcm := List.replicate 160 5 } = some st1 ∧
      (∀ k, k < 160 →
        st1.pcm_data_stereo[2 * k]? = some (to_int16 (st1.audio_buf.getD k 0)) ∧
        st1.pcm_data_stereo[2 * k + 1]? = some 0) ∧
      NUM_BLKS_IN_FRAME * BLK_STEREO_NUM_SAMPS = 2 * 160 ∧
      (∀ i, i < NUM_BLKS_IN_FRAME →
        tx_block st1.fifo ((0 + i) % 80 * 32) =
          (st1.pcm_data_stereo.drop (i * BLK_STEREO_NUM_SAMPS)).take BLK_STEREO_NUM_SAMPS) ∧
      st1.prod_blk_idx = (0 + NUM_BLKS_IN_FRAME) % 80 ∧
      (∀ s, s < 80 → (∀ i, i < NUM_BLKS_IN_FRAME → s ≠ (0 + i) % 80) →
        tx_block st1.fifo (s * 32) = tx_block configured_state.fifo (s * 32)) ∧
      st1.cons_blk_idx = configured_state.cons_blk_idx ∧
      st1.fifo.length = configured_state.fifo.length :=
  frame_split_and_push configured_state { flags := 1 } sample_buf
    { ret := 0, pcm := List.replicate 160 5 } 0 (by decide) (by decide) rfl (by decide)
    (List.length_replicate _ _) (List.length_replicate _ _)

/-- C14, evaluated in the state after `init_lc3` on a valid payload for which
`lc3_decode` returns -1, whatever it leaves in `audio_buf`: the fill loop runs all the
same, `prod_blk_idx` goes from 0 to 10, and no failure is printed, the return value
being stored in the unsigned `err` before it is tested for `< 0`. -/
theorem decode_error_still_fills (pcm : List Int) :
    configured_state.prod_blk_idx = 0 ∧
    (stream_recv_cb configured_state { flags := 1 } sample_buf
      { ret := -1, pcm := pcm }).map State.prod_blk_idx = some 10 ∧
    (stream_recv_cb configured_state { flags := 1 } sample_buf
      { ret := -1, pcm := pcm }).map State.printed = some [] ∧
    (stream_recv_cb configured_state { flags := 1 } sample_buf
      { ret := -1, pcm := pcm }).map State.lc3_calls = some [(some [1, 2, 3, 4], 4)] := by
  have hfr : configured_state.frames_per_sdu ≠ 0 := by decide
  have hdec : configured_state.lc3_decoder ≠ none := by decide
  obtain ⟨-, -, -, c4, -, c6, -⟩ := stream_recv_cb_fill_fields
    (recv_before_fill configured_state { flags := 1 } sample_buf { ret := -1, pcm := pcm })
    (widened_frame configured_state { ret := -1, pcm := pcm }) NUM_BLKS_IN_FRAME
  obtain ⟨-, r2, -, -, -, r6, -, r8, -⟩ := recv_finish_fields
    (stream_recv_cb_fill
      (recv_before_fill configured_state { flags := 1 } sample_buf { ret := -1, pcm := pcm })
      (widened_frame configured_state { ret := -1, pcm := pcm }) NUM_BLKS_IN_FRAME)
  obtain ⟨-, b2, -, -, -, b6, b7, -⟩ := recv_before_fill_fields configured_state
    { flags := 1 } sample_buf { ret := -1, pcm := pcm }
  have hprod := stream_recv_cb_fill_prod
    (recv_before_fill configured_state { flags := 1 } sample_buf { ret := -1, pcm := pcm })
    (widened_frame configured_state { ret := -1, pcm := pcm }) NUM_BLKS_IN_FRAME
    (by rw [b2]; decide)
  rw [stream_recv_cb_configured _ _ _ _ hfr hdec]
  simp only [Option.map_some']
  rw [r2, r6, r8, c4, c6, hprod, b2, b6, b7]
  exact ⟨rfl, by decide, rfl, by decide⟩

/-- C16: for a payload delivered to `stream_recv_cb` with a decoder set up
(`frames_per_sdu` non-zero, `prod_blk_idx` in range), `lc3_decode` is called exactly
once, with `NULL` as input if the BT_ISO_FLAGS_VALID bit of `info->flags` is clear and
with the payload data otherwise; in both cases the fill loop runs and `prod_blk_idx`
advances by NUM_BLKS_IN_FRAME. -/
theorem lost_payload_is_decoded_too (st : State) (info : bt_iso_recv_info) (buf : net_buf)
    (dec : Lc3Answer) (hfr : st.frames_per_sdu ≠ 0) (hdec : st.lc3_decoder ≠ none)
    (hp : st.prod_blk_idx < 80) :
    ∃ st1, stream_recv_cb st info buf dec = some st1 ∧
      st1.lc3_calls = st.lc3_calls ++
        [(if info.flags &&& BT_ISO_FLAGS_VALID = 0 then none else some buf.data,
          Int.tdiv (Int.ofNat buf.len) st.frames_per_sdu)] ∧
      st1.prod_blk_idx = (st.prod_blk_idx + NUM_BLKS_IN_FRAME) % 80 ∧
      st1.audio_buf = decoded_frame st dec ∧
      st1.pcm_data_stereo = widened_frame st dec := by
  obtain ⟨-, c2, c3, c4, -⟩ := stream_recv_cb_fill_fields (recv_before_fill st info buf dec)
    (widened_frame st dec) NUM_BLKS_IN_FRAME
  obtain ⟨-, r2, -, r4, r5, r6, -⟩ := recv_finish_fields
    (stream_recv_cb_fill (recv_before_fill st info buf dec) (widened_frame st dec)
      NUM_BLKS_IN_FRAME)
  obtain ⟨-, b2, -, b4, b5, b6, -⟩ := recv_before_fill_fields st info buf dec
  have hprod := stream_recv_cb_fill_prod (recv_before_fill st info buf dec)
    (widened_frame st dec) NUM_BLKS_IN_FRAME (by rw [b2]; exact hp)
  refine ⟨_, stream_recv_cb_configured st info buf dec hfr hdec, ?_, ?_, ?_, ?_⟩
  · rw [r6, c4, b6]
    rfl
  · rw [r2, hprod, b2]
  · rw [r5, c3, b4]
  · rw [r4, c2, b5]

/-- C16 on a payload with the validity flag clear. -/
theorem lost_payload_is_decoded_too_witness :
    ∃ st1, stream_recv_cb configured_state { flags := 0 } sample_buf
        { ret := 1, pcm := List.replicate 160 5 } = some st1 ∧
      st1.lc3_calls = configured_state.lc3_calls ++
        [(if ({ flags := 0 } : bt_iso_recv_info).flags &&& BT_ISO_FLAGS_VALID = 0 then none
          else some sample_buf.data,
          Int.tdiv (Int.ofNat sample_buf.len) configured_state.frames_per_sdu)] ∧
      st1.prod_blk_idx = (configured_state.prod_blk_idx + NUM_BLKS_IN_FRAME) % 80 ∧
      st1.audio_buf = decoded_frame configured_state
        { ret := 1, pcm := List.replicate 160 5 } ∧
      st1.pcm_data_stereo = widened_frame configured_state
        { ret := 1, pcm := List.replicate 160 5 } :=
  lost_payload_is_decoded_too configured_state { flags := 0 } sample_buf
    { ret := 1, pcm := List.replicate 160 5 } (by decide) (by decide) (by decide)

/-! ## The audio path as a whole: C18 and C20 -/

theorem next_idx_lt (i : Nat) : NEXT_IDX i < 80 := by
  unfold NEXT_IDX
  split <;> omega

theorem length_stream_recv_cb_fill (st : State) (pcm : List Int) (n : Nat) :
    (stream_recv_cb_fill st pcm n).fifo.length = st.fifo.length := by
  induction n with
  | zero => rfl
  | succ n ih =>
    obtain ⟨-, -, -, -, f5, -⟩ := fill_blk_frame (stream_recv_cb_fill st pcm n) pcm n
    simp only [stream_recv_cb_fill]
    rw [f5, ih]

theorem stream_recv_cb_fill_prod_lt (st : State) (pcm : List Int) (n : Nat)
    (hp : st.prod_blk_idx < 80) : (stream_recv_cb_fill st pcm n).prod_blk_idx < 80 := by
  rw [stream_recv_cb_fill_prod st pcm n hp]
  exact Nat.mod_lt _ (by decide)

theorem stream_recv_cb_unconfigured (st : State) (info : bt_iso_recv_info) (buf : net_buf)
    (dec : Lc3Answer) (hfr : st.frames_per_sdu ≠ 0) (hdec : st.lc3_decoder = none) :
    stream_recv_cb st info buf dec =
      some { st with printed := st.printed ++ [RecvMsg.decoder_not_setup] } := by
  unfold stream_recv_cb
  rw [if_neg hfr, if_pos hdec]

theorem stream_recv_cb_none (st : State) (info : bt_iso_recv_info) (buf : net_buf)
    (dec : Lc3Answer) (hfr : st.frames_per_sdu = 0) :
    stream_recv_cb st info buf dec = none := by
  unfold stream_recv_cb
  rw [if_pos hfr]

/-- The index bounds are kept by every audio event. -/
theorem audio_step_bounds (st st1 : State) (e : AudioEvent) (h : audio_step st e = some st1)
    (hp : st.prod_blk_idx < 80) (hc : st.cons_blk_idx < 80) (hf : st.fifo.length = 2560)
    (hn : ∀ off ∈ st.next_bufs, off + 32 ≤ 2560) :
    st1.prod_blk_idx < 80 ∧ st1.cons_blk_idx < 80 ∧ st1.fifo.length = 2560 ∧
    (∀ off ∈ st1.next_bufs, off + 32 ≤ 2560) := by
  cases e with
  | recv info buf dec =>
    simp only [audio_step] at h
    by_cases hfr : st.frames_per_sdu = 0
    · rw [stream_recv_cb_none st info buf dec hfr] at h
      exact absurd h (by simp)
    · by_cases hdec : st.lc3_decoder = none
      · rw [stream_recv_cb_unconfigured st info buf dec hfr hdec] at h
        have e := Option.some.inj h
        subst e
        exact ⟨hp, hc, hf, hn⟩
      · rw [stream_recv_cb_configured st info buf dec hfr hdec] at h
        have e := Option.some.inj h
        subst e
        obtain ⟨b1, b2, b3, -, -, -, -, -, -, b10, -⟩ := recv_before_fill_fields st info buf dec
        obtain ⟨c1, -, -, -, c5, -⟩ := stream_recv_cb_fill_fields
          (recv_before_fill st info buf dec) (widened_frame st dec) NUM_BLKS_IN_FRAME
        obtain ⟨r1, r2, r3, -, -, -, r7, -⟩ := recv_finish_fields
          (stream_recv_cb_fill (recv_before_fill st info buf dec) (widened_frame st dec)
            NUM_BLKS_IN_FRAME)
        rw [r1, r2, r3, r7, c1, c5, b3, b10, length_stream_recv_cb_fill, b1]
        exact ⟨stream_recv_cb_fill_prod_lt _ _ _ (by rw [b2]; exact hp), hc, hf, hn⟩
  | blk_complete =>
    simp only [audio_step] at h
    have e := Option.some.inj h
    subst e
    by_cases hs : st.streaming = true
    · obtain ⟨t1, t2, t3, -⟩ := blk_complete_streaming st hs
      have prod_eq : (audio_datapath_i2s_blk_complete st).prod_blk_idx = st.prod_blk_idx := by
        simp [audio_datapath_i2s_blk_complete, hs]
      rw [t1, t2, t3, prod_eq]
      refine ⟨hp, next_idx_lt _, hf, ?_⟩
      intro off hoff
      rcases List.mem_append.mp hoff with h1 | h1
      · exact hn off h1
      · have := next_idx_lt st.cons_blk_idx
        rw [List.mem_singleton.mp h1]
        omega
    · have hs2 : st.streaming = false := by simpa using hs
      rw [blk_complete_idle st hs2]
      exact ⟨hp, hc, hf, hn⟩
  | stream_started =>
    simp only [audio_step] at h
    have e := Option.some.inj h
    subst e
    exact ⟨hp, hc, hf, hn⟩
  | stream_stopped =>
    simp only [audio_step] at h
    have e := Option.some.inj h
    subst e
    exact ⟨hp, hc, hf, hn⟩

theorem audio_run_bounds (evs : List AudioEvent) (st st1 : State)
    (h : audio_run st evs = some st1)
    (hp : st.prod_blk_idx < 80) (hc : st.cons_blk_idx < 80) (hf : st.fifo.length = 2560)
    (hn : ∀ off ∈ st.next_bufs, off + 32 ≤ 2560) :
    st1.prod_blk_idx < 80 ∧ st1.cons_blk_idx < 80 ∧ st1.fifo.length = 2560 ∧
    (∀ off ∈ st1.next_bufs, off + 32 ≤ 2560) := by
  induction evs generalizing st with
  | nil =>
    simp only [audio_run] at h
    have e := Option.some.inj h
    subst e
    exact ⟨hp, hc, hf, hn⟩
  | cons e evs ih =>
    simp only [audio_run] at h
    cases hstep : audio_step st e with
    | none =>
      rw [hstep] at h
      exact absurd h (by simp)
    | some s2 =>
      rw [hstep] at h
      obtain ⟨a1, a2, a3, a4⟩ := audio_step_bounds st s2 e hstep hp hc hf hn
      exact ih s2 h a1 a2 a3 a4

/-- C18: in every state reached from the initial state, after `init_lc3` with any
answers, by any sequence of payloads delivered to `stream_recv_cb`, ticks of
`audio_datapath_i2s_blk_complete` and stream starts and stops: `prod_blk_idx < 80` and
`cons_blk_idx < 80` (`NEXT_IDX` maps every value below 80), `fifo` keeps its 2560
samples, each of the NUM_BLKS_IN_FRAME blocks that a payload delivered in that state
writes (at slot `prod_blk_idx` of the loop, 32 samples) lies inside `fifo`, and so does
every block of 32 samples whose address a tick has handed out. -/
theorem index_bounds (frames : Int) (decoder : Ptr) (evs : List AudioEvent) (st : State)
    (h : audio_run (init_lc3 init_state frames decoder) evs = some st) :
    st.prod_blk_idx < 80 ∧ st.cons_blk_idx < 80 ∧ (∀ i, NEXT_IDX i < 80) ∧
    st.fifo.length = FIFO_NUM_SAMPS ∧ FIFO_NUM_SAMPS = 2560 ∧
    (∀ pcm i, i < NUM_BLKS_IN_FRAME →
      (stream_recv_cb_fill st pcm i).prod_blk_idx * BLK_STEREO_NUM_SAMPS +
        BLK_STEREO_SIZE_OCTETS / 2 ≤ FIFO_NUM_SAMPS) ∧
    (∀ off ∈ st.next_bufs, off + 32 ≤ FIFO_NUM_SAMPS) := by
  have hfn : FIFO_NUM_SAMPS = 2560 := rfl
  have h0f : (init_lc3 init_state frames decoder).fifo.length = 2560 := by
    simp only [init_lc3, init_state, List.length_replicate, hfn]
  have h0p : (init_lc3 init_state frames decoder).prod_blk_idx = 0 := by
    simp only [init_lc3, init_state]
  have h0c : (init_lc3 init_state frames decoder).cons_blk_idx = 0 := by
    simp only [init_lc3, init_state]
  have h0n : (init_lc3 init_state frames decoder).next_bufs = [] := by
    simp only [init_lc3, init_state]
  obtain ⟨a1, a2, a3, a4⟩ := audio_run_bounds evs _ st h (by rw [h0p]; decide)
    (by rw [h0c]; decide) h0f (by rw [h0n]; intro off hoff; exact absurd hoff (by simp))
  rw [hfn, blk_stereo_num_samps_eq, blk_stereo_elems_eq]
  refine ⟨a1, a2, next_idx_lt, a3, rfl, ?_, a4⟩
  intro pcm i _
  have := stream_recv_cb_fill_prod_lt st pcm i a1
  omega

/-- C18 on a run with a stream start and a tick. -/
theorem index_bounds_witness :
    (audio_datapath_i2s_blk_complete (stream_started_cb init_state)).prod_blk_idx < 80 ∧
    (audio_datapath_i2s_blk_complete (stream_started_cb init_state)).cons_blk_idx < 80 ∧
    (∀ i, NEXT_IDX i < 80) ∧
    (audio_datapath_i2s_blk_complete (stream_started_cb init_state)).fifo.length
      = FIFO_NUM_SAMPS ∧
    FIFO_NUM_SAMPS = 2560 ∧
    (∀ pcm i, i < NUM_BLKS_IN_FRAME →
      (stream_recv_cb_fill (audio_datapath_i2s_blk_complete (stream_started_cb init_state))
        pcm i).prod_blk_idx * BLK_STEREO_NUM_SAMPS +
        BLK_STEREO_SIZE_OCTETS / 2 ≤ FIFO_NUM_SAMPS) ∧
    (∀ off ∈ (audio_datapath_i2s_blk_complete (stream_started_cb init_state)).next_bufs,
      off + 32 ≤ FIFO_NUM_SAMPS) :=
  index_bounds 0 none [AudioEvent.stream_started, AudioEvent.blk_complete]
    (audio_datapath_i2s_blk_complete (stream_started_cb init_state)) rfl

/-- The start counter and the I2S calls after `n` payloads with a decoder set up. -/
theorem recv_counts (st : State) (info : bt_iso_recv_info) (buf : net_buf)
    (dec : Lc3Answer) (n : Nat) (hfr : st.frames_per_sdu ≠ 0)
    (hdec : st.lc3_decoder ≠ none) (hs : st.start_i2s_out = Int.ofNat (10 - n))
    (hi : st.i2s_calls = start_calls (n - 10)) :
    ∃ st1, stream_recv_cb st info buf dec = some st1 ∧
      st1.frames_per_sdu ≠ 0 ∧ st1.lc3_decoder ≠ none ∧
      st1.start_i2s_out = Int.ofNat (10 - (n + 1)) ∧
      st1.i2s_calls = start_calls (n + 1 - 10) := by
  obtain ⟨-, -, -, -, -, -, -, b8, b9, -, b11, b12⟩ := recv_before_fill_fields st info buf dec
  obtain ⟨-, -, -, -, -, -, c7, c8, c9, c10⟩ := stream_recv_cb_fill_fields
    (recv_before_fill st info buf dec) (widened_frame st dec) NUM_BLKS_IN_FRAME
  obtain ⟨-, -, -, -, -, -, -, -, r9, r10⟩ := recv_finish_fields
    (stream_recv_cb_fill (recv_before_fill st info buf dec) (widened_frame st dec)
      NUM_BLKS_IN_FRAME)
  refine ⟨_, stream_recv_cb_configured st info buf dec hfr hdec, ?_, ?_, ?_⟩
  · rw [r10, c8, b12]
    exact hfr
  · rw [r9, c7, b11]
    exact hdec
  · generalize stream_recv_cb_fill (recv_before_fill st info buf dec) (widened_frame st dec)
      NUM_BLKS_IN_FRAME = s at c9 c10
    rw [b8, hs] at c9
    rw [b9, hi] at c10
    unfold recv_finish
    by_cases h10 : 10 ≤ n
    · have e0 : 10 - n = 0 := by omega
      have e1 : n + 1 - 10 = (n - 10) + 1 := by omega
      have e2 : 10 - (n + 1) = 0 := by omega
      rw [e0] at c9
      have c9z : s.start_i2s_out = 0 := c9
      rw [if_pos c9z, e1, e2]
      exact ⟨c9, by rw [c10]; rfl⟩
    · have hne : s.start_i2s_out ≠ 0 := by
        rw [c9]
        simp only [Int.ofNat_eq_coe]
        omega
      have e1 : n + 1 - 10 = 0 := by omega
      have e3 : n - 10 = 0 := by omega
      rw [if_neg hne, e1]
      rw [e3] at c10
      refine ⟨?_, c10⟩
      show s.start_i2s_out - 1 = Int.ofNat (10 - (n + 1))
      rw [c9]
      simp only [Int.ofNat_eq_coe]
      omega

theorem audio_run_counts (evs : List AudioEvent) (st : State) (n : Nat)
    (hfr : st.frames_per_sdu ≠ 0) (hdec : st.lc3_decoder ≠ none)
    (hs : st.start_i2s_out = Int.ofNat (10 - n))
    (hi : st.i2s_calls = start_calls (n - 10)) :
    ∃ st1, audio_run st evs = some st1 ∧
      st1.start_i2s_out = Int.ofNat (10 - (n + recv_count evs)) ∧
      st1.i2s_calls = start_calls (n + recv_count evs - 10) := by
  induction evs generalizing st n with
  | nil => exact ⟨st, rfl, hs, hi⟩
  | cons e evs ih =>
    cases e with
    | recv info buf dec =>
      obtain ⟨s2, h1, h2, h3, h4, h5⟩ := recv_counts st info buf dec n hfr hdec hs hi
      obtain ⟨s3, k1, k2, k3⟩ := ih s2 (n + 1) h2 h3 h4 h5
      have ec : n + recv_count (AudioEvent.recv info buf dec :: evs) =
          n + 1 + recv_count evs := by
        simp only [recv_count, List.filter_cons, is_recv, if_true, List.length_cons]
        omega
      refine ⟨s3, ?_, ?_, ?_⟩
      · simp only [audio_run, audio_step, h1]
        exact k1
      · rw [ec]
        exact k2
      · rw [ec]
        exact k3
    | blk_complete =>
      have e1 : (audio_datapath_i2s_blk_complete st).frames_per_sdu = st.frames_per_sdu ∧
          (audio_datapath_i2s_blk_complete st).lc3_decoder = st.lc3_decoder ∧
          (audio_datapath_i2s_blk_complete st).start_i2s_out = st.start_i2s_out ∧
          (audio_datapath_i2s_blk_complete st).i2s_calls = st.i2s_calls := by
        unfold audio_datapath_i2s_blk_complete
        split <;> exact ⟨rfl, rfl, rfl, rfl⟩
      obtain ⟨f1, f2, f3, f4⟩ := e1
      obtain ⟨s3, k1, k2, k3⟩ := ih (audio_datapath_i2s_blk_complete st) n
        (by rw [f1]; exact hfr) (by rw [f2]; exact hdec) (f3.trans hs) (f4.trans hi)
      exact ⟨s3, k1, k2, k3⟩
    | stream_started =>
      obtain ⟨s3, k1, k2, k3⟩ := ih (stream_started_cb st) n hfr hdec hs hi
      exact ⟨s3, k1, k2, k3⟩
    | stream_stopped =>
      obtain ⟨s3, k1, k2, k3⟩ := ih (stream_stopped_cb st) n hfr hdec hs hi
      exact ⟨s3, k1, k2, k3⟩

/-- C20: `start_i2s_out` starts at 10. After `init_lc3` has set up a decoder
(`frames_per_sdu` non-zero), every payload reaches the end of `stream_recv_cb`, and after
any sequence of audio events with n payloads the counter is `10 - n` for n up to 10 and
0 from then on, never negative; the first 10 payloads make no I2S call, and each later
payload calls `audio_i2s_start` and then `audio_i2s_set_next_buf`, so n payloads leave
`n - 10` such pairs of calls. The counter is not set again. -/
theorem output_start_countdown (frames : Int) (decoder : Ptr) (evs : List AudioEvent)
    (hfr : frames ≠ 0) (hdec : decoder ≠ none) :
    init_state.start_i2s_out = 10 ∧
    ∃ st, audio_run (init_lc3 init_state frames decoder) evs = some st ∧
      st.start_i2s_out = Int.ofNat (10 - recv_count evs) ∧
      0 ≤ st.start_i2s_out ∧
      st.i2s_calls = start_calls (recv_count evs - 10) := by
  obtain ⟨st, h1, h2, h3⟩ := audio_run_counts evs (init_lc3 init_state frames decoder) 0
    hfr hdec rfl rfl
  rw [Nat.zero_add] at h2 h3
  refine ⟨rfl, st, h1, h2, ?_, h3⟩
  rw [h2]
  exact Int.ofNat_zero_le _

/-- C20 on twelve payloads: the counter is at 0 and the output has been started twice. -/
theorem output_start_countdown_witness :
    init_state.start_i2s_out = 10 ∧
    ∃ st, audio_run (init_lc3 init_state 1 (some 1))
        (List.replicate 12 (AudioEvent.recv { flags := 1 } sample_buf
          { ret := 0, pcm := [] })) = some st ∧
      st.start_i2s_out = Int.ofNat (10 - recv_count
        (List.replicate 12 (AudioEvent.recv { flags := 1 } sample_buf
          { ret := 0, pcm := [] }))) ∧
      0 ≤ st.start_i2s_out ∧
      st.i2s_calls = start_calls (recv_count
        (List.replicate 12 (AudioEvent.recv { flags := 1 } sample_buf
          { ret := 0, pcm := [] })) - 10) :=
  output_start_countdown 1 (some 1) _ (by decide) (by decide)

/-! ## The codec driver: C17 and C19 -/

theorem entry_op_wait (W : Nat) (reg value : Nat) (h : reg = W) :
    entry_op W (reg, value) = CodecOp.k_busy_wait value := by
  simp [entry_op, h]

theorem entry_op_write (W : Nat) (reg value : Nat) (h : reg ≠ W) :
    entry_op W (reg, value) = CodecOp.cs47l63_write_reg reg value := by
  simp [entry_op, h]

/-- All writes succeed: every entry is carried out, in table order, and 0 is returned. -/
theorem reg_conf_write_from_ok (W : Nat) (write_ret : Nat → Int) (l : List (Nat × Nat))
    (k : Nat)
    (h : ∀ i, i < l.length → (l.getD i (0, 0)).1 ≠ W → write_ret (k + i) = 0) :
    cs47l63_comm_reg_conf_write_from W write_ret l k = (0, l.map (entry_op W)) := by
  induction l generalizing k with
  | nil => rfl
  | cons e rest ih =>
    obtain ⟨reg, value⟩ := e
    have hrest : ∀ i, i < rest.length → (rest.getD i (0, 0)).1 ≠ W →
        write_ret (k + 1 + i) = 0 := by
      intro i hi hne
      have := h (i + 1) (by simp only [List.length_cons]; omega) hne
      rw [show k + 1 + i = k + (i + 1) by omega]
      exact this
    have ih2 := ih (k + 1) hrest
    by_cases hw : reg = W
    · simp only [cs47l63_comm_reg_conf_write_from, hw, if_true, ih2, List.map_cons]
      rw [entry_op_wait W W value rfl]
    · have h0 : write_ret k = 0 := h 0 (by simp) hw
      simp only [cs47l63_comm_reg_conf_write_from, hw, if_false, h0, ne_eq,
        not_true_eq_false, ih2, List.map_cons]
      rw [entry_op_write W reg value hw]

/-- The write for entry `i` is the first to fail: the entries up to and including `i` are
carried out, in table order, and the error code of that write is returned. -/
theorem reg_conf_write_from_fail (W : Nat) (write_ret : Nat → Int) (l : List (Nat × Nat))
    (k i : Nat) (hi : i < l.length) (hne : (l.getD i (0, 0)).1 ≠ W)
    (hfail : write_ret (k + i) ≠ 0)
    (hbefore : ∀ j, j < i → (l.getD j (0, 0)).1 ≠ W → write_ret (k + j) = 0) :
    cs47l63_comm_reg_conf_write_from W write_ret l k =
      (write_ret (k + i), (l.take (i + 1)).map (entry_op W)) := by
  induction l generalizing k i with
  | nil => simp at hi
  | cons e rest ih =>
    obtain ⟨reg, value⟩ := e
    cases i with
    | zero =>
      have hw : reg ≠ W := hne
      have hf : write_ret k ≠ 0 := hfail
      simp only [cs47l63_comm_reg_conf_write_from, hw, if_false, hf, ne_eq,
        not_false_eq_true, if_true, Nat.add_zero, Nat.zero_add, List.take_succ_cons,
        List.take_zero, List.map_cons, List.map_nil]
      rw [entry_op_write W reg value hw]
    | succ i =>
      have hi2 : i < rest.length := by
        simp only [List.length_cons] at hi
        omega
      have e1 : k + (i + 1) = k + 1 + i := by omega
      have ih2 := ih (k + 1) i hi2 hne (by rw [← e1]; exact hfail)
        (fun j hj hjne => by
          have := hbefore (j + 1) (by omega) hjne
          rw [show k + 1 + j = k + (j + 1) by omega]
          exact this)
      rw [e1]
      by_cases hw : reg = W
      · simp only [cs47l63_comm_reg_conf_write_from, hw, if_true, ih2, List.take_succ_cons,
          List.map_cons]
        rw [entry_op_wait W W value rfl]
      · have h0 : write_ret k = 0 := hbefore 0 (by omega) hw
        simp only [cs47l63_comm_reg_conf_write_from, hw, if_false, h0, ne_eq,
          not_true_eq_false, ih2, List.take_succ_cons, List.map_cons]
        rw [entry_op_write W reg value hw]

/-- C17: `cs47l63_comm_reg_conf_write` on a table carries out its entries in table
order, a busy wait of `value` microseconds (and no write) for an entry with the address
SPI_BUSY_WAIT and one register write of (address, value) for every other entry. If all
writes succeed it returns 0 after the whole table; if the write for entry `i` is the
first to fail it returns the error code of that write after the entries up to `i`, with
no later entry written or waited on. -/
theorem reg_conf_write_in_table_order (W : Nat) (write_ret : Nat → Int)
    (table : List (Nat × Nat)) :
    ((∀ i, i < table.length → (table.getD i (0, 0)).1 ≠ W → write_ret i = 0) →
      cs47l63_comm_reg_conf_write W write_ret table table.length =
        (0, table.map (entry_op W))) ∧
    (∀ i, i < table.length → (table.getD i (0, 0)).1 ≠ W → write_ret i ≠ 0 →
      (∀ j, j < i → (table.getD j (0, 0)).1 ≠ W → write_ret j = 0) →
      cs47l63_comm_reg_conf_write W write_ret table table.length =
        (write_ret i, (table.take (i + 1)).map (entry_op W))) ∧
    (∀ reg value, entry_op W (reg, value) =
      if reg = W then CodecOp.k_busy_wait value else CodecOp.cs47l63_write_reg reg value) := by
  unfold cs47l63_comm_reg_conf_write
  rw [List.take_length]
  refine ⟨fun h => ?_, fun i hi hne hfail hbefore => ?_, fun reg value => rfl⟩
  · exact reg_conf_write_from_ok W write_ret table 0
      (fun i hi hne => by rw [Nat.zero_add]; exact h i hi hne)
  · have := reg_conf_write_from_fail W write_ret table 0 i hi hne
      (by rw [Nat.zero_add]; exact hfail)
      (fun j hj hjne => by rw [Nat.zero_add]; exact hbefore j hj hjne)
    rw [Nat.zero_add] at this
    exact this

/-- C17 on a table of four entries with sentinel address 1, the write for entry 2
failing with code 5: the first write, the wait and the failing write are carried out,
the last entry is not. -/
theorem reg_conf_write_in_table_order_witness :
    cs47l63_comm_reg_conf_write 1 (fun i => if i = 2 then 5 else 0)
        [(10, 1), (1, 100), (11, 2), (12, 3)] 4 =
      ((fun i => if i = 2 then (5 : Int) else 0) 2,
        ([(10, 1), (1, 100), (11, 2), (12, 3)].take (2 + 1)).map (entry_op 1)) :=
  (reg_conf_write_in_table_order 1 (fun i => if i = 2 then 5 else 0)
    [(10, 1), (1, 100), (11, 2), (12, 3)]).2.1 2 (by decide) (by decide) (by decide)
    (by decide)

theorem to_int32_to_uint32 (x : Int) (h1 : -2 ^ 31 ≤ x) (h2 : x < 2 ^ 31) :
    to_int32 (to_uint32 x) = x := by
  unfold to_int32 to_uint32
  have hm0 : 0 ≤ x % 2 ^ 32 := Int.emod_nonneg x (by decide)
  generalize hu : (x % 2 ^ 32).toNat = u
  have hux : (u : Int) = x % 2 ^ 32 := by
    rw [← hu]
    exact Int.toNat_of_nonneg hm0
  simp only [Int.ofNat_eq_coe]
  have p31 : (2 : Int) ^ 31 = 2147483648 := by decide
  have p32 : (2 : Int) ^ 32 = 4294967296 := by decide
  have n31 : (2 : Nat) ^ 31 = 2147483648 := by decide
  rw [p31] at h1 h2
  rw [p32] at hux ⊢
  rw [n31]
  split <;> omega

theorem to_uint32_of_nonneg (x : Int) (h1 : 0 ≤ x) (h2 : x < 2 ^ 32) :
    to_uint32 x = x.toNat := by
  unfold to_uint32
  rw [Int.emod_eq_of_lt h1 h2]

theorem testBit_not32_two_pow (b i : Nat) (hb : b < 32) :
    (not32 (2 ^ b)).testBit i = (decide (i < 32) && !decide (b = i)) := by
  unfold not32
  rw [Nat.testBit_xor, Nat.testBit_two_pow_sub_one, Nat.testBit_two_pow]
  by_cases h1 : i < 32 <;> by_cases h2 : b = i <;> simp [h1, h2]
  omega

theorem testBit_small (c w i : Nat) (hc : c < 2 ^ w) (hi : w ≤ i) : c.testBit i = false :=
  Nat.testBit_lt_two_pow (Nat.lt_of_lt_of_le hc (Nat.pow_le_pow_right (by decide) hi))

/-- The value written by the volume code, for a volume `c` inside a field of `w` bits,
the update bit `a` and the mute bit `b` outside the field. -/
theorem volume_word_fields (c w a b : Nat) (hc : c < 2 ^ w) (ha : w ≤ a) (ha32 : a < 32)
    (hb : w ≤ b) (hb32 : b < 32) (hab : a ≠ b) :
    ((c ||| 2 ^ a) &&& not32 (2 ^ b)) &&& (2 ^ w - 1) = c ∧
    ((c ||| 2 ^ a) &&& not32 (2 ^ b)) &&& 2 ^ a = 2 ^ a ∧
    ((c ||| 2 ^ a) &&& not32 (2 ^ b)) &&& 2 ^ b = 0 := by
  refine ⟨?_, ?_, ?_⟩
  · apply Nat.eq_of_testBit_eq
    intro i
    rw [Nat.testBit_and, Nat.testBit_and, Nat.testBit_or, testBit_not32_two_pow b i hb32,
      Nat.testBit_two_pow_sub_one, Nat.testBit_two_pow]
    by_cases hi : i < w
    · have h1 : i < 32 := by omega
      have h2 : ¬ b = i := by omega
      have h3 : ¬ a = i := by omega
      simp [hi, h1, h2, h3]
    · rw [testBit_small c w i hc (by omega)]
      simp [hi]
  · apply Nat.eq_of_testBit_eq
    intro i
    rw [Nat.testBit_and, Nat.testBit_and, Nat.testBit_or, testBit_not32_two_pow b i hb32,
      Nat.testBit_two_pow]
    by_cases hi : a = i
    · subst hi
      have h2 : ¬ b = a := fun h => hab h.symm
      simp [ha32, h2]
    · simp [hi]
  · apply Nat.eq_of_testBit_eq
    intro i
    rw [Nat.testBit_and, Nat.testBit_and, Nat.testBit_or, testBit_not32_two_pow b i hb32,
      Nat.testBit_two_pow, Nat.zero_testBit]
    by_cases hi : b = i
    · simp [hi]
    · simp [hi]

/-- C19: let the volume field be the low `w <= 30` bits (CS47L63_OUT1L_VOL_MASK), the
update bit CS47L63_OUT_VU and the mute bit CS47L63_OUT1L_MUTE two different bits above
the field and below bit 32, and MAX_VOLUME_REG_VAL inside the field. For every register
value `r` and every non-zero `adjustment_db` in [-128, 127]: if the read fails, its error
is returned, nothing is written and the remembered volume is unchanged; otherwise one
value is written whose volume field is `clamp((r & mask) + 2 * adjustment_db, 0,
MAX_VOLUME_REG_VAL)`, with the update bit set and the mute bit clear, the result of the
write is returned, and the remembered volume becomes the clamped value if the write
succeeds and is unchanged if it fails. -/
theorem volume_adjust_clamps (K : CodecConsts) (w a b prev r : Nat)
    (adjustment_db read_ret write_ret : Int)
    (hmask : K.CS47L63_OUT1L_VOL_MASK = 2 ^ w - 1) (hw : w ≤ 30)
    (hmax : K.MAX_VOLUME_REG_VAL < 2 ^ w)
    (hvu : K.CS47L63_OUT_VU = 2 ^ a) (hmute : K.CS47L63_OUT1L_MUTE = 2 ^ b)
    (ha : w ≤ a) (ha32 : a < 32) (hb : w ≤ b) (hb32 : b < 32) (hab : a ≠ b)
    (hadj0 : adjustment_db ≠ 0) (hlo : -128 ≤ adjustment_db) (hhi : adjustment_db ≤ 127) :
    (read_ret ≠ 0 →
      hw_codec_volume_adjust K prev adjustment_db read_ret r write_ret =
        (read_ret, prev, [CodecOp.cs47l63_read_reg K.CS47L63_OUT1L_VOLUME_1])) ∧
    (read_ret = 0 →
      ∃ written : Nat,
        hw_codec_volume_adjust K prev adjustment_db read_ret r write_ret =
          (write_ret,
           if write_ret = 0 then
             (max 0 (min (Int.ofNat K.MAX_VOLUME_REG_VAL)
               (Int.ofNat (r &&& K.CS47L63_OUT1L_VOL_MASK) + 2 * adjustment_db))).toNat
           else prev,
           [CodecOp.cs47l63_read_reg K.CS47L63_OUT1L_VOLUME_1,
            CodecOp.cs47l63_write_reg K.CS47L63_OUT1L_VOLUME_1 written]) ∧
        Int.ofNat (written &&& K.CS47L63_OUT1L_VOL_MASK) =
          max 0 (min (Int.ofNat K.MAX_VOLUME_REG_VAL)
            (Int.ofNat (r &&& K.CS47L63_OUT1L_VOL_MASK) + 2 * adjustment_db)) ∧
        written &&& K.CS47L63_OUT_VU = K.CS47L63_OUT_VU ∧
        written &&& K.CS47L63_OUT1L_MUTE = 0) := by
  constructor
  · intro hr
    unfold hw_codec_volume_adjust
    rw [if_neg hadj0, if_pos hr]
  · intro hr
    have hr0 : ¬ read_ret ≠ 0 := fun h => h hr
    have hw30 : (2 : Nat) ^ w ≤ 2 ^ 30 := Nat.pow_le_pow_right (by decide) hw
    have n30 : (2 : Nat) ^ 30 = 1073741824 := by decide
    have p31 : (2 : Int) ^ 31 = 2147483648 := by decide
    have p32 : (2 : Int) ^ 32 = 4294967296 := by decide
    have hpos : 0 < 2 ^ w := Nat.pow_pos (by decide)
    have hv : r &&& K.CS47L63_OUT1L_VOL_MASK < 2 ^ w := by
      rw [hmask, Nat.and_pow_two_sub_one_eq_mod]
      exact Nat.mod_lt _ hpos
    generalize hvdef : r &&& K.CS47L63_OUT1L_VOL_MASK = v at hv ⊢
    generalize hMdef : K.MAX_VOLUME_REG_VAL = M at hmax ⊢
    have hx : to_int32 (to_uint32 (Int.ofNat v + adjustment_db * 2)) =
        Int.ofNat v + adjustment_db * 2 := by
      apply to_int32_to_uint32
      · rw [p31]
        simp only [Int.ofNat_eq_coe]
        omega
      · rw [p31]
        simp only [Int.ofNat_eq_coe]
        omega
    generalize hcdef : max 0 (min (Int.ofNat M) (Int.ofNat v + 2 * adjustment_db)) = c
    have hc0 : 0 ≤ c := by
      rw [← hcdef]
      exact Int.le_max_left _ _
    have hcM : c ≤ Int.ofNat M := by
      rw [← hcdef]
      simp only [Int.ofNat_eq_coe]
      omega
    have hnew : (if Int.ofNat v + adjustment_db * 2 < 0 then (0 : Int)
        else if Int.ofNat v + adjustment_db * 2 > Int.ofNat M then Int.ofNat M
        else Int.ofNat v + adjustment_db * 2) = c := by
      rw [← hcdef]
      simp only [Int.ofNat_eq_coe]
      split
      · omega
      · split <;> omega
    have hcn : c.toNat < 2 ^ w := by
      have : (c.toNat : Int) = c := Int.toNat_of_nonneg hc0
      simp only [Int.ofNat_eq_coe] at hcM
      omega
    have hcu : to_uint32 c = c.toNat := by
      apply to_uint32_of_nonneg c hc0
      rw [p32]
      have : (c.toNat : Int) = c := Int.toNat_of_nonneg hc0
      omega
    obtain ⟨f1, f2, f3⟩ := volume_word_fields c.toNat w a b hcn ha ha32 hb hb32 hab
    refine ⟨(c.toNat ||| 2 ^ a) &&& not32 (2 ^ b), ?_, ?_, ?_, ?_⟩
    · unfold hw_codec_volume_adjust
      rw [if_neg hadj0, if_neg hr0]
      simp only [hvdef, hMdef, hx, hnew, hcu, hvu, hmute]
      by_cases hwr : write_ret = 0
      · simp [hwr]
      · simp [hwr]
    · rw [hmask, f1]
      exact Int.toNat_of_nonneg hc0
    · rw [hvu, f2]
    · rw [hmute, f3]

/-- C19 with the volume field in the low eight bits, the update bit 9, the mute bit 8 and
0x80 as highest volume: register value 0x362, adjustment -3 dB. -/
theorem volume_adjust_clamps_witness :
    ∃ written : Nat,
      hw_codec_volume_adjust codec_consts 0x62 (-3) 0 0x362 0 =
        (0,
         if (0 : Int) = 0 then
           (max 0 (min (Int.ofNat codec_consts.MAX_VOLUME_REG_VAL)
             (Int.ofNat (0x362 &&& codec_consts.CS47L63_OUT1L_VOL_MASK) + 2 * (-3)))).toNat
         else 0x62,
         [CodecOp.cs47l63_read_reg codec_consts.CS47L63_OUT1L_VOLUME_1,
          CodecOp.cs47l63_write_reg codec_consts.CS47L63_OUT1L_VOLUME_1 written]) ∧
      Int.ofNat (written &&& codec_consts.CS47L63_OUT1L_VOL_MASK) =
        max 0 (min (Int.ofNat codec_consts.MAX_VOLUME_REG_VAL)
          (Int.ofNat (0x362 &&& codec_consts.CS47L63_OUT1L_VOL_MASK) + 2 * (-3))) ∧
      written &&& codec_consts.CS47L63_OUT_VU = codec_consts.CS47L63_OUT_VU ∧
      written &&& codec_consts.CS47L63_OUT1L_MUTE = 0 :=
  (volume_adjust_clamps codec_consts 8 9 8 0x62 0x362 (-3) 0 0 (by decide) (by decide)
    (by decide) (by decide) (by decide) (by decide) (by decide) (by decide) (by decide)
    (by decide) (by decide) (by decide) (by decide)).2 rfl

end BroadcastSink
